import Mathlib

/-!
# Shared-memory simulation API (`sim_api.h`)

A shallow embedding of `channel_t` and `sim_api_t<T>` and the properties of the
dispatcher that are established about them.
-/

namespace SimApi

/-! ## Want-flag / turn protocol of `channel_t::aquire` and `channel_t::release` -/

/-- Control points of one process running `aquire(); <critical section>; release();`
on a channel, one point per shared-memory access. -/
inductive Pc
  /-- before the write of the own want-flag -/
  | idle
  /-- own want-flag written, before the write of `channel[2]` -/
  | setTurn
  /-- in the spin loop, about to read the other side's want-flag -/
  | readWant
  /-- in the spin loop, the other want-flag was 1, about to read `channel[2]` -/
  | readTurn
  /-- `aquire` has returned and `release` has not started -/
  | crit
  deriving DecidableEq, Repr

/-- Bytes 0..2 of one channel region together with the control point of the
simulator and of its peer. -/
structure Mutex where
  /-- `channel[0]`, the tester's want-flag -/
  b0 : Nat
  /-- `channel[1]`, the simulator's want-flag -/
  b1 : Nat
  /-- `channel[2]`, the turn -/
  b2 : Nat
  /-- where the simulator is -/
  sim : Pc
  /-- where the peer is -/
  peer : Pc
  deriving DecidableEq, Repr

/-- The freshly truncated and mapped region: all bytes zero, nobody has started. -/
def Mutex.init : Mutex := { b0 := 0, b1 := 0, b2 := 0, sim := Pc.idle, peer := Pc.idle }

/-- One atomic access of the simulator:
`channel[1] = 1; channel[2] = 1; while (channel[0] == 1 && channel[2] == 1);`
then the critical section, then `channel[1] = 0`. The `&&` reads `channel[0]`
first and reads `channel[2]` only when the first comparison was true. -/
def simStep (s : Mutex) : Mutex :=
  match s.sim with
  | Pc.idle => { s with b1 := 1, sim := Pc.setTurn }
  | Pc.setTurn => { s with b2 := 1, sim := Pc.readWant }
  | Pc.readWant => if s.b0 = 1 then { s with sim := Pc.readTurn } else { s with sim := Pc.crit }
  | Pc.readTurn => if s.b2 = 1 then { s with sim := Pc.readWant } else { s with sim := Pc.crit }
  | Pc.crit => { s with b1 := 0, sim := Pc.idle }

/-- Modelled from the spec: the tester-side acquire/release, which is not part of
`sim_api.h`. It is the mirrored algorithm with the flag roles swapped:
`byte0 := 1; byte2 := 0; spin while byte1 == 1 && byte2 == 0`, then the
critical section, then `byte0 := 0`. -/
def peerStep (s : Mutex) : Mutex :=
  match s.peer with
  | Pc.idle => { s with b0 := 1, peer := Pc.setTurn }
  | Pc.setTurn => { s with b2 := 0, peer := Pc.readWant }
  | Pc.readWant => if s.b1 = 1 then { s with peer := Pc.readTurn } else { s with peer := Pc.crit }
  | Pc.readTurn => if s.b2 = 0 then { s with peer := Pc.readWant } else { s with peer := Pc.crit }
  | Pc.crit => { s with b0 := 0, peer := Pc.idle }

/-- An interleaving is a list of scheduling choices: `true` lets the simulator do
its next access, `false` lets the peer do its next access. -/
def runSchedule (sched : List Bool) (s : Mutex) : Mutex :=
  sched.foldl (fun st b => if b then simStep st else peerStep st) s

/-- The simulator is past its spin loop or inside it. -/
def Pc.contending (p : Pc) : Bool :=
  match p with
  | Pc.readWant => true
  | Pc.readTurn => true
  | Pc.crit => true
  | _ => false

/-- Inductive invariant of the protocol. -/
structure MutexInv (s : Mutex) : Prop where
  want1 : s.b1 = if s.sim = Pc.idle then 0 else 1
  want0 : s.b0 = if s.peer = Pc.idle then 0 else 1
  turn : s.b2 ≤ 1
  simIn : s.sim = Pc.crit → s.peer.contending = true → s.b2 = 0
  peerIn : s.peer = Pc.crit → s.sim.contending = true → s.b2 = 1


/-! ## Machine integers -/

/-- Number of values of a `size_t` / `uint64_t`. -/
def SIZE_MOD : Nat := 2 ^ 64

/-- Number of values of the type underlying `enum SIM_CMD` (a 32-bit `unsigned int`). -/
def ENUM_MOD : Nat := 2 ^ 32

/-- `a + b` on `size_t`. -/
def addSize (a b : Nat) : Nat := (a + b) % SIZE_MOD

/-- Conversion of an `int` to `size_t` (as in `send_resp(id)` with `int id`). -/
def intToSize (i : Int) : Nat := (i % (SIZE_MOD : Int)).toNat

/-- A value as an `int`: 32 bits, two's complement. -/
def toInt (i : Int) : Int := (i + 2 ^ 31) % 2 ^ 32 - 2 ^ 31

/-- A `uint64_t` word read back as a signed 64-bit integer. -/
def asSigned (w : Nat) : Int := if w < 2 ^ 63 then (w : Int) else (w : Int) - (SIZE_MOD : Int)

/-- `enum SIM_CMD { RESET, STEP, UPDATE, POKE, PEEK, FORCE, GETID, GETCHK, SETCLK, FIN }`. -/
inductive SIM_CMD
  | RESET | STEP | UPDATE | POKE | PEEK | FORCE | GETID | GETCHK | SETCLK | FIN
  deriving DecidableEq, Repr

/-- Numeric value of an enumerator: enumerators without initialisers count from 0. -/
def SIM_CMD.val : SIM_CMD → Nat
  | SIM_CMD.RESET => 0
  | SIM_CMD.STEP => 1
  | SIM_CMD.UPDATE => 2
  | SIM_CMD.POKE => 3
  | SIM_CMD.PEEK => 4
  | SIM_CMD.FORCE => 5
  | SIM_CMD.GETID => 6
  | SIM_CMD.GETCHK => 7
  | SIM_CMD.SETCLK => 8
  | SIM_CMD.FIN => 9

/-- The cast `(SIM_CMD) cmd` of a `size_t` followed by the selection of the `case`
label of the `switch`. `SIM_CMD` has no fixed underlying type; its enumerators fit an
`unsigned int`, so the converted value keeps the low 32 bits of the word. `none` is
the `default:` label. -/
def castCmd (cmd : Nat) : Option SIM_CMD :=
  match cmd % ENUM_MOD with
  | 0 => some SIM_CMD.RESET
  | 1 => some SIM_CMD.STEP
  | 2 => some SIM_CMD.UPDATE
  | 3 => some SIM_CMD.POKE
  | 4 => some SIM_CMD.PEEK
  | 5 => some SIM_CMD.FORCE
  | 6 => some SIM_CMD.GETID
  | 7 => some SIM_CMD.GETCHK
  | 8 => some SIM_CMD.SETCLK
  | 9 => some SIM_CMD.FIN
  | _ => none

/-! ## `channel_t` -/

/-- The mapped region of one channel: the four control bytes and the payload, which
is read either as 8-byte words (`data()`) or as a C string (`str()`). The simulator
never writes the payload through one view and reads it through the other, so the two
views are kept side by side. -/
structure channel_t where
  /-- `channel[0]`: want-flag of the tester -/
  b0 : Nat
  /-- `channel[1]`: want-flag of the simulator -/
  b1 : Nat
  /-- `channel[2]`: turn -/
  b2 : Nat
  /-- `channel[3]`: payload-valid flag -/
  b3 : Nat
  /-- `data()[j]`: the j-th 8-byte word after byte 4 -/
  words : Nat → Nat
  /-- `str()`: the bytes after byte 4 up to the first NUL -/
  str : String

namespace channel_t

/-- `release()`: `channel[1] = 0`. -/
def release (c : channel_t) : channel_t := { c with b1 := 0 }

/-- `produce()`: `channel[3] = 1`. -/
def produce (c : channel_t) : channel_t := { c with b3 := 1 }

/-- `consume()`: `channel[3] = 0`. -/
def consume (c : channel_t) : channel_t := { c with b3 := 0 }

/-- `ready()`: `channel[3] == 0`. -/
def ready (c : channel_t) : Bool := c.b3 == 0

/-- `valid()`: `channel[3] == 1`. -/
def valid (c : channel_t) : Bool := c.b3 == 1

/-- Index into `data()` used by `operator[](i)`: `i*sizeof(uint64_t)`. -/
def slot (i : Nat) : Nat := (i * 8) % SIZE_MOD

/-- Read through `operator[](i)`, that is `data()[i*sizeof(uint64_t)]`. -/
def get (c : channel_t) (i : Nat) : Nat := c.words (slot i)

/-- Write through `operator[](i)`. -/
def set (c : channel_t) (i : Nat) (v : Nat) : channel_t :=
  { c with words := Function.update c.words (slot i) v }

/-- The first two statements of `aquire()`: `channel[1] = 1; channel[2] = 1;`. -/
def want (c : channel_t) : channel_t := { c with b1 := 1, b2 := 1 }

/-- Condition of the spin loop of `aquire()`: `channel[0] == 1 && channel[2] == 1`. -/
def mustWait (c : channel_t) : Bool := c.b0 == 1 && c.b2 == 1

end channel_t

/-- The three channels of a dispatcher. -/
inductive Chan
  | in_channel
  | out_channel
  | cmd_channel
  deriving DecidableEq, Repr

/-! ## `sim_data_t` and the backend -/

/-- `sim_data_t<T>`. A `std::vector` is a list; a `std::map` is the partial function
from keys to the stored value. -/
structure sim_data_t (T : Type) where
  resets : List T
  inputs : List T
  outputs : List T
  signals : List T
  signal_map : String → Option Nat
  clk_map : String → Option T

/-- The freshly constructed `sim_data_t`: empty vectors and maps. -/
def sim_data_t.empty (T : Type) : sim_data_t T :=
  { resets := [], inputs := [], outputs := [], signals := [],
    signal_map := fun _ => none, clk_map := fun _ => none }

/-- The (pure) virtual members of `sim_api_t<T>` that a concrete simulator supplies,
acting on the simulator's own state `β`. Handles are passed by value; `sim_data` and
the channels are not handed to the hooks. The pointer `data+off` is given as the
payload words together with the word offset `off`. -/
structure Backend (T β : Type) where
  /-- `!obj` -/
  isNull : T → Bool
  reset : β → β
  start : β → β
  finish : β → β
  update : β → β
  step : β → β
  /-- `size_t put_value(T& sig, uint64_t* data, bool force)`: reads the words at
  `data`, returns the number of words consumed. -/
  put_value : T → (Nat → Nat) → Nat → Bool → β → Nat × β
  /-- `size_t get_value(T& sig, uint64_t* data)`: writes words at `data`, returns the
  number of words produced. -/
  get_value : T → (Nat → Nat) → Nat → β → Nat × (Nat → Nat) × β
  /-- `int search(std::string& path)` -/
  search : String → β → Int × β
  /-- `size_t get_chunk(T& sig)` -/
  get_chunk : T → β → Nat × β

/-- The default `search`, which is not pure virtual: `return -1;`. -/
def defaultSearch {β : Type} (_path : String) (b : β) : Int × β := (-1, b)

/-- What the dispatcher did, in order (an observation log, not program state). -/
inductive Event (T : Type)
  | reset
  | start
  | finish
  | update
  | step
  /-- `put_value(sig, data + off, force)` returned `ret` -/
  | put_value (sig : T) (off : Nat) (force : Bool) (ret : Nat)
  /-- `get_value(sig, data + off)` returned `ret` -/
  | get_value (sig : T) (off : Nat) (ret : Nat)
  | search (path : String)
  | get_chunk (sig : T)
  /-- `produce()` on a channel -/
  | produce (c : Chan)
  /-- `consume()` on a channel -/
  | consume (c : Chan)
  /-- the `switch` of `tick()` is entered with this opcode word -/
  | opcode (cmd : Nat)
  deriving DecidableEq, Repr

/-! ## `sim_api_t<T>` -/

/-- State of the dispatcher and of what it shares with the tester. -/
structure sim_api_t (T β : Type) where
  /-- the regions behind `in_channel`, `out_channel`, `cmd_channel` -/
  ch : Chan → channel_t
  sim_data : sim_data_t T
  /-- `static bool is_reset` of `tick()` -/
  is_reset : Bool
  /-- state owned by the backend -/
  backend : β
  /-- what the tester will do to the three regions, one entry per opportunity -/
  tester : List ((Chan → channel_t) → (Chan → channel_t))
  /-- observation log -/
  log : List (Event T)

/-- Nothing of the dispatcher itself has changed from `s` to `s1`: at most the
regions and the remaining script of the tester differ. -/
def Quiet {T β : Type} (s s1 : sim_api_t T β) : Prop :=
  s1.sim_data = s.sim_data ∧ s1.is_reset = s.is_reset ∧ s1.backend = s.backend ∧
    s1.log = s.log

/-- Outcome of running a piece of the dispatcher from a state. -/
inductive Res (σ α : Type)
  /-- returned normally -/
  | ok (a : α) (s : σ)
  /-- `exit(code)` was called -/
  | exited (code : Nat) (s : σ)
  /-- an access with undefined behaviour was reached (vector index out of range,
  dereference of `end()`) -/
  | undef (s : σ)
  /-- still inside a loop when the fuel ran out -/
  | spinning (s : σ)

/-- The state in which an outcome was reached. -/
def Res.state {σ α : Type} : Res σ α → σ
  | Res.ok _ s => s
  | Res.exited _ s => s
  | Res.undef s => s
  | Res.spinning s => s

/-- A piece of the dispatcher: a state transformer with an outcome. -/
def M (σ α : Type) : Type := σ → Res σ α

/-- Sequencing: only a normal return continues. -/
def M.bind {σ α γ : Type} (x : M σ α) (f : α → M σ γ) : M σ γ := fun s =>
  match x s with
  | Res.ok a s1 => f a s1
  | Res.exited c s1 => Res.exited c s1
  | Res.undef s1 => Res.undef s1
  | Res.spinning s1 => Res.spinning s1

instance instMonadM {σ : Type} : Monad (M σ) where
  pure := fun a s => Res.ok a s
  bind := M.bind

/-- One well-formed line of the registry file, `<path> <bit-width> <word-count>`, as
extracted by `iss >> path >> width >> n`. -/
structure Line where
  path : String
  width : Nat
  n : Nat
  deriving DecidableEq, Repr

/-- The channel region of a freshly truncated file: all bytes zero. -/
def channel_t.zero : channel_t :=
  { b0 := 0, b1 := 0, b2 := 0, b3 := 0, words := fun _ => 0, str := "" }

/-- A dispatcher over fresh channel regions with an empty `sim_data`, a quiescent
tester and an empty log. -/
def sim_api_t.fresh (T β : Type) (b : β) : sim_api_t T β :=
  { ch := fun _ => channel_t.zero, sim_data := sim_data_t.empty T, is_reset := false,
    backend := b, tester := [], log := [] }

/-- A backend without state over handles that are null when 0: every hook does
nothing, every value has one word, `search` is the default. -/
def defaultBackend (T : Type) [OfNat T 0] [DecidableEq T] : Backend T Unit :=
  { isNull := fun h => decide (h = 0),
    reset := id, start := id, finish := id, update := id, step := id,
    put_value := fun _ _ _ _ b => (1, b),
    get_value := fun _ w _ b => (1, w, b),
    search := defaultSearch,
    get_chunk := fun _ b => (1, b) }


section Dispatcher

variable {T β : Type}

/-- Append to the observation log. -/
def emit (e : Event T) : M (sim_api_t T β) Unit :=
  fun s => Res.ok () { s with log := s.log ++ [e] }

/-- Apply a `channel_t` member to one of the three channels. -/
def onChan (c : Chan) (f : channel_t → channel_t) : M (sim_api_t T β) Unit :=
  fun s => Res.ok () { s with ch := Function.update s.ch c (f (s.ch c)) }

/-- Read the current state. -/
def getState : M (sim_api_t T β) (sim_api_t T β) := fun s => Res.ok s s

/-- The tester takes its next opportunity to access the regions, if it has any left. -/
def testerTurn : M (sim_api_t T β) Unit := fun s =>
  match s.tester with
  | [] => Res.ok () s
  | a :: rest => Res.ok () { s with ch := a s.ch, tester := rest }

/-- `exit(code)`. -/
def exit (code : Nat) {α : Type} : M (sim_api_t T β) α := fun s => Res.exited code s

/-- The spin loop `while (channel[0] == 1 && channel[2] == 1);` of `aquire()`; the
tester gets an opportunity between two evaluations of the condition. -/
def spin (c : Chan) : Nat → M (sim_api_t T β) Unit
  | 0 => fun s => if (s.ch c).mustWait then Res.spinning s else Res.ok () s
  | fuel + 1 => fun s =>
    if (s.ch c).mustWait then (testerTurn >>= fun _ => spin c fuel) s else Res.ok () s

/-- `channel_t::aquire()`. -/
def aquire (c : Chan) (fuel : Nat) : M (sim_api_t T β) Unit := do
  onChan c channel_t.want
  spin c fuel

/-- `channel_t::release()`. -/
def release (c : Chan) : M (sim_api_t T β) Unit := onChan c channel_t.release

/-- `channel_t::produce()`. -/
def produce (c : Chan) : M (sim_api_t T β) Unit := do
  onChan c channel_t.produce
  emit (Event.produce c)

/-- `channel_t::consume()`. -/
def consume (c : Chan) : M (sim_api_t T β) Unit := do
  onChan c channel_t.consume
  emit (Event.consume c)

/-- `while (!op(x));` where `x` is passed by reference: the operation is attempted
until it returns true; the tester gets an opportunity before each attempt. -/
def retry {α : Type} (op : α → M (sim_api_t T β) (Bool × α)) :
    Nat → α → M (sim_api_t T β) α
  | 0, _ => fun s => Res.spinning s
  | fuel + 1, x => do
    testerTurn
    let r ← op x
    if r.1 then pure r.2 else retry op fuel r.2

/-! ### Calls of the backend -/

variable (B : Backend T β)

/-- Call of a hook without arguments. -/
def hook (f : β → β) (e : Event T) : M (sim_api_t T β) Unit :=
  fun s => Res.ok () { s with backend := f s.backend, log := s.log ++ [e] }

/-- `put_value(sig, c->data() + off, force)`. -/
def call_put_value (c : Chan) (sig : T) (off : Nat) (force : Bool) : M (sim_api_t T β) Nat :=
  fun s =>
    let r := B.put_value sig (s.ch c).words off force s.backend
    Res.ok r.1 { s with backend := r.2, log := s.log ++ [Event.put_value sig off force r.1] }

/-- `get_value(sig, c->data() + off)`. -/
def call_get_value (c : Chan) (sig : T) (off : Nat) : M (sim_api_t T β) Nat :=
  fun s =>
    let r := B.get_value sig (s.ch c).words off s.backend
    Res.ok r.1 { s with
      ch := Function.update s.ch c { s.ch c with words := r.2.1 },
      backend := r.2.2,
      log := s.log ++ [Event.get_value sig off r.1] }

/-- `search(path)`; the value returned is an `int`. -/
def call_search (path : String) : M (sim_api_t T β) Int :=
  fun s =>
    let r := B.search path s.backend
    Res.ok (toInt r.1) { s with backend := r.2, log := s.log ++ [Event.search path] }

/-- `get_chunk(sig)`. -/
def call_get_chunk (sig : T) : M (sim_api_t T β) Nat :=
  fun s =>
    let r := B.get_chunk sig s.backend
    Res.ok r.1 { s with backend := r.2, log := s.log ++ [Event.get_chunk sig] }

/-! ### Channel operations of the dispatcher -/

/-- `bool recv_cmd(size_t& cmd)`; the reference argument is passed in and handed back. -/
def recv_cmd (fuel : Nat) (cmd : Nat) : M (sim_api_t T β) (Bool × Nat) := do
  aquire Chan.cmd_channel fuel
  let s ← getState
  let valid := (s.ch Chan.cmd_channel).valid
  let cmd1 ← (if valid then do
      consume Chan.cmd_channel
      pure ((s.ch Chan.cmd_channel).get 0)
    else pure cmd)
  release Chan.cmd_channel
  pure (valid, cmd1)

/-- `bool recv_cmd(std::string& path)`. -/
def recv_cmd_str (fuel : Nat) (path : String) : M (sim_api_t T β) (Bool × String) := do
  aquire Chan.cmd_channel fuel
  let s ← getState
  let valid := (s.ch Chan.cmd_channel).valid
  let path1 ← (if valid then do
      consume Chan.cmd_channel
      pure (s.ch Chan.cmd_channel).str
    else pure path)
  release Chan.cmd_channel
  pure (valid, path1)

/-- `bool send_resp(size_t value)`. -/
def send_resp (value : Nat) (fuel : Nat) (_u : Unit) : M (sim_api_t T β) (Bool × Unit) := do
  aquire Chan.out_channel fuel
  let s ← getState
  let ready := (s.ch Chan.out_channel).ready
  (if ready then do
      onChan Chan.out_channel (fun c => c.set 0 value)
      produce Chan.out_channel
    else pure ())
  release Chan.out_channel
  pure (ready, ())

/-- `bool recv_value(T& obj, bool force = false)`. -/
def recv_value (obj : T) (force : Bool) (fuel : Nat) (_u : Unit) :
    M (sim_api_t T β) (Bool × Unit) := do
  aquire Chan.in_channel fuel
  let s ← getState
  let valid := (s.ch Chan.in_channel).valid
  (if valid then do
      let _ ← call_put_value B Chan.in_channel obj 0 force
      consume Chan.in_channel
    else pure ())
  release Chan.in_channel
  pure (valid, ())

/-- `bool send_value(T& obj)`. -/
def send_value (obj : T) (fuel : Nat) (_u : Unit) : M (sim_api_t T β) (Bool × Unit) := do
  aquire Chan.out_channel fuel
  let s ← getState
  let ready := (s.ch Chan.out_channel).ready
  (if ready then do
      let _ ← call_get_value B Chan.out_channel obj 0
      produce Chan.out_channel
    else pure ())
  release Chan.out_channel
  pure (ready, ())

/-- The `for` loop of `recv_tokens()` over the input signals that remain, entered
with the current `off`; returns the final `off`. -/
def put_tokens : List T → Nat → M (sim_api_t T β) Nat
  | [], off => pure off
  | sig :: rest, off => do
    let n ← call_put_value B Chan.in_channel sig off false
    put_tokens rest (addSize off n)

/-- The `for` loop of `send_tokens()` over the output signals that remain. -/
def get_tokens : List T → Nat → M (sim_api_t T β) Nat
  | [], off => pure off
  | sig :: rest, off => do
    let n ← call_get_value B Chan.out_channel sig off
    get_tokens rest (addSize off n)

/-- `bool recv_tokens()`. -/
def recv_tokens (fuel : Nat) (_u : Unit) : M (sim_api_t T β) (Bool × Unit) := do
  aquire Chan.in_channel fuel
  let s ← getState
  let valid := (s.ch Chan.in_channel).valid
  (if valid then do
      let _ ← put_tokens B s.sim_data.inputs 0
      consume Chan.in_channel
    else pure ())
  release Chan.in_channel
  pure (valid, ())

/-- `bool send_tokens()`. -/
def send_tokens (fuel : Nat) (_u : Unit) : M (sim_api_t T β) (Bool × Unit) := do
  aquire Chan.out_channel fuel
  let s ← getState
  let ready := (s.ch Chan.out_channel).ready
  (if ready then do
      let _ ← get_tokens B s.sim_data.outputs 0
      produce Chan.out_channel
    else pure ())
  release Chan.out_channel
  pure (ready, ())

/-! ### Opcode handlers -/

/-- `sim_data.signals[id]`: the unchecked `std::vector::operator[]`. -/
def signal_at (id : Nat) : M (sim_api_t T β) T := fun s =>
  match s.sim_data.signals[id]? with
  | some obj => Res.ok obj s
  | none => Res.undef s

/-- `void poke(bool force = false)`. -/
def poke (force : Bool) (fuel : Nat) : M (sim_api_t T β) Unit := do
  let id ← retry (recv_cmd fuel) fuel 0
  let obj ← signal_at id
  (if B.isNull obj then do
      hook B.finish Event.finish
      exit 2
    else pure ())
  retry (recv_value B obj force fuel) fuel ()

/-- `void peek()`. -/
def peek (fuel : Nat) : M (sim_api_t T β) Unit := do
  let id ← retry (recv_cmd fuel) fuel 0
  let obj ← signal_at id
  (if B.isNull obj then do
      hook B.finish Event.finish
      exit 2
    else pure ())
  retry (send_value B obj fuel) fuel ()

/-- `void getid()`. The result of `search` is an `int` and is converted to the
`size_t` parameter of `send_resp`. -/
def getid (fuel : Nat) : M (sim_api_t T β) Unit := do
  let path ← retry (recv_cmd_str fuel) fuel ""
  let s ← getState
  match s.sim_data.signal_map path with
  | some id => retry (send_resp id fuel) fuel ()
  | none => do
    let id ← call_search B path
    retry (send_resp (intToSize id) fuel) fuel ()

/-- `void getchk()`. -/
def getchk (fuel : Nat) : M (sim_api_t T β) Unit := do
  let id ← retry (recv_cmd fuel) fuel 0
  let obj ← signal_at id
  (if B.isNull obj then do
      hook B.finish Event.finish
      exit 2
    else pure ())
  let chunk ← call_get_chunk B obj
  retry (send_resp chunk fuel) fuel ()

/-- `void setclk()`. When the path is not in `clk_map`, `it->second` dereferences
`end()`. -/
def setclk (fuel : Nat) : M (sim_api_t T β) Unit := do
  let path ← retry (recv_cmd_str fuel) fuel ""
  let s ← getState
  match s.sim_data.clk_map path with
  | some obj => retry (recv_value B obj false fuel) fuel ()
  | none => fun s1 => Res.undef s1

/-- Assignment to `is_reset`. -/
def set_is_reset (v : Bool) : M (sim_api_t T β) Unit :=
  fun s => Res.ok () { s with is_reset := v }

/-- The `switch ((SIM_CMD) cmd)` of `tick()`; returns the value of `exit` after it. -/
def dispatch (fuel : Nat) (cmd : Nat) : M (sim_api_t T β) Bool :=
  match castCmd cmd with
  | some SIM_CMD.RESET => do
    hook B.reset Event.reset
    set_is_reset true
    pure true
  | some SIM_CMD.STEP => do
    retry (recv_tokens B fuel) fuel ()
    hook B.step Event.step
    pure true
  | some SIM_CMD.UPDATE => do
    retry (recv_tokens B fuel) fuel ()
    hook B.update Event.update
    pure true
  | some SIM_CMD.POKE => do
    poke B false fuel
    pure false
  | some SIM_CMD.PEEK => do
    peek B fuel
    pure false
  | some SIM_CMD.FORCE => do
    poke B true fuel
    pure false
  | some SIM_CMD.GETID => do
    getid B fuel
    pure false
  | some SIM_CMD.GETCHK => do
    getchk B fuel
    pure false
  | some SIM_CMD.SETCLK => do
    setclk B fuel
    pure false
  | some SIM_CMD.FIN => do
    hook B.finish Event.finish
    pure true
  | none => pure false

/-- The `do { ... } while (!exit);` of `tick()`: at most `n` iterations. -/
def cmdLoop (fuel : Nat) : Nat → M (sim_api_t T β) Unit
  | 0 => fun s => Res.spinning s
  | n + 1 => do
    let cmd ← retry (recv_cmd fuel) fuel 0
    emit (Event.opcode cmd)
    let ex ← dispatch B fuel cmd
    if ex then pure () else cmdLoop fuel n

/-- The constructor `sim_api_t()` from `// Init channels` on, the three regions being
mapped. -/
def construct : M (sim_api_t T β) Unit := do
  consume Chan.out_channel
  release Chan.in_channel
  release Chan.out_channel
  release Chan.cmd_channel

/-- `void tick()`. -/
def tick (fuel : Nat) : M (sim_api_t T β) Unit := do
  retry (send_tokens B fuel) fuel ()
  let s ← getState
  (if s.is_reset then do
      hook B.start Event.start
      set_is_reset false
    else pure ())
  cmdLoop B fuel fuel

/-- A sequence of `n` calls of `tick()`. -/
def ticks (fuel : Nat) : Nat → M (sim_api_t T β) Unit
  | 0 => pure ()
  | n + 1 => do
    tick B fuel
    ticks fuel n

/-! ### Loading the registry -/

/-- `sim_data.signal_map[path] = id`. -/
def set_signal_map (path : String) (id : Nat) : M (sim_api_t T β) Unit :=
  fun s => Res.ok () { s with sim_data :=
    { s.sim_data with signal_map := Function.update s.sim_data.signal_map path (some id) } }

/-- The `while (std::getline(file, line))` loop of `read_signal_map` over the lines
that remain, entered with the current `id`. -/
def read_lines : List Line → Nat → M (sim_api_t T β) Nat
  | [], id => pure id
  | l :: rest, id => do
    set_signal_map l.path id
    read_lines rest (addSize id l.n)

/-- `void read_signal_map(std::string filename)`; `none` is a file that cannot be
opened. -/
def read_signal_map (file : Option (List Line)) : M (sim_api_t T β) Unit :=
  match file with
  | none => do
    hook B.finish Event.finish
    exit 2
  | some lines => do
    let _ ← read_lines lines 0
    pure ()

end Dispatcher

/-! ## Properties stated about the dispatcher -/

/-- What a guarded send on channel `c` promises when its critical section is entered
in `s1` and the operation returns `ret` in `s2`: it returns true exactly when the
payload-valid flag was 0; then the flag is 1 and the only things done were calls of
`get_value` followed by one `produce()`; otherwise flag, payload and backend are as
they were and nothing was done. -/
def GuardedSend {T β : Type} (c : Chan) (s1 s2 : sim_api_t T β) (ret : Bool) : Prop :=
  (ret = true ↔ (s1.ch c).b3 = 0) ∧
  (ret = true → (s2.ch c).b3 = 1 ∧
    ∃ d, s2.log = s1.log ++ d ++ [Event.produce c] ∧
      ∀ e ∈ d, ∃ sig off n, e = Event.get_value sig off n) ∧
  (ret = false → (s2.ch c).b3 = (s1.ch c).b3 ∧ (s2.ch c).words = (s1.ch c).words ∧
    (s2.ch c).str = (s1.ch c).str ∧ s2.backend = s1.backend ∧ s2.log = s1.log)

/-- What a guarded receive on channel `c` promises: it returns true exactly when the
payload-valid flag was 1; then the flag is 0 and the only things done were calls of
`put_value` followed by one `consume()`; otherwise flag, payload and backend are as
they were and nothing was done. -/
def GuardedRecv {T β : Type} (c : Chan) (s1 s2 : sim_api_t T β) (ret : Bool) : Prop :=
  (ret = true ↔ (s1.ch c).b3 = 1) ∧
  (ret = true → (s2.ch c).b3 = 0 ∧
    ∃ d, s2.log = s1.log ++ d ++ [Event.consume c] ∧
      ∀ e ∈ d, ∃ sig off force n, e = Event.put_value sig off force n) ∧
  (ret = false → (s2.ch c).b3 = (s1.ch c).b3 ∧ (s2.ch c).words = (s1.ch c).words ∧
    (s2.ch c).str = (s1.ch c).str ∧ s2.backend = s1.backend ∧ s2.log = s1.log)

/-- Events of data transfer and lookup: everything except the five lifecycle hooks and
the opcode marks. -/
def Event.benign {T : Type} : Event T → Bool
  | Event.put_value _ _ _ _ => true
  | Event.get_value _ _ _ => true
  | Event.search _ => true
  | Event.get_chunk _ => true
  | Event.produce _ => true
  | Event.consume _ => true
  | _ => false

/-- The outcome is a normal return or a loop that is still waiting: no `exit`, no
undefined access. -/
def Res.alive {σ α : Type} : Res σ α → Bool
  | Res.ok _ _ => true
  | Res.spinning _ => true
  | _ => false

/-- Whatever the outcome, the log is only extended. -/
def Grows {T β α : Type} (m : M (sim_api_t T β) α) : Prop :=
  ∀ s, ∃ d, (m s).state.log = s.log ++ d

/-- Whatever the outcome, `m` neither exits nor reaches an undefined access, logs only
events satisfying `p`, and leaves `sim_data` and `is_reset` alone. -/
def Safe {T β α : Type} (p : Event T → Prop) (m : M (sim_api_t T β) α) : Prop :=
  ∀ s, (m s).alive = true ∧ (m s).state.sim_data = s.sim_data ∧
    (m s).state.is_reset = s.is_reset ∧
    ∃ d, (m s).state.log = s.log ++ d ∧ ∀ e ∈ d, p e

/-- When `m` returns normally it has logged only events satisfying `p` and has left
`sim_data` and `is_reset` alone. -/
def OkEmits {T β α : Type} (p : Event T → Prop) (m : M (sim_api_t T β) α) : Prop :=
  ∀ s a s1, m s = Res.ok a s1 → s1.sim_data = s.sim_data ∧ s1.is_reset = s.is_reset ∧
    ∃ d, s1.log = s.log ++ d ∧ ∀ e ∈ d, p e

/-- The outcome is a normal return. -/
def Res.returned {σ α : Type} : Res σ α → Bool
  | Res.ok _ _ => true
  | _ => false

/-- A fresh dispatcher whose command slot holds the word `w`. -/
def sim_api_t.withCmd (T β : Type) (b : β) (w : Nat) : sim_api_t T β :=
  { sim_api_t.fresh T β b with
    ch := Function.update (fun _ => channel_t.zero) Chan.cmd_channel
      { channel_t.zero with b3 := 1, words := fun _ => w } }

/-- The status passed to `exit`, when the outcome is a call of `exit`. -/
def Res.exitCode {σ α : Type} : Res σ α → Option Nat
  | Res.exited c _ => some c
  | _ => none

/-- A fresh dispatcher whose command slot holds the word `w` and whose generic signal
list is `signals`. -/
def sim_api_t.withSignals (T β : Type) (b : β) (w : Nat) (signals : List T) : sim_api_t T β :=
  { sim_api_t.withCmd T β b w with
    sim_data := { sim_data_t.empty T with signals := signals } }

/-- A fresh dispatcher whose command slot holds the string `path` and whose registry
is `map`. -/
def sim_api_t.withPath (T β : Type) (b : β) (path : String) (map : String → Option Nat) :
    sim_api_t T β :=
  { sim_api_t.fresh T β b with
    ch := Function.update (fun _ => channel_t.zero) Chan.cmd_channel
      { channel_t.zero with b3 := 1, str := path },
    sim_data := { sim_data_t.empty T with signal_map := map } }

/-- What `tick()` does after the output batch has been published. -/
def afterPublish {T β : Type} (B : Backend T β) (fuel : Nat) : M (sim_api_t T β) Unit :=
  M.bind getState (fun s =>
    M.bind (if s.is_reset = true then
        M.bind (hook B.start Event.start) (fun _ => set_is_reset false) else pure ())
      (fun _ => cmdLoop B fuel fuel))


/-- The five lifecycle hooks. -/
def Event.isHook {T : Type} : Event T → Bool
  | Event.reset => true
  | Event.start => true
  | Event.finish => true
  | Event.update => true
  | Event.step => true
  | _ => false

/-- The `start` hook. -/
def Event.isStart {T : Type} : Event T → Bool
  | Event.start => true
  | _ => false

/-- The `finish` hook. -/
def Event.isFinish {T : Type} : Event T → Bool
  | Event.finish => true
  | _ => false

/-- The labels whose case sets `exit = true`. -/
def SIM_CMD.endsTick : Option SIM_CMD → Bool
  | some SIM_CMD.RESET => true
  | some SIM_CMD.STEP => true
  | some SIM_CMD.UPDATE => true
  | some SIM_CMD.FIN => true
  | _ => false

/-- The lifecycle hook that the case of a label invokes, if any. -/
def SIM_CMD.hookEvent {T : Type} : Option SIM_CMD → List (Event T)
  | some SIM_CMD.RESET => [Event.reset]
  | some SIM_CMD.STEP => [Event.step]
  | some SIM_CMD.UPDATE => [Event.update]
  | some SIM_CMD.FIN => [Event.finish]
  | _ => []

/-- Shape of what the command loop logs when it returns, `c` being the opcode whose
handling ended it: first the iterations of opcodes that do not end the tick (`pre`, free
of lifecycle hooks), then the receipt of `c`, the transfers of its handler (`d0`, none
for RESET and FIN) and the hook of its label. -/
def LoopLog {T : Type} (c : Nat) (d : List (Event T)) : Prop :=
  ∃ pre d0, d = pre ++ [Event.consume Chan.cmd_channel, Event.opcode c] ++ d0
      ++ SIM_CMD.hookEvent (castCmd c) ∧
    (∀ e ∈ pre, e.isHook = false) ∧
    (∀ c1, Event.opcode c1 ∈ pre → SIM_CMD.endsTick (castCmd c1) = false) ∧
    (∀ e ∈ d0, e.benign = true) ∧
    (castCmd c = some SIM_CMD.RESET ∨ castCmd c = some SIM_CMD.FIN → d0 = []) ∧
    SIM_CMD.endsTick (castCmd c) = true

/-- Shape of what a tick logs when it returns, entered with the latch `latch` and ended
by the opcode `c`: the output batch and its `produce()`, the `start` hook if the latch
was set, then the command loop. -/
def TickLog {T : Type} (latch : Bool) (c : Nat) (d : List (Event T)) : Prop :=
  ∃ batch loop, d = batch ++ [Event.produce Chan.out_channel]
      ++ (if latch then [Event.start] else []) ++ loop ∧
    (∀ e ∈ batch, ∃ sig o n, e = Event.get_value sig o n) ∧
    LoopLog c loop

/-- The opcode words received during a stretch of the log, in order. -/
def opcodes {T : Type} : List (Event T) → List Nat
  | [] => []
  | Event.opcode c :: rest => c :: opcodes rest
  | _ :: rest => opcodes rest

/-- What the tester does at one opportunity in the example runs: it takes the output
and puts the word `w` into the command slot. -/
def testerSends (w : Nat) (ch : Chan → channel_t) : Chan → channel_t :=
  Function.update (Function.update ch Chan.out_channel (ch Chan.out_channel).consume)
    Chan.cmd_channel { ch Chan.cmd_channel with b3 := 1, words := fun _ => w }

/-- A fresh dispatcher whose command slot holds the word `w` and whose tester will act
as listed. -/
def sim_api_t.withScript (T β : Type) (b : β) (w : Nat)
    (script : List ((Chan → channel_t) → (Chan → channel_t))) : sim_api_t T β :=
  { sim_api_t.withCmd T β b w with tester := script }

/-- The word count returned by the call that an event records (0 for other events). -/
def Event.ret {T : Type} : Event T → Nat
  | Event.put_value _ _ _ r => r
  | Event.get_value _ _ r => r
  | _ => 0

/-- Sum of the word counts returned by the calls in a stretch of the log. -/
def sumRet {T : Type} (d : List (Event T)) : Nat := (d.map Event.ret).sum

/-- A backend whose `get_value` writes exactly the words `val sig b` of the signal at
its pointer, returns their number, and leaves the backend state alone. -/
def WritesExactly {T β : Type} (B : Backend T β) (val : T → β → List Nat) : Prop :=
  ∀ sig w off b, B.get_value sig w off b =
    ((val sig b).length,
      fun j => if off ≤ j ∧ j < off + (val sig b).length then (val sig b).getD (j - off) 0
        else w j,
      b)

/-- A backend over numeric handles in which a value has as many words as the handle
says: `get_value` and `put_value` return the handle, nothing is written. -/
def countBackend : Backend Nat Unit :=
  { isNull := fun h => decide (h = 0),
    reset := id, start := id, finish := id, update := id, step := id,
    put_value := fun sig _ _ _ b => (sig, b),
    get_value := fun sig w _ b => (sig, w, b),
    search := defaultSearch,
    get_chunk := fun sig b => (sig, b) }

/-- A fresh dispatcher with the given output signals. -/
def sim_api_t.withOutputs (T β : Type) (b : β) (outputs : List T) : sim_api_t T β :=
  { sim_api_t.fresh T β b with sim_data := { sim_data_t.empty T with outputs := outputs } }

/-- A fresh dispatcher whose command slot holds the word `w`, whose input slot holds
a payload of words `v`, and whose generic signal list is `signals`. -/
def sim_api_t.withValue (T β : Type) (b : β) (w : Nat) (v : Nat → Nat) (signals : List T) :
    sim_api_t T β :=
  { sim_api_t.withSignals T β b w signals with
    ch := Function.update (sim_api_t.withSignals T β b w signals).ch Chan.in_channel
      { channel_t.zero with b3 := 1, words := v } }

/-- State of the register backend: the register and the input words received since
the last clock edge. -/
structure RegState where
  reg : Nat
  latched : List Nat
  deriving DecidableEq, Repr

/-- Modelled from the spec: the trivial backend of the round-trip property, which
`sim_api.h` does not contain (its hooks are pure virtual). It has one one-word
register, exposed through `get_value`, which writes the register at its pointer;
`put_value` takes one word at its pointer; `step` replaces the register by `next` of
the register and the words received since the last edge. No handle is null. -/
def registerBackend (T : Type) (next : Nat → List Nat → Nat) : Backend T RegState :=
  { isNull := fun _ => false,
    reset := id, start := id, finish := id, update := id,
    step := fun b => { reg := next b.reg b.latched, latched := [] },
    put_value := fun _ w off _ b => (1, { b with latched := b.latched ++ [w off] }),
    get_value := fun _ w off b => (1, Function.update w off b.reg, b),
    search := defaultSearch,
    get_chunk := fun _ b => (1, b) }

/-- A fresh dispatcher whose command slot holds the word `w`, whose input slot holds a
payload of words `v`, with the given input and output signals. -/
def sim_api_t.withTokens (T β : Type) (b : β) (w : Nat) (v : Nat → Nat)
    (inputs outputs : List T) : sim_api_t T β :=
  { sim_api_t.fresh T β b with
    ch := Function.update
      (Function.update (fun _ => channel_t.zero) Chan.cmd_channel
        { channel_t.zero with b3 := 1, words := fun _ => w })
      Chan.in_channel { channel_t.zero with b3 := 1, words := v },
    sim_data := { sim_data_t.empty T with inputs := inputs, outputs := outputs } }

/-- Partial correctness: when `m` is entered in a state satisfying `P` and returns
normally, the state it returns in satisfies `Q`. -/
def Hoare {σ α : Type} (P : σ → Prop) (m : M σ α) (Q : σ → Prop) : Prop :=
  ∀ s a s1, P s → m s = Res.ok a s1 → Q s1

/-- The tester never changes the control byte `f` of a region: every action left in
its script leaves `f` of every channel as it is. -/
def TesterKeeps (f : channel_t → Nat)
    (script : List ((Chan → channel_t) → (Chan → channel_t))) : Prop :=
  ∀ a ∈ script, ∀ (ch : Chan → channel_t) (c : Chan), f (a ch c) = f (ch c)

/-- The control byte `f` of each channel `c` is `v c`, and the tester will not change
it. -/
def Framed {T β : Type} (f : channel_t → Nat) (v : Chan → Nat) (s : sim_api_t T β) : Prop :=
  TesterKeeps f s.tester ∧ ∀ c, f (s.ch c) = v c

/-- How the members of `channel_t` act on the control byte `f` when its value at rest
on channel `c` is `v c`: `produce()`, `consume()` and writes of the payload leave it
alone, `aquire()` takes it from `v c` to `w c`, and `release()` takes it back. -/
def FlagCycle (f : channel_t → Nat) (v w : Chan → Nat) : Prop :=
  (∀ x, f x.produce = f x) ∧ (∀ x, f x.consume = f x) ∧
  (∀ (x : channel_t) (d : Nat → Nat), f { x with words := d } = f x) ∧
  (∀ c x, f x = v c → f x.want = w c) ∧ (∀ c x, f x = w c → f x.release = v c)

/-- The simulator's want-flag (byte 1) is 0 on all three channels. -/
def WantClear {T β : Type} (s : sim_api_t T β) : Prop := ∀ c, (s.ch c).b1 = 0

/-- Whenever `m` returns, with whatever value, the simulator's want-flag (byte 1) of
channel `c` is 0. -/
def ReturnsReleased {T β α : Type} (c : Chan) (m : M (sim_api_t T β) α) : Prop :=
  ∀ s r s1, m s = Res.ok r s1 → (s1.ch c).b1 = 0

/-- Running `m` to its return does not change the tester's want-flag (byte 0) of any
channel: when the tester itself leaves these bytes alone they are afterwards what they
were before. -/
def KeepsPeerFlag {T β α : Type} (m : M (sim_api_t T β) α) : Prop :=
  ∀ s r s1, TesterKeeps channel_t.b0 s.tester → m s = Res.ok r s1 →
    ∀ c, (s1.ch c).b0 = (s.ch c).b0

/-- The payload word offset that the call recorded by an event was given (0 for other
events). -/
def Event.off {T : Type} : Event T → Nat
  | Event.put_value _ o _ _ => o
  | Event.get_value _ o _ => o
  | _ => 0

/-- Payload word `j` is one of the words that the call recorded by the event accesses,
for a call that accesses exactly as many words, from its pointer on, as the count it
returns. -/
def Event.touches {T : Type} (e : Event T) (j : Nat) : Bool :=
  decide (e.off ≤ j ∧ j < e.off + e.ret)

/-- The words that each call of a batch accesses can be addressed: counted from the
start of the region, the bytes of the words `off .. off + ret - 1` of the payload end
within the `2^64` bytes that a pointer reaches. A call that writes (or reads) exactly
as many words as it returns cannot do so otherwise. -/
def Addressable {T : Type} (d : List (Event T)) : Prop :=
  ∀ e ∈ d, 4 + 8 * (e.off + e.ret) ≤ SIZE_MOD

/-- A backend whose handles are the values themselves: `get_value` writes the words of
the handle at its pointer and returns their number; `put_value` returns that number. -/
def wordsBackend : Backend (List Nat) Unit :=
  { isNull := fun h => h.isEmpty,
    reset := id, start := id, finish := id, update := id, step := id,
    put_value := fun sig _ _ _ b => (sig.length, b),
    get_value := fun sig w off b =>
      (sig.length, fun j => if off ≤ j ∧ j < off + sig.length then sig.getD (j - off) 0
        else w j, b),
    search := defaultSearch,
    get_chunk := fun sig b => (sig.length, b) }

/-! ## Theorems -/

theorem mutexInv_init : MutexInv Mutex.init := by
  constructor <;> simp [Mutex.init]

theorem mutexInv_simStep (s : Mutex) (h : MutexInv s) : MutexInv (simStep s) := by
  obtain ⟨h1, h0, ht, hs, hp⟩ := h
  rcases s with ⟨b0, b1, b2, sim, peer⟩
  cases sim <;> cases peer <;> simp only [simStep] <;> (try split_ifs) <;>
    constructor <;> simp_all [Pc.contending] <;> omega

theorem mutexInv_peerStep (s : Mutex) (h : MutexInv s) : MutexInv (peerStep s) := by
  obtain ⟨h1, h0, ht, hs, hp⟩ := h
  rcases s with ⟨b0, b1, b2, sim, peer⟩
  cases sim <;> cases peer <;> simp only [peerStep] <;> (try split_ifs) <;>
    constructor <;> simp_all [Pc.contending] <;> omega

theorem mutexInv_run (sched : List Bool) (s : Mutex) (h : MutexInv s) :
    MutexInv (runSchedule sched s) := by
  induction sched generalizing s with
  | nil => simpa [runSchedule] using h
  | cons b rest ih =>
    simp only [runSchedule, List.foldl_cons]
    cases b
    · exact ih _ (mutexInv_peerStep s h)
    · exact ih _ (mutexInv_simStep s h)

/-- C1: mutual exclusion of `aquire`/`release`. From the all-zero region, along every
interleaving of the single reads and writes of the simulator (`simStep`) and of the
tester running the mirrored algorithm (`peerStep`), repeated any number of times, no
state has both processes between the end of their acquire and the start of their
release. -/
theorem mutual_exclusion (sched : List Bool) :
    ¬ ((runSchedule sched Mutex.init).sim = Pc.crit ∧
       (runSchedule sched Mutex.init).peer = Pc.crit) := by
  intro hboth
  have hinv := mutexInv_run sched Mutex.init mutexInv_init
  have h0 := hinv.simIn hboth.1 (by rw [hboth.2]; rfl)
  have h1 := hinv.peerIn hboth.2 (by rw [hboth.1]; rfl)
  omega

/-- Each side can reach its critical section, and can do so again after a release. -/
theorem critical_sections_reachable :
    (runSchedule [true, true, true] Mutex.init).sim = Pc.crit ∧
    (runSchedule [false, false, false] Mutex.init).peer = Pc.crit ∧
    (runSchedule [true, true, true, false, false, false, true, false, false] Mutex.init).peer
      = Pc.crit ∧
    (runSchedule [true, true, true, true, true, true, true] Mutex.init).sim = Pc.crit := by
  decide

/-! ### Sequencing -/

section Lemmas

variable {T β : Type}

@[simp] theorem bind_apply {σ α γ : Type} (x : M σ α) (f : α → M σ γ) (s : σ) :
    (x >>= f) s = M.bind x f s := rfl

@[simp] theorem pure_apply {σ α : Type} (a : α) (s : σ) :
    (pure a : M σ α) s = Res.ok a s := rfl

theorem bind_ok {σ α γ : Type} (x : M σ α) (f : α → M σ γ) (s s1 : σ) (a : α)
    (h : x s = Res.ok a s1) : M.bind x f s = f a s1 := by
  simp [M.bind, h]

/-! ### Loading the registry -/

theorem addSize_lt (a b : Nat) : addSize a b < SIZE_MOD :=
  Nat.mod_lt _ (by decide)

theorem read_lines_spec (lines : List Line) :
    ∀ (id : Nat) (s : sim_api_t T β), id < SIZE_MOD →
      ∃ id1 s1, read_lines lines id s = Res.ok id1 s1 ∧
        (∀ p, p ∉ lines.map Line.path →
          s1.sim_data.signal_map p = s.sim_data.signal_map p) ∧
        ((lines.map Line.path).Nodup → ∀ k l, lines[k]? = some l →
          s1.sim_data.signal_map l.path
            = some ((id + ((lines.take k).map Line.n).sum) % SIZE_MOD)) := by
  induction lines with
  | nil =>
    intro id s _
    exact ⟨id, s, rfl, fun _ _ => rfl, fun _ k l h => by simp at h⟩
  | cons l0 rest ih =>
    intro id s hid
    obtain ⟨id1, s1, hrun, hout, hin⟩ :=
      ih (addSize id l0.n)
        { s with sim_data := { s.sim_data with
            signal_map := Function.update s.sim_data.signal_map l0.path (some id) } }
        (addSize_lt _ _)
    refine ⟨id1, s1, ?_, ?_, ?_⟩
    · simpa [read_lines, set_signal_map, M.bind] using hrun
    · intro p hp
      simp only [List.map_cons, List.mem_cons, not_or] at hp
      rw [hout p hp.2]
      simp [Function.update, hp.1]
    · intro hnd k l hk
      simp only [List.map_cons, List.nodup_cons] at hnd
      cases k with
      | zero =>
        simp only [List.getElem?_cons_zero, Option.some.injEq] at hk
        subst hk
        rw [hout _ hnd.1]
        simp [Function.update, Nat.mod_eq_of_lt hid]
      | succ k =>
        simp only [List.getElem?_cons_succ] at hk
        rw [hin hnd.2 k l hk]
        simp only [addSize, List.take_succ_cons, List.map_cons, List.sum_cons, SIZE_MOD]
        congr 1
        omega

/-! ### Busy waiting and the channel operations -/

theorem Quiet.refl (s : sim_api_t T β) : Quiet s s := ⟨rfl, rfl, rfl, rfl⟩

theorem Quiet.trans {s s1 s2 : sim_api_t T β} (h1 : Quiet s s1) (h2 : Quiet s1 s2) :
    Quiet s s2 :=
  ⟨h2.1.trans h1.1, h2.2.1.trans h1.2.1, h2.2.2.1.trans h1.2.2.1, h2.2.2.2.trans h1.2.2.2⟩

theorem Quiet.setCh (s : sim_api_t T β) (f : Chan → channel_t) : Quiet s { s with ch := f } :=
  ⟨rfl, rfl, rfl, rfl⟩

theorem testerTurn_ok (s : sim_api_t T β) :
    ∃ s1, testerTurn s = Res.ok () s1 ∧ Quiet s s1 := by
  unfold testerTurn
  cases s.tester with
  | nil => exact ⟨s, rfl, Quiet.refl s⟩
  | cons a rest => exact ⟨_, rfl, rfl, rfl, rfl, rfl⟩

theorem spin_cases (c : Chan) (fuel : Nat) :
    ∀ s : sim_api_t T β,
      (∃ s1, spin c fuel s = Res.ok () s1 ∧ Quiet s s1) ∨
      (∃ s1, spin c fuel s = Res.spinning s1 ∧ Quiet s s1) := by
  induction fuel with
  | zero =>
    intro s
    cases hw : (s.ch c).mustWait
    · exact Or.inl ⟨s, by simp [spin, hw], Quiet.refl s⟩
    · exact Or.inr ⟨s, by simp [spin, hw], Quiet.refl s⟩
  | succ n ih =>
    intro s
    cases hw : (s.ch c).mustWait
    · exact Or.inl ⟨s, by simp [spin, hw], Quiet.refl s⟩
    · obtain ⟨s0, ht, hq⟩ := testerTurn_ok s
      rcases ih s0 with ⟨s1, h1, hq1⟩ | ⟨s1, h1, hq1⟩
      · exact Or.inl ⟨s1, by simp [spin, hw, M.bind, ht, h1], hq.trans hq1⟩
      · exact Or.inr ⟨s1, by simp [spin, hw, M.bind, ht, h1], hq.trans hq1⟩

theorem aquire_cases (c : Chan) (fuel : Nat) (s : sim_api_t T β) :
    (∃ s1, aquire c fuel s = Res.ok () s1 ∧ Quiet s s1) ∨
    (∃ s1, aquire c fuel s = Res.spinning s1 ∧ Quiet s s1) := by
  have hq := Quiet.setCh s (Function.update s.ch c (s.ch c).want)
  rcases spin_cases c fuel { s with ch := Function.update s.ch c (s.ch c).want } with
    ⟨s1, h1, hq1⟩ | ⟨s1, h1, hq1⟩
  · exact Or.inl ⟨s1, by simp [aquire, onChan, M.bind, h1], hq.trans hq1⟩
  · exact Or.inr ⟨s1, by simp [aquire, onChan, M.bind, h1], hq.trans hq1⟩

/-- When the tester's want-flag is not 1, `aquire` returns at once, whatever the fuel. -/
theorem aquire_free (c : Chan) (fuel : Nat) (s : sim_api_t T β) (h : (s.ch c).b0 ≠ 1) :
    aquire c fuel s = Res.ok () { s with ch := Function.update s.ch c (s.ch c).want } := by
  have hw : (channel_t.want (s.ch c)).mustWait = false := by
    simp [channel_t.mustWait, channel_t.want, h]
  cases fuel <;> simp [aquire, onChan, M.bind, spin, hw]

/-! ### The seven channel operations, from the state in which `aquire` returned -/

theorem recv_cmd_true (fuel cmd : Nat) (s s1 : sim_api_t T β)
    (h : aquire Chan.cmd_channel fuel s = Res.ok () s1)
    (hv : (s1.ch Chan.cmd_channel).valid = true) :
    recv_cmd fuel cmd s = Res.ok (true, (s1.ch Chan.cmd_channel).get 0)
      { s1 with
        ch := Function.update s1.ch Chan.cmd_channel (s1.ch Chan.cmd_channel).consume.release,
        log := s1.log ++ [Event.consume Chan.cmd_channel] } := by
  simp [recv_cmd, M.bind, h, getState, hv, release, onChan, consume, emit]

theorem recv_cmd_false (fuel cmd : Nat) (s s1 : sim_api_t T β)
    (h : aquire Chan.cmd_channel fuel s = Res.ok () s1)
    (hv : (s1.ch Chan.cmd_channel).valid = false) :
    recv_cmd fuel cmd s = Res.ok (false, cmd)
      { s1 with
        ch := Function.update s1.ch Chan.cmd_channel (s1.ch Chan.cmd_channel).release } := by
  simp [recv_cmd, M.bind, h, getState, hv, release, onChan]

theorem recv_cmd_spinning (fuel cmd : Nat) (s s1 : sim_api_t T β)
    (h : aquire Chan.cmd_channel fuel s = Res.spinning s1) :
    recv_cmd fuel cmd s = Res.spinning s1 := by
  simp [recv_cmd, M.bind, h]

theorem recv_cmd_str_true (fuel : Nat) (path : String) (s s1 : sim_api_t T β)
    (h : aquire Chan.cmd_channel fuel s = Res.ok () s1)
    (hv : (s1.ch Chan.cmd_channel).valid = true) :
    recv_cmd_str fuel path s = Res.ok (true, (s1.ch Chan.cmd_channel).str)
      { s1 with
        ch := Function.update s1.ch Chan.cmd_channel (s1.ch Chan.cmd_channel).consume.release,
        log := s1.log ++ [Event.consume Chan.cmd_channel] } := by
  simp [recv_cmd_str, M.bind, h, getState, hv, release, onChan, consume, emit]

theorem recv_cmd_str_false (fuel : Nat) (path : String) (s s1 : sim_api_t T β)
    (h : aquire Chan.cmd_channel fuel s = Res.ok () s1)
    (hv : (s1.ch Chan.cmd_channel).valid = false) :
    recv_cmd_str fuel path s = Res.ok (false, path)
      { s1 with
        ch := Function.update s1.ch Chan.cmd_channel (s1.ch Chan.cmd_channel).release } := by
  simp [recv_cmd_str, M.bind, h, getState, hv, release, onChan]

theorem recv_cmd_str_spinning (fuel : Nat) (path : String) (s s1 : sim_api_t T β)
    (h : aquire Chan.cmd_channel fuel s = Res.spinning s1) :
    recv_cmd_str fuel path s = Res.spinning s1 := by
  simp [recv_cmd_str, M.bind, h]

theorem send_resp_true (v fuel : Nat) (u : Unit) (s s1 : sim_api_t T β)
    (h : aquire Chan.out_channel fuel s = Res.ok () s1)
    (hr : (s1.ch Chan.out_channel).ready = true) :
    send_resp v fuel u s = Res.ok (true, ())
      { s1 with
        ch := Function.update s1.ch Chan.out_channel
          ((s1.ch Chan.out_channel).set 0 v).produce.release,
        log := s1.log ++ [Event.produce Chan.out_channel] } := by
  simp [send_resp, M.bind, h, getState, hr, release, onChan, produce, emit]

theorem send_resp_false (v fuel : Nat) (u : Unit) (s s1 : sim_api_t T β)
    (h : aquire Chan.out_channel fuel s = Res.ok () s1)
    (hr : (s1.ch Chan.out_channel).ready = false) :
    send_resp v fuel u s = Res.ok (false, ())
      { s1 with
        ch := Function.update s1.ch Chan.out_channel (s1.ch Chan.out_channel).release } := by
  simp [send_resp, M.bind, h, getState, hr, release, onChan]

theorem send_resp_spinning (v fuel : Nat) (u : Unit) (s s1 : sim_api_t T β)
    (h : aquire Chan.out_channel fuel s = Res.spinning s1) :
    send_resp v fuel u s = Res.spinning s1 := by
  simp [send_resp, M.bind, h]

variable (B : Backend T β)

theorem recv_value_true (obj : T) (force : Bool) (fuel : Nat) (u : Unit) (s s1 : sim_api_t T β)
    (h : aquire Chan.in_channel fuel s = Res.ok () s1)
    (hv : (s1.ch Chan.in_channel).valid = true) :
    recv_value B obj force fuel u s = Res.ok (true, ())
      { s1 with
        ch := Function.update s1.ch Chan.in_channel (s1.ch Chan.in_channel).consume.release,
        backend := (B.put_value obj (s1.ch Chan.in_channel).words 0 force s1.backend).2,
        log := s1.log ++
          [Event.put_value obj 0 force
              (B.put_value obj (s1.ch Chan.in_channel).words 0 force s1.backend).1,
            Event.consume Chan.in_channel] } := by
  simp [recv_value, M.bind, h, getState, hv, release, onChan, consume, emit, call_put_value]

theorem recv_value_false (obj : T) (force : Bool) (fuel : Nat) (u : Unit) (s s1 : sim_api_t T β)
    (h : aquire Chan.in_channel fuel s = Res.ok () s1)
    (hv : (s1.ch Chan.in_channel).valid = false) :
    recv_value B obj force fuel u s = Res.ok (false, ())
      { s1 with ch := Function.update s1.ch Chan.in_channel (s1.ch Chan.in_channel).release } := by
  simp [recv_value, M.bind, h, getState, hv, release, onChan]

theorem recv_value_spinning (obj : T) (force : Bool) (fuel : Nat) (u : Unit)
    (s s1 : sim_api_t T β) (h : aquire Chan.in_channel fuel s = Res.spinning s1) :
    recv_value B obj force fuel u s = Res.spinning s1 := by
  simp [recv_value, M.bind, h]

theorem send_value_true (obj : T) (fuel : Nat) (u : Unit) (s s1 : sim_api_t T β)
    (h : aquire Chan.out_channel fuel s = Res.ok () s1)
    (hr : (s1.ch Chan.out_channel).ready = true) :
    send_value B obj fuel u s = Res.ok (true, ())
      { s1 with
        ch := Function.update s1.ch Chan.out_channel
          (channel_t.release (channel_t.produce { s1.ch Chan.out_channel with
            words := (B.get_value obj (s1.ch Chan.out_channel).words 0 s1.backend).2.1 })),
        backend := (B.get_value obj (s1.ch Chan.out_channel).words 0 s1.backend).2.2,
        log := s1.log ++
          [Event.get_value obj 0 (B.get_value obj (s1.ch Chan.out_channel).words 0 s1.backend).1,
            Event.produce Chan.out_channel] } := by
  simp [send_value, M.bind, h, getState, hr, release, onChan, produce, emit, call_get_value]

theorem send_value_false (obj : T) (fuel : Nat) (u : Unit) (s s1 : sim_api_t T β)
    (h : aquire Chan.out_channel fuel s = Res.ok () s1)
    (hr : (s1.ch Chan.out_channel).ready = false) :
    send_value B obj fuel u s = Res.ok (false, ())
      { s1 with
        ch := Function.update s1.ch Chan.out_channel (s1.ch Chan.out_channel).release } := by
  simp [send_value, M.bind, h, getState, hr, release, onChan]

theorem send_value_spinning (obj : T) (fuel : Nat) (u : Unit) (s s1 : sim_api_t T β)
    (h : aquire Chan.out_channel fuel s = Res.spinning s1) :
    send_value B obj fuel u s = Res.spinning s1 := by
  simp [send_value, M.bind, h]

theorem recv_tokens_true (fuel : Nat) (u : Unit) (s s1 sT : sim_api_t T β) (off : Nat)
    (h : aquire Chan.in_channel fuel s = Res.ok () s1)
    (hv : (s1.ch Chan.in_channel).valid = true)
    (hT : put_tokens B s1.sim_data.inputs 0 s1 = Res.ok off sT) :
    recv_tokens B fuel u s = Res.ok (true, ())
      { sT with
        ch := Function.update sT.ch Chan.in_channel (sT.ch Chan.in_channel).consume.release,
        log := sT.log ++ [Event.consume Chan.in_channel] } := by
  simp [recv_tokens, M.bind, h, getState, hv, release, onChan, consume, emit, hT]

theorem recv_tokens_false (fuel : Nat) (u : Unit) (s s1 : sim_api_t T β)
    (h : aquire Chan.in_channel fuel s = Res.ok () s1)
    (hv : (s1.ch Chan.in_channel).valid = false) :
    recv_tokens B fuel u s = Res.ok (false, ())
      { s1 with ch := Function.update s1.ch Chan.in_channel (s1.ch Chan.in_channel).release } := by
  simp [recv_tokens, M.bind, h, getState, hv, release, onChan]

theorem recv_tokens_spinning (fuel : Nat) (u : Unit) (s s1 : sim_api_t T β)
    (h : aquire Chan.in_channel fuel s = Res.spinning s1) :
    recv_tokens B fuel u s = Res.spinning s1 := by
  simp [recv_tokens, M.bind, h]

theorem send_tokens_true (fuel : Nat) (u : Unit) (s s1 sT : sim_api_t T β) (off : Nat)
    (h : aquire Chan.out_channel fuel s = Res.ok () s1)
    (hr : (s1.ch Chan.out_channel).ready = true)
    (hT : get_tokens B s1.sim_data.outputs 0 s1 = Res.ok off sT) :
    send_tokens B fuel u s = Res.ok (true, ())
      { sT with
        ch := Function.update sT.ch Chan.out_channel (sT.ch Chan.out_channel).produce.release,
        log := sT.log ++ [Event.produce Chan.out_channel] } := by
  simp [send_tokens, M.bind, h, getState, hr, release, onChan, produce, emit, hT]

theorem send_tokens_false (fuel : Nat) (u : Unit) (s s1 : sim_api_t T β)
    (h : aquire Chan.out_channel fuel s = Res.ok () s1)
    (hr : (s1.ch Chan.out_channel).ready = false) :
    send_tokens B fuel u s = Res.ok (false, ())
      { s1 with
        ch := Function.update s1.ch Chan.out_channel (s1.ch Chan.out_channel).release } := by
  simp [send_tokens, M.bind, h, getState, hr, release, onChan]

theorem send_tokens_spinning (fuel : Nat) (u : Unit) (s s1 : sim_api_t T β)
    (h : aquire Chan.out_channel fuel s = Res.spinning s1) :
    send_tokens B fuel u s = Res.spinning s1 := by
  simp [send_tokens, M.bind, h]


/-- The loop of `send_tokens` returns; it logs one `get_value` per signal and touches
only the payload words of the output channel and the backend. -/
theorem get_tokens_spec (l : List T) :
    ∀ (off : Nat) (s : sim_api_t T β),
      ∃ off1 sT d, get_tokens B l off s = Res.ok off1 sT ∧ sT.log = s.log ++ d ∧
        (∀ e ∈ d, ∃ sig o n, e = Event.get_value sig o n) ∧
        sT.sim_data = s.sim_data ∧ sT.is_reset = s.is_reset ∧ sT.tester = s.tester ∧
        (∀ c, c ≠ Chan.out_channel → sT.ch c = s.ch c) ∧
        (sT.ch Chan.out_channel).b0 = (s.ch Chan.out_channel).b0 ∧
        (sT.ch Chan.out_channel).b1 = (s.ch Chan.out_channel).b1 ∧
        (sT.ch Chan.out_channel).b2 = (s.ch Chan.out_channel).b2 ∧
        (sT.ch Chan.out_channel).b3 = (s.ch Chan.out_channel).b3 ∧
        (sT.ch Chan.out_channel).str = (s.ch Chan.out_channel).str := by
  induction l with
  | nil =>
    intro off s
    exact ⟨off, s, [], rfl, by simp, by simp, rfl, rfl, rfl, fun _ _ => rfl, rfl, rfl, rfl, rfl,
      rfl⟩
  | cons sig rest ih =>
    intro off s
    obtain ⟨off1, sT, d, hrun, hlog, hd, h1, h2, h3, h4, h5, h6, h7, h8, h9⟩ :=
      ih (addSize off (B.get_value sig (s.ch Chan.out_channel).words off s.backend).1)
        { s with
          ch := Function.update s.ch Chan.out_channel
            { s.ch Chan.out_channel with
              words := (B.get_value sig (s.ch Chan.out_channel).words off s.backend).2.1 },
          backend := (B.get_value sig (s.ch Chan.out_channel).words off s.backend).2.2,
          log := s.log ++ [Event.get_value sig off
            (B.get_value sig (s.ch Chan.out_channel).words off s.backend).1] }
    refine ⟨off1, sT, Event.get_value sig off
        (B.get_value sig (s.ch Chan.out_channel).words off s.backend).1 :: d, ?_, ?_, ?_,
      h1, h2, h3, ?_, ?_, ?_, ?_, ?_, ?_⟩
    · simpa [get_tokens, call_get_value, M.bind] using hrun
    · simpa using hlog
    · intro e he
      rcases List.mem_cons.1 he with rfl | he
      · exact ⟨_, _, _, rfl⟩
      · exact hd e he
    · intro c hc
      rw [h4 c hc]
      simp [Function.update, hc]
    all_goals simp_all

/-- The loop of `recv_tokens` returns; it logs one `put_value` per signal and touches
only the backend. -/
theorem put_tokens_spec (l : List T) :
    ∀ (off : Nat) (s : sim_api_t T β),
      ∃ off1 sT d, put_tokens B l off s = Res.ok off1 sT ∧ sT.log = s.log ++ d ∧
        (∀ e ∈ d, ∃ sig o n, e = Event.put_value sig o false n) ∧
        sT.sim_data = s.sim_data ∧ sT.is_reset = s.is_reset ∧ sT.tester = s.tester ∧
        sT.ch = s.ch := by
  induction l with
  | nil =>
    intro off s
    exact ⟨off, s, [], rfl, by simp, by simp, rfl, rfl, rfl, rfl⟩
  | cons sig rest ih =>
    intro off s
    obtain ⟨off1, sT, d, hrun, hlog, hd, h1, h2, h3, h4⟩ :=
      ih (addSize off (B.put_value sig (s.ch Chan.in_channel).words off false s.backend).1)
        { s with
          backend := (B.put_value sig (s.ch Chan.in_channel).words off false s.backend).2,
          log := s.log ++ [Event.put_value sig off false
            (B.put_value sig (s.ch Chan.in_channel).words off false s.backend).1] }
    refine ⟨off1, sT, Event.put_value sig off false
        (B.put_value sig (s.ch Chan.in_channel).words off false s.backend).1 :: d, ?_, ?_, ?_,
      h1, h2, h3, h4⟩
    · simpa [put_tokens, call_put_value, M.bind] using hrun
    · simpa using hlog
    · intro e he
      rcases List.mem_cons.1 he with rfl | he
      · exact ⟨_, _, _, rfl⟩
      · exact hd e he


theorem ready_iff (c : channel_t) : c.ready = true ↔ c.b3 = 0 := by
  simp [channel_t.ready]

theorem valid_iff (c : channel_t) : c.valid = true ↔ c.b3 = 1 := by
  simp [channel_t.valid]

theorem guardedSend_false (c : Chan) (s1 : sim_api_t T β) (h : (s1.ch c).ready = false) :
    GuardedSend c s1 { s1 with ch := Function.update s1.ch c (s1.ch c).release } false := by
  have h0 : ¬ (s1.ch c).b3 = 0 := by
    rw [← ready_iff, h]; simp
  refine ⟨by simp [h0], by simp, fun _ => ?_⟩
  simp [channel_t.release]

theorem guardedRecv_false (c : Chan) (s1 : sim_api_t T β) (h : (s1.ch c).valid = false) :
    GuardedRecv c s1 { s1 with ch := Function.update s1.ch c (s1.ch c).release } false := by
  have h0 : ¬ (s1.ch c).b3 = 1 := by
    rw [← valid_iff, h]; simp
  refine ⟨by simp [h0], by simp, fun _ => ?_⟩
  simp [channel_t.release]

/-! ### Closure of `Grows`, `Safe` and `OkEmits` -/

theorem bind_ok_inv {σ α γ : Type} {x : M σ α} {f : α → M σ γ} {s s2 : σ} {b : γ}
    (h : M.bind x f s = Res.ok b s2) : ∃ a s1, x s = Res.ok a s1 ∧ f a s1 = Res.ok b s2 := by
  unfold M.bind at h
  cases hx : x s with
  | ok a s1 => rw [hx] at h; exact ⟨a, s1, rfl, h⟩
  | exited c s1 => rw [hx] at h; cases h
  | undef s1 => rw [hx] at h; cases h
  | spinning s1 => rw [hx] at h; cases h

theorem grows_bind {α γ : Type} {m : M (sim_api_t T β) α} {f : α → M (sim_api_t T β) γ}
    (hm : Grows m) (hf : ∀ a, Grows (f a)) : Grows (M.bind m f) := by
  intro s
  obtain ⟨d, hd⟩ := hm s
  unfold M.bind
  cases hx : m s with
  | ok a s1 =>
    rw [hx] at hd
    obtain ⟨d1, hd1⟩ := hf a s1
    exact ⟨d ++ d1, by rw [hd1]; simp only [Res.state] at hd; rw [hd, List.append_assoc]⟩
  | exited c s1 => rw [hx] at hd; exact ⟨d, hd⟩
  | undef s1 => rw [hx] at hd; exact ⟨d, hd⟩
  | spinning s1 => rw [hx] at hd; exact ⟨d, hd⟩

theorem safe_bind {α γ : Type} {p : Event T → Prop} {m : M (sim_api_t T β) α}
    {f : α → M (sim_api_t T β) γ} (hm : Safe p m) (hf : ∀ a, Safe p (f a)) :
    Safe p (M.bind m f) := by
  intro s
  obtain ⟨ha, h1, h2, d, hd, hp⟩ := hm s
  unfold M.bind
  cases hx : m s with
  | ok a s1 =>
    rw [hx] at hd h1 h2
    simp only [Res.state] at hd h1 h2
    obtain ⟨ha1, h11, h21, d1, hd1, hp1⟩ := hf a s1
    refine ⟨ha1, h11.trans h1, h21.trans h2, d ++ d1, ?_, ?_⟩
    · rw [hd1, hd, List.append_assoc]
    · intro e he
      rcases List.mem_append.1 he with he | he
      · exact hp e he
      · exact hp1 e he
  | exited c s1 => rw [hx] at ha; cases ha
  | undef s1 => rw [hx] at ha; cases ha
  | spinning s1 =>
    rw [hx] at hd h1 h2
    exact ⟨rfl, h1, h2, d, hd, hp⟩

theorem okEmits_bind {α γ : Type} {p : Event T → Prop} {m : M (sim_api_t T β) α}
    {f : α → M (sim_api_t T β) γ} (hm : OkEmits p m) (hf : ∀ a, OkEmits p (f a)) :
    OkEmits p (M.bind m f) := by
  intro s b s2 h
  obtain ⟨a, s1, hx, hy⟩ := bind_ok_inv h
  obtain ⟨h1, h2, d, hd, hp⟩ := hm s a s1 hx
  obtain ⟨h11, h21, d1, hd1, hp1⟩ := hf a s1 b s2 hy
  refine ⟨h11.trans h1, h21.trans h2, d ++ d1, ?_, ?_⟩
  · rw [hd1, hd, List.append_assoc]
  · intro e he
    rcases List.mem_append.1 he with he | he
    · exact hp e he
    · exact hp1 e he

theorem safe_okEmits {α : Type} {p : Event T → Prop} {m : M (sim_api_t T β) α}
    (hm : Safe p m) : OkEmits p m := by
  intro s a s1 h
  obtain ⟨-, h1, h2, d, hd, hp⟩ := hm s
  rw [h] at h1 h2 hd
  exact ⟨h1, h2, d, hd, hp⟩

theorem safe_grows {α : Type} {p : Event T → Prop} {m : M (sim_api_t T β) α}
    (hm : Safe p m) : Grows m := by
  intro s
  obtain ⟨-, -, -, d, hd, -⟩ := hm s
  exact ⟨d, hd⟩

theorem safe_mono {α : Type} {p q : Event T → Prop} {m : M (sim_api_t T β) α}
    (hm : Safe p m) (hpq : ∀ e, p e → q e) : Safe q m := by
  intro s
  obtain ⟨ha, h1, h2, d, hd, hp⟩ := hm s
  exact ⟨ha, h1, h2, d, hd, fun e he => hpq e (hp e he)⟩

/-- A step that returns normally after a change that touches neither `sim_data` nor
`is_reset` and appends `d` to the log. -/
theorem safe_step {α : Type} {p : Event T → Prop} (m : M (sim_api_t T β) α)
    (d : sim_api_t T β → List (Event T))
    (h : ∀ s, ∃ a s1, m s = Res.ok a s1 ∧ s1.sim_data = s.sim_data ∧
      s1.is_reset = s.is_reset ∧ s1.log = s.log ++ d s)
    (hp : ∀ s, ∀ e ∈ d s, p e) : Safe p m := by
  intro s
  obtain ⟨a, s1, hrun, h1, h2, h3⟩ := h s
  rw [hrun]
  exact ⟨rfl, h1, h2, d s, h3, hp s⟩

theorem safe_pure {α : Type} (p : Event T → Prop) (a : α) :
    Safe p (pure a : M (sim_api_t T β) α) :=
  safe_step _ (fun _ => []) (fun s => ⟨a, s, rfl, rfl, rfl, by simp⟩) (by simp)

theorem safe_testerTurn (p : Event T → Prop) : Safe p (testerTurn : M (sim_api_t T β) Unit) := by
  intro s
  obtain ⟨s1, h, hq⟩ := testerTurn_ok s
  rw [h]
  exact ⟨rfl, hq.1, hq.2.1, [], by simp [Res.state, hq.2.2.2], by simp⟩

theorem safe_onChan (p : Event T → Prop) (c : Chan) (f : channel_t → channel_t) :
    Safe p (onChan c f : M (sim_api_t T β) Unit) :=
  safe_step _ (fun _ => []) (fun s => ⟨(), _, rfl, rfl, rfl, by simp⟩) (by simp)

theorem safe_getState (p : Event T → Prop) :
    Safe p (getState : M (sim_api_t T β) (sim_api_t T β)) :=
  safe_step _ (fun _ => []) (fun s => ⟨s, s, rfl, rfl, rfl, by simp⟩) (by simp)

theorem safe_emit (p : Event T → Prop) (e : Event T) (he : p e) :
    Safe p (emit e : M (sim_api_t T β) Unit) :=
  safe_step _ (fun _ => [e]) (fun s => ⟨(), _, rfl, rfl, rfl, rfl⟩)
    (fun _ e1 h1 => by rw [List.mem_singleton.1 h1]; exact he)

theorem safe_hook (p : Event T → Prop) (f : β → β) (e : Event T) (he : p e) :
    Safe p (hook f e : M (sim_api_t T β) Unit) :=
  safe_step _ (fun _ => [e]) (fun s => ⟨(), _, rfl, rfl, rfl, rfl⟩)
    (fun _ e1 h1 => by rw [List.mem_singleton.1 h1]; exact he)

theorem safe_spin (p : Event T → Prop) (c : Chan) (fuel : Nat) :
    Safe p (spin c fuel : M (sim_api_t T β) Unit) := by
  intro s
  rcases spin_cases c fuel s with ⟨s1, h, hq⟩ | ⟨s1, h, hq⟩ <;>
  · rw [h]
    exact ⟨rfl, hq.1, hq.2.1, [], by simp [Res.state, hq.2.2.2], by simp⟩

theorem safe_ite {α : Type} {p : Event T → Prop} (c : Prop) [Decidable c]
    {m1 m2 : M (sim_api_t T β) α} (h1 : Safe p m1) (h2 : Safe p m2) :
    Safe p (if c then m1 else m2) := by
  split
  · exact h1
  · exact h2

theorem safe_retry {α : Type} {p : Event T → Prop} (op : α → M (sim_api_t T β) (Bool × α))
    (hop : ∀ x, Safe p (op x)) : ∀ fuel x, Safe p (retry op fuel x) := by
  intro fuel
  induction fuel with
  | zero =>
    intro x s
    exact ⟨rfl, rfl, rfl, [], by simp [retry, Res.state], by simp⟩
  | succ n ih =>
    intro x
    have : retry op (n + 1) x =
        M.bind testerTurn (fun _ => M.bind (op x) (fun r =>
          if r.1 then pure r.2 else retry op n r.2)) := rfl
    rw [this]
    refine safe_bind (safe_testerTurn p) (fun _ => safe_bind (hop x) (fun r => ?_))
    exact safe_ite _ (safe_pure p r.2) (ih r.2)


theorem safe_aquire (p : Event T → Prop) (c : Chan) (fuel : Nat) :
    Safe p (aquire c fuel : M (sim_api_t T β) Unit) :=
  safe_bind (safe_onChan p c _) (fun _ => safe_spin p c fuel)

theorem safe_release (p : Event T → Prop) (c : Chan) :
    Safe p (release c : M (sim_api_t T β) Unit) :=
  safe_onChan p c _

theorem safe_produce (c : Chan) :
    Safe (fun e => e.benign = true) (produce c : M (sim_api_t T β) Unit) :=
  safe_bind (safe_onChan _ c _)
    (fun _ => safe_emit (fun e => e.benign = true) (Event.produce c) rfl)

theorem safe_consume (c : Chan) :
    Safe (fun e => e.benign = true) (consume c : M (sim_api_t T β) Unit) :=
  safe_bind (safe_onChan _ c _)
    (fun _ => safe_emit (fun e => e.benign = true) (Event.consume c) rfl)

theorem safe_call_put_value (c : Chan) (sig : T) (off : Nat) (force : Bool) :
    Safe (fun e => e.benign = true) (call_put_value B c sig off force) :=
  safe_step _ (fun s => [Event.put_value sig off force
      (B.put_value sig (s.ch c).words off force s.backend).1])
    (fun s => ⟨_, _, rfl, rfl, rfl, rfl⟩)
    (fun _ e1 h1 => by rw [List.mem_singleton.1 h1]; rfl)

theorem safe_call_get_value (c : Chan) (sig : T) (off : Nat) :
    Safe (fun e => e.benign = true) (call_get_value B c sig off) :=
  safe_step _ (fun s => [Event.get_value sig off
      (B.get_value sig (s.ch c).words off s.backend).1])
    (fun s => ⟨_, _, rfl, rfl, rfl, rfl⟩)
    (fun _ e1 h1 => by rw [List.mem_singleton.1 h1]; rfl)

theorem safe_call_search (path : String) :
    Safe (fun e => e.benign = true) (call_search B path) :=
  safe_step _ (fun _ => [Event.search path]) (fun s => ⟨_, _, rfl, rfl, rfl, rfl⟩)
    (fun _ e1 h1 => by rw [List.mem_singleton.1 h1]; rfl)

theorem safe_call_get_chunk (sig : T) :
    Safe (fun e => e.benign = true) (call_get_chunk B sig) :=
  safe_step _ (fun _ => [Event.get_chunk sig]) (fun s => ⟨_, _, rfl, rfl, rfl, rfl⟩)
    (fun _ e1 h1 => by rw [List.mem_singleton.1 h1]; rfl)

theorem safe_put_tokens (l : List T) :
    ∀ off, Safe (fun e => e.benign = true) (put_tokens B l off) := by
  induction l with
  | nil => exact fun off => safe_pure _ off
  | cons sig rest ih =>
    exact fun off => safe_bind (safe_call_put_value B _ sig off false) (fun n => ih _)

theorem safe_get_tokens (l : List T) :
    ∀ off, Safe (fun e => e.benign = true) (get_tokens B l off) := by
  induction l with
  | nil => exact fun off => safe_pure _ off
  | cons sig rest ih =>
    exact fun off => safe_bind (safe_call_get_value B _ sig off) (fun n => ih _)

theorem safe_recv_cmd (fuel cmd : Nat) :
    Safe (fun e => e.benign = true) (recv_cmd fuel cmd : M (sim_api_t T β) (Bool × Nat)) :=
  safe_bind (safe_aquire _ _ fuel) (fun _ => safe_bind (safe_getState _) (fun _ =>
    safe_bind (safe_ite _ (safe_bind (safe_consume _) (fun _ => safe_pure _ _))
      (safe_pure _ _)) (fun _ => safe_bind (safe_release _ _) (fun _ => safe_pure _ _))))

theorem safe_recv_cmd_str (fuel : Nat) (path : String) :
    Safe (fun e => e.benign = true)
      (recv_cmd_str fuel path : M (sim_api_t T β) (Bool × String)) :=
  safe_bind (safe_aquire _ _ fuel) (fun _ => safe_bind (safe_getState _) (fun _ =>
    safe_bind (safe_ite _ (safe_bind (safe_consume _) (fun _ => safe_pure _ _))
      (safe_pure _ _)) (fun _ => safe_bind (safe_release _ _) (fun _ => safe_pure _ _))))

theorem safe_send_resp (v fuel : Nat) (u : Unit) :
    Safe (fun e => e.benign = true)
      (send_resp v fuel u : M (sim_api_t T β) (Bool × Unit)) :=
  safe_bind (safe_aquire _ _ fuel) (fun _ => safe_bind (safe_getState _) (fun _ =>
    safe_bind (safe_ite _ (safe_bind (safe_onChan _ _ _) (fun _ => safe_produce _))
      (safe_pure _ _)) (fun _ => safe_bind (safe_release _ _) (fun _ => safe_pure _ _))))

theorem safe_recv_value (obj : T) (force : Bool) (fuel : Nat) (u : Unit) :
    Safe (fun e => e.benign = true) (recv_value B obj force fuel u) :=
  safe_bind (safe_aquire _ _ fuel) (fun _ => safe_bind (safe_getState _) (fun _ =>
    safe_bind (safe_ite _ (safe_bind (safe_call_put_value B _ _ _ _) (fun _ => safe_consume _))
      (safe_pure _ _)) (fun _ => safe_bind (safe_release _ _) (fun _ => safe_pure _ _))))

theorem safe_send_value (obj : T) (fuel : Nat) (u : Unit) :
    Safe (fun e => e.benign = true) (send_value B obj fuel u) :=
  safe_bind (safe_aquire _ _ fuel) (fun _ => safe_bind (safe_getState _) (fun _ =>
    safe_bind (safe_ite _ (safe_bind (safe_call_get_value B _ _ _) (fun _ => safe_produce _))
      (safe_pure _ _)) (fun _ => safe_bind (safe_release _ _) (fun _ => safe_pure _ _))))

theorem safe_recv_tokens (fuel : Nat) (u : Unit) :
    Safe (fun e => e.benign = true) (recv_tokens B fuel u) :=
  safe_bind (safe_aquire _ _ fuel) (fun _ => safe_bind (safe_getState _) (fun _ =>
    safe_bind (safe_ite _ (safe_bind (safe_put_tokens B _ _) (fun _ => safe_consume _))
      (safe_pure _ _)) (fun _ => safe_bind (safe_release _ _) (fun _ => safe_pure _ _))))

theorem safe_send_tokens (fuel : Nat) (u : Unit) :
    Safe (fun e => e.benign = true) (send_tokens B fuel u) :=
  safe_bind (safe_aquire _ _ fuel) (fun _ => safe_bind (safe_getState _) (fun _ =>
    safe_bind (safe_ite _ (safe_bind (safe_get_tokens B _ _) (fun _ => safe_produce _))
      (safe_pure _ _)) (fun _ => safe_bind (safe_release _ _) (fun _ => safe_pure _ _))))

/-- `getid` never exits and never reaches an undefined access. -/
theorem safe_getid (fuel : Nat) : Safe (fun e => e.benign = true) (getid B fuel) := by
  refine safe_bind (safe_retry _ (fun x => safe_recv_cmd_str fuel x) fuel "") (fun path => ?_)
  refine safe_bind (safe_getState _) (fun s => ?_)
  cases h : s.sim_data.signal_map path with
  | some id =>
    simp only [h]
    exact safe_retry _ (fun u => safe_send_resp id fuel u) fuel ()
  | none =>
    simp only [h]
    exact safe_bind (safe_call_search B path)
      (fun id => safe_retry _ (fun u => safe_send_resp _ fuel u) fuel ())

/-! ### The retry loops -/

/-- A retry loop either is still waiting, with nothing done, or has returned from the
first attempt that succeeded; `Succ s x s2` relates the state before that attempt to
the value and state it returned. -/
theorem retry_cases {α : Type} (op : α → M (sim_api_t T β) (Bool × α))
    (Succ : sim_api_t T β → α → sim_api_t T β → Prop)
    (hq : ∀ s s0 x s2, Quiet s s0 → Succ s0 x s2 → Succ s x s2)
    (hop : ∀ x s, (∃ s1, op x s = Res.spinning s1 ∧ Quiet s s1) ∨
      (∃ x1 s1, op x s = Res.ok (false, x1) s1 ∧ Quiet s s1) ∨
      (∃ x1 s2, op x s = Res.ok (true, x1) s2 ∧ Succ s x1 s2)) :
    ∀ fuel x s, (∃ s1, retry op fuel x s = Res.spinning s1 ∧ Quiet s s1) ∨
      (∃ x1 s2, retry op fuel x s = Res.ok x1 s2 ∧ Succ s x1 s2) := by
  intro fuel
  induction fuel with
  | zero => exact fun x s => Or.inl ⟨s, rfl, Quiet.refl s⟩
  | succ n ih =>
    intro x s
    obtain ⟨s0, ht, hq0⟩ := testerTurn_ok s
    have hdef : retry op (n + 1) x s =
        M.bind (op x) (fun r => if r.1 then pure r.2 else retry op n r.2) s0 := by
      show M.bind testerTurn _ s = _
      rw [bind_ok _ _ _ _ _ ht]
      rfl
    rcases hop x s0 with ⟨s1, h1, hq1⟩ | ⟨x1, s1, h1, hq1⟩ | ⟨x1, s2, h1, hs⟩
    · exact Or.inl ⟨s1, by rw [hdef]; simp [M.bind, h1], hq0.trans hq1⟩
    · have hstep : retry op (n + 1) x s = retry op n x1 s1 := by
        rw [hdef, bind_ok _ _ _ _ _ h1]; simp
      rcases ih x1 s1 with ⟨s2, h2, hq2⟩ | ⟨x2, s2, h2, hs⟩
      · exact Or.inl ⟨s2, by rw [hstep, h2], (hq0.trans hq1).trans hq2⟩
      · exact Or.inr ⟨x2, s2, by rw [hstep, h2], hq _ _ _ _ (hq0.trans hq1) hs⟩
    · exact Or.inr ⟨x1, s2, by rw [hdef, bind_ok _ _ _ _ _ h1]; simp, hq _ _ _ _ hq0 hs⟩

theorem quiet_release (c : Chan) (s : sim_api_t T β) :
    Quiet s { s with ch := Function.update s.ch c (s.ch c).release } :=
  Quiet.setCh s _

theorem retry_recv_cmd (fuel n x : Nat) (s : sim_api_t T β) :
    (∃ s1, retry (recv_cmd fuel) n x s = Res.spinning s1 ∧ Quiet s s1) ∨
    (∃ s1, Quiet s s1 ∧ (s1.ch Chan.cmd_channel).b3 = 1 ∧
      retry (recv_cmd fuel) n x s = Res.ok ((s1.ch Chan.cmd_channel).get 0)
        { s1 with
          ch := Function.update s1.ch Chan.cmd_channel
            (s1.ch Chan.cmd_channel).consume.release,
          log := s1.log ++ [Event.consume Chan.cmd_channel] }) := by
  rcases retry_cases (recv_cmd fuel)
      (fun s x1 s2 => ∃ s1, Quiet s s1 ∧ (s1.ch Chan.cmd_channel).b3 = 1 ∧
        x1 = (s1.ch Chan.cmd_channel).get 0 ∧
        s2 = { s1 with
          ch := Function.update s1.ch Chan.cmd_channel
            (s1.ch Chan.cmd_channel).consume.release,
          log := s1.log ++ [Event.consume Chan.cmd_channel] })
      (fun s s0 x s2 hq ⟨s1, h1, h2⟩ => ⟨s1, hq.trans h1, h2⟩)
      (fun x s => by
        rcases aquire_cases Chan.cmd_channel fuel s with ⟨s1, h, hq⟩ | ⟨s1, h, hq⟩
        · cases hv : (s1.ch Chan.cmd_channel).valid
          · exact Or.inr (Or.inl ⟨_, _, recv_cmd_false fuel x s s1 h hv,
              hq.trans (quiet_release _ s1)⟩)
          · exact Or.inr (Or.inr ⟨_, _, recv_cmd_true fuel x s s1 h hv, s1, hq,
              (valid_iff _).1 hv, rfl, rfl⟩)
        · exact Or.inl ⟨s1, recv_cmd_spinning fuel x s s1 h, hq⟩) n x s with
    ⟨s1, h, hq⟩ | ⟨x1, s2, h, s1, hq, hv, rfl, rfl⟩
  · exact Or.inl ⟨s1, h, hq⟩
  · exact Or.inr ⟨s1, hq, hv, h⟩

theorem retry_recv_cmd_str (fuel : Nat) (n : Nat) (x : String) (s : sim_api_t T β) :
    (∃ s1, retry (recv_cmd_str fuel) n x s = Res.spinning s1 ∧ Quiet s s1) ∨
    (∃ s1, Quiet s s1 ∧ (s1.ch Chan.cmd_channel).b3 = 1 ∧
      retry (recv_cmd_str fuel) n x s = Res.ok (s1.ch Chan.cmd_channel).str
        { s1 with
          ch := Function.update s1.ch Chan.cmd_channel
            (s1.ch Chan.cmd_channel).consume.release,
          log := s1.log ++ [Event.consume Chan.cmd_channel] }) := by
  rcases retry_cases (recv_cmd_str fuel)
      (fun s x1 s2 => ∃ s1, Quiet s s1 ∧ (s1.ch Chan.cmd_channel).b3 = 1 ∧
        x1 = (s1.ch Chan.cmd_channel).str ∧
        s2 = { s1 with
          ch := Function.update s1.ch Chan.cmd_channel
            (s1.ch Chan.cmd_channel).consume.release,
          log := s1.log ++ [Event.consume Chan.cmd_channel] })
      (fun s s0 x s2 hq ⟨s1, h1, h2⟩ => ⟨s1, hq.trans h1, h2⟩)
      (fun x s => by
        rcases aquire_cases Chan.cmd_channel fuel s with ⟨s1, h, hq⟩ | ⟨s1, h, hq⟩
        · cases hv : (s1.ch Chan.cmd_channel).valid
          · exact Or.inr (Or.inl ⟨_, _, recv_cmd_str_false fuel x s s1 h hv,
              hq.trans (quiet_release _ s1)⟩)
          · exact Or.inr (Or.inr ⟨_, _, recv_cmd_str_true fuel x s s1 h hv, s1, hq,
              (valid_iff _).1 hv, rfl, rfl⟩)
        · exact Or.inl ⟨s1, recv_cmd_str_spinning fuel x s s1 h, hq⟩) n x s with
    ⟨s1, h, hq⟩ | ⟨x1, s2, h, s1, hq, hv, rfl, rfl⟩
  · exact Or.inl ⟨s1, h, hq⟩
  · exact Or.inr ⟨s1, hq, hv, h⟩

theorem retry_send_resp (v fuel : Nat) (n : Nat) (x : Unit) (s : sim_api_t T β) :
    (∃ s1, retry (send_resp v fuel) n x s = Res.spinning s1 ∧ Quiet s s1) ∨
    (∃ s1, Quiet s s1 ∧ (s1.ch Chan.out_channel).b3 = 0 ∧
      retry (send_resp v fuel) n x s = Res.ok ()
        { s1 with
          ch := Function.update s1.ch Chan.out_channel
            ((s1.ch Chan.out_channel).set 0 v).produce.release,
          log := s1.log ++ [Event.produce Chan.out_channel] }) := by
  rcases retry_cases (send_resp v fuel)
      (fun s x1 s2 => ∃ s1, Quiet s s1 ∧ (s1.ch Chan.out_channel).b3 = 0 ∧
        x1 = () ∧
        s2 = { s1 with
          ch := Function.update s1.ch Chan.out_channel
            ((s1.ch Chan.out_channel).set 0 v).produce.release,
          log := s1.log ++ [Event.produce Chan.out_channel] })
      (fun s s0 x s2 hq ⟨s1, h1, h2⟩ => ⟨s1, hq.trans h1, h2⟩)
      (fun x s => by
        rcases aquire_cases Chan.out_channel fuel s with ⟨s1, h, hq⟩ | ⟨s1, h, hq⟩
        · cases hv : (s1.ch Chan.out_channel).ready
          · exact Or.inr (Or.inl ⟨_, _, send_resp_false v fuel x s s1 h hv,
              hq.trans (quiet_release _ s1)⟩)
          · exact Or.inr (Or.inr ⟨_, _, send_resp_true v fuel x s s1 h hv, s1, hq,
              (ready_iff _).1 hv, rfl, rfl⟩)
        · exact Or.inl ⟨s1, send_resp_spinning v fuel x s s1 h, hq⟩) n x s with
    ⟨s1, h, hq⟩ | ⟨x1, s2, h, s1, hq, hv, rfl, rfl⟩
  · exact Or.inl ⟨s1, h, hq⟩
  · exact Or.inr ⟨s1, hq, hv, h⟩

theorem retry_send_value (obj : T) (fuel : Nat) (n : Nat) (x : Unit) (s : sim_api_t T β) :
    (∃ s1, retry (send_value B obj fuel) n x s = Res.spinning s1 ∧ Quiet s s1) ∨
    (∃ s1, Quiet s s1 ∧ (s1.ch Chan.out_channel).b3 = 0 ∧
      retry (send_value B obj fuel) n x s = Res.ok ()
        { s1 with
          ch := Function.update s1.ch Chan.out_channel
            (channel_t.release (channel_t.produce { s1.ch Chan.out_channel with
              words := (B.get_value obj (s1.ch Chan.out_channel).words 0 s1.backend).2.1 })),
          backend := (B.get_value obj (s1.ch Chan.out_channel).words 0 s1.backend).2.2,
          log := s1.log ++
            [Event.get_value obj 0
                (B.get_value obj (s1.ch Chan.out_channel).words 0 s1.backend).1,
              Event.produce Chan.out_channel] }) := by
  rcases retry_cases (send_value B obj fuel)
      (fun s x1 s2 => ∃ s1, Quiet s s1 ∧ (s1.ch Chan.out_channel).b3 = 0 ∧
        x1 = () ∧
        s2 = { s1 with
          ch := Function.update s1.ch Chan.out_channel
            (channel_t.release (channel_t.produce { s1.ch Chan.out_channel with
              words := (B.get_value obj (s1.ch Chan.out_channel).words 0 s1.backend).2.1 })),
          backend := (B.get_value obj (s1.ch Chan.out_channel).words 0 s1.backend).2.2,
          log := s1.log ++
            [Event.get_value obj 0
                (B.get_value obj (s1.ch Chan.out_channel).words 0 s1.backend).1,
              Event.produce Chan.out_channel] })
      (fun s s0 x s2 hq ⟨s1, h1, h2⟩ => ⟨s1, hq.trans h1, h2⟩)
      (fun x s => by
        rcases aquire_cases Chan.out_channel fuel s with ⟨s1, h, hq⟩ | ⟨s1, h, hq⟩
        · cases hv : (s1.ch Chan.out_channel).ready
          · exact Or.inr (Or.inl ⟨_, _, send_value_false B obj fuel x s s1 h hv,
              hq.trans (quiet_release _ s1)⟩)
          · exact Or.inr (Or.inr ⟨_, _, send_value_true B obj fuel x s s1 h hv, s1, hq,
              (ready_iff _).1 hv, rfl, rfl⟩)
        · exact Or.inl ⟨s1, send_value_spinning B obj fuel x s s1 h, hq⟩) n x s with
    ⟨s1, h, hq⟩ | ⟨x1, s2, h, s1, hq, hv, rfl, rfl⟩
  · exact Or.inl ⟨s1, h, hq⟩
  · exact Or.inr ⟨s1, hq, hv, h⟩

theorem retry_recv_tokens (fuel : Nat) (n : Nat) (x : Unit) (s : sim_api_t T β) :
    (∃ s1, retry (recv_tokens B fuel) n x s = Res.spinning s1 ∧ Quiet s s1) ∨
    (∃ s1 off sT, Quiet s s1 ∧ (s1.ch Chan.in_channel).b3 = 1 ∧
      put_tokens B s1.sim_data.inputs 0 s1 = Res.ok off sT ∧
      retry (recv_tokens B fuel) n x s = Res.ok ()
        { sT with
          ch := Function.update sT.ch Chan.in_channel (sT.ch Chan.in_channel).consume.release,
          log := sT.log ++ [Event.consume Chan.in_channel] }) := by
  rcases retry_cases (recv_tokens B fuel)
      (fun s x1 s2 => ∃ s1 off sT, Quiet s s1 ∧ (s1.ch Chan.in_channel).b3 = 1 ∧
      put_tokens B s1.sim_data.inputs 0 s1 = Res.ok off sT ∧
        x1 = () ∧
        s2 = { sT with
          ch := Function.update sT.ch Chan.in_channel (sT.ch Chan.in_channel).consume.release,
          log := sT.log ++ [Event.consume Chan.in_channel] })
      (fun s s0 x s2 hq ⟨s1, off, sT, h1, h2⟩ => ⟨s1, off, sT, hq.trans h1, h2⟩)
      (fun x s => by
        rcases aquire_cases Chan.in_channel fuel s with ⟨s1, h, hq⟩ | ⟨s1, h, hq⟩
        · cases hv : (s1.ch Chan.in_channel).valid
          · exact Or.inr (Or.inl ⟨_, _, recv_tokens_false B fuel x s s1 h hv,
              hq.trans (quiet_release _ s1)⟩)
          · obtain ⟨off1, sT, d, hrun, -⟩ := put_tokens_spec B s1.sim_data.inputs 0 s1
            exact Or.inr (Or.inr ⟨_, _, recv_tokens_true B fuel x s s1 sT off1 h hv hrun,
              s1, off1, sT, hq,
              (valid_iff _).1 hv, hrun, rfl, rfl⟩)
        · exact Or.inl ⟨s1, recv_tokens_spinning B fuel x s s1 h, hq⟩) n x s with
    ⟨s1, h, hq⟩ | ⟨x1, s2, h, s1, off, sT, hq, hv, hrun, rfl, rfl⟩
  · exact Or.inl ⟨s1, h, hq⟩
  · exact Or.inr ⟨s1, off, sT, hq, hv, hrun, h⟩

theorem retry_send_tokens (fuel : Nat) (n : Nat) (x : Unit) (s : sim_api_t T β) :
    (∃ s1, retry (send_tokens B fuel) n x s = Res.spinning s1 ∧ Quiet s s1) ∨
    (∃ s1 off sT, Quiet s s1 ∧ (s1.ch Chan.out_channel).b3 = 0 ∧
      get_tokens B s1.sim_data.outputs 0 s1 = Res.ok off sT ∧
      retry (send_tokens B fuel) n x s = Res.ok ()
        { sT with
          ch := Function.update sT.ch Chan.out_channel (sT.ch Chan.out_channel).produce.release,
          log := sT.log ++ [Event.produce Chan.out_channel] }) := by
  rcases retry_cases (send_tokens B fuel)
      (fun s x1 s2 => ∃ s1 off sT, Quiet s s1 ∧ (s1.ch Chan.out_channel).b3 = 0 ∧
      get_tokens B s1.sim_data.outputs 0 s1 = Res.ok off sT ∧
        x1 = () ∧
        s2 = { sT with
          ch := Function.update sT.ch Chan.out_channel (sT.ch Chan.out_channel).produce.release,
          log := sT.log ++ [Event.produce Chan.out_channel] })
      (fun s s0 x s2 hq ⟨s1, off, sT, h1, h2⟩ => ⟨s1, off, sT, hq.trans h1, h2⟩)
      (fun x s => by
        rcases aquire_cases Chan.out_channel fuel s with ⟨s1, h, hq⟩ | ⟨s1, h, hq⟩
        · cases hv : (s1.ch Chan.out_channel).ready
          · exact Or.inr (Or.inl ⟨_, _, send_tokens_false B fuel x s s1 h hv,
              hq.trans (quiet_release _ s1)⟩)
          · obtain ⟨off1, sT, d, hrun, -⟩ := get_tokens_spec B s1.sim_data.outputs 0 s1
            exact Or.inr (Or.inr ⟨_, _, send_tokens_true B fuel x s s1 sT off1 h hv hrun,
              s1, off1, sT, hq,
              (ready_iff _).1 hv, hrun, rfl, rfl⟩)
        · exact Or.inl ⟨s1, send_tokens_spinning B fuel x s s1 h, hq⟩) n x s with
    ⟨s1, h, hq⟩ | ⟨x1, s2, h, s1, off, sT, hq, hv, hrun, rfl, rfl⟩
  · exact Or.inl ⟨s1, h, hq⟩
  · exact Or.inr ⟨s1, off, sT, hq, hv, hrun, h⟩

/-! ### The command loop -/

/-- The case label selected for an opcode word is the enumerator whose value is the
word modulo 2^32. -/
theorem castCmd_eq_some (c : Nat) (k : SIM_CMD) :
    castCmd c = some k ↔ c % ENUM_MOD = k.val := by
  unfold castCmd
  generalize c % ENUM_MOD = m
  match m with
  | 0 | 1 | 2 | 3 | 4 | 5 | 6 | 7 | 8 | 9 => cases k <;> simp [SIM_CMD.val]
  | n + 10 => cases k <;> simp [SIM_CMD.val]

theorem castCmd_eq_none (c : Nat) : castCmd c = none ↔ 10 ≤ c % ENUM_MOD := by
  unfold castCmd
  generalize c % ENUM_MOD = m
  match m with
  | 0 | 1 | 2 | 3 | 4 | 5 | 6 | 7 | 8 | 9 => simp
  | n + 10 => simp

theorem bind_pure_ok {α γ : Type} {σ : Type} {m : M σ α} {b ex : γ} {s s1 : σ}
    (h : M.bind m (fun _ => (pure b : M σ γ)) s = Res.ok ex s1) : ex = b := by
  obtain ⟨a, s0, -, h2⟩ := bind_ok_inv h
  cases h2
  rfl

theorem dispatch_ok_exit (fuel c : Nat) (s s1 : sim_api_t T β) (ex : Bool)
    (h : dispatch B fuel c s = Res.ok ex s1) :
    ex = true ↔ (castCmd c = some SIM_CMD.RESET ∨ castCmd c = some SIM_CMD.STEP ∨
      castCmd c = some SIM_CMD.UPDATE ∨ castCmd c = some SIM_CMD.FIN) := by
  unfold dispatch at h
  cases hc : castCmd c with
  | none =>
    rw [hc] at h
    cases h
    simp
  | some k =>
    rw [hc] at h
    cases k <;> simp only at h
    · obtain ⟨_, _, -, h2⟩ := bind_ok_inv h
      rw [bind_pure_ok h2]; simp
    · obtain ⟨_, _, -, h2⟩ := bind_ok_inv h
      rw [bind_pure_ok h2]; simp
    · obtain ⟨_, _, -, h2⟩ := bind_ok_inv h
      rw [bind_pure_ok h2]; simp
    · rw [bind_pure_ok h]; simp
    · rw [bind_pure_ok h]; simp
    · rw [bind_pure_ok h]; simp
    · rw [bind_pure_ok h]; simp
    · rw [bind_pure_ok h]; simp
    · rw [bind_pure_ok h]; simp
    · rw [bind_pure_ok h]; simp

/-! ### Handlers that look up a signal -/

/-- What receiving a word from the command channel leaves behind. -/
theorem retry_recv_cmd_ok (fuel n x : Nat) (s s1 : sim_api_t T β) (id : Nat)
    (h : retry (recv_cmd fuel) n x s = Res.ok id s1) :
    s1.log = s.log ++ [Event.consume Chan.cmd_channel] ∧ s1.backend = s.backend ∧
      s1.sim_data = s.sim_data ∧ s1.is_reset = s.is_reset := by
  rcases retry_recv_cmd fuel n x s with ⟨s2, h2, -⟩ | ⟨s2, hq, -, h2⟩
  · rw [h2] at h; cases h
  · rw [h2] at h
    cases h
    exact ⟨by simp [hq.2.2.2], hq.2.2.1, hq.1, hq.2.1⟩

theorem retry_recv_cmd_str_ok (fuel n : Nat) (x : String) (s s1 : sim_api_t T β) (p : String)
    (h : retry (recv_cmd_str fuel) n x s = Res.ok p s1) :
    s1.log = s.log ++ [Event.consume Chan.cmd_channel] ∧ s1.backend = s.backend ∧
      s1.sim_data = s.sim_data ∧ s1.is_reset = s.is_reset := by
  rcases retry_recv_cmd_str fuel n x s with ⟨s2, h2, -⟩ | ⟨s2, hq, -, h2⟩
  · rw [h2] at h; cases h
  · rw [h2] at h
    cases h
    exact ⟨by simp [hq.2.2.2], hq.2.2.1, hq.1, hq.2.1⟩

theorem signal_at_some (id : Nat) (obj : T) (s : sim_api_t T β)
    (h : s.sim_data.signals[id]? = some obj) : signal_at id s = Res.ok obj s := by
  simp [signal_at, h]

theorem signal_at_none (id : Nat) (s : sim_api_t T β)
    (h : s.sim_data.signals[id]? = none) : (signal_at id s : Res _ T) = Res.undef s := by
  simp [signal_at, h]

/-- The null-handle branch shared by `poke`, `peek` and `getchk`. -/
theorem null_branch {α : Type} (obj : T) (s : sim_api_t T β) (k : Unit → M (sim_api_t T β) α)
    (h : B.isNull obj = true) :
    M.bind (if B.isNull obj = true then
        M.bind (hook B.finish Event.finish) (fun _ => exit 2) else pure ()) k s
      = Res.exited 2 { s with backend := B.finish s.backend, log := s.log ++ [Event.finish] } := by
  simp [h, M.bind, hook, exit]

theorem nonnull_branch {α : Type} (obj : T) (s : sim_api_t T β)
    (k : Unit → M (sim_api_t T β) α)
    (h : B.isNull obj = false) :
    M.bind (if B.isNull obj = true then
        M.bind (hook B.finish Event.finish) (fun _ => exit 2) else pure ()) k s
      = k () s := by
  simp [h, M.bind]

theorem poke_eq (force : Bool) (fuel id : Nat) (s s1 : sim_api_t T β) (obj : T)
    (hrecv : retry (recv_cmd fuel) fuel 0 s = Res.ok id s1)
    (hobj : s1.sim_data.signals[id]? = some obj) :
    poke B force fuel s =
      M.bind (if B.isNull obj = true then
        M.bind (hook B.finish Event.finish) (fun _ => exit 2) else pure ())
        (fun _ => retry (recv_value B obj force fuel) fuel ()) s1 := by
  show M.bind (retry (recv_cmd fuel) fuel 0) _ s = _
  rw [bind_ok _ _ _ _ _ hrecv]
  show M.bind (signal_at id) _ s1 = _
  rw [bind_ok _ _ _ _ _ (signal_at_some id obj s1 hobj)]
  rfl

theorem peek_eq (fuel id : Nat) (s s1 : sim_api_t T β) (obj : T)
    (hrecv : retry (recv_cmd fuel) fuel 0 s = Res.ok id s1)
    (hobj : s1.sim_data.signals[id]? = some obj) :
    peek B fuel s =
      M.bind (if B.isNull obj = true then
        M.bind (hook B.finish Event.finish) (fun _ => exit 2) else pure ())
        (fun _ => retry (send_value B obj fuel) fuel ()) s1 := by
  show M.bind (retry (recv_cmd fuel) fuel 0) _ s = _
  rw [bind_ok _ _ _ _ _ hrecv]
  show M.bind (signal_at id) _ s1 = _
  rw [bind_ok _ _ _ _ _ (signal_at_some id obj s1 hobj)]
  rfl

theorem getchk_eq (fuel id : Nat) (s s1 : sim_api_t T β) (obj : T)
    (hrecv : retry (recv_cmd fuel) fuel 0 s = Res.ok id s1)
    (hobj : s1.sim_data.signals[id]? = some obj) :
    getchk B fuel s =
      M.bind (if B.isNull obj = true then
        M.bind (hook B.finish Event.finish) (fun _ => exit 2) else pure ())
        (fun _ => M.bind (call_get_chunk B obj)
          (fun chunk => retry (send_resp chunk fuel) fuel ())) s1 := by
  show M.bind (retry (recv_cmd fuel) fuel 0) _ s = _
  rw [bind_ok _ _ _ _ _ hrecv]
  show M.bind (signal_at id) _ s1 = _
  rw [bind_ok _ _ _ _ _ (signal_at_some id obj s1 hobj)]
  rfl

/-! ### `getid` -/

/-- What a response that was sent leaves behind. -/
theorem retry_send_resp_ok (v fuel n : Nat) (x : Unit) (s s2 : sim_api_t T β)
    (h : retry (send_resp v fuel) n x s = Res.ok () s2) :
    (s2.ch Chan.out_channel).get 0 = v ∧ (s2.ch Chan.out_channel).b3 = 1 ∧
      s2.log = s.log ++ [Event.produce Chan.out_channel] ∧ s2.backend = s.backend ∧
      s2.sim_data = s.sim_data ∧ s2.is_reset = s.is_reset := by
  rcases retry_send_resp v fuel n x s with ⟨s1, h1, -⟩ | ⟨s1, hq, -, h1⟩
  · rw [h1] at h; cases h
  · rw [h1] at h
    cases h
    exact ⟨by simp [channel_t.get, channel_t.set, channel_t.produce, channel_t.release],
      by simp [channel_t.produce, channel_t.release], by simp [hq.2.2.2], hq.2.2.1, hq.1,
      hq.2.1⟩

theorem toInt_range (i : Int) : -2 ^ 31 ≤ toInt i ∧ toInt i < 2 ^ 31 := by
  unfold toInt
  omega

/-- A negative `int` converted to `size_t` and read back as a signed 64-bit integer is
the same negative value. -/
theorem asSigned_intToSize (r : Int) (hlo : -2 ^ 31 ≤ r) (hneg : r < 0) :
    asSigned (intToSize r) = r := by
  unfold asSigned intToSize SIZE_MOD
  have h1 : r % ((2 ^ 64 : Nat) : Int) = r + 2 ^ 64 := by
    push_cast
    omega
  rw [h1]
  have h2 : ((r + 2 ^ 64).toNat : Int) = r + 2 ^ 64 := Int.toNat_of_nonneg (by omega)
  have h3 : ¬ (r + 2 ^ 64).toNat < 2 ^ 63 := by
    intro hlt
    have : ((r + 2 ^ 64).toNat : Int) < 2 ^ 63 := by exact_mod_cast hlt
    omega
  rw [if_neg h3, h2]
  push_cast
  omega

theorem getid_hit (fuel : Nat) (s s1 : sim_api_t T β) (p : String) (id : Nat)
    (hrecv : retry (recv_cmd_str fuel) fuel "" s = Res.ok p s1)
    (hmap : s1.sim_data.signal_map p = some id) :
    getid B fuel s = retry (send_resp id fuel) fuel () s1 := by
  show M.bind (retry (recv_cmd_str fuel) fuel "") _ s = _
  rw [bind_ok _ _ _ _ _ hrecv]
  show M.bind getState _ s1 = _
  rw [bind_ok getState _ s1 s1 s1 rfl]
  simp only [hmap]

theorem getid_miss (fuel : Nat) (s s1 : sim_api_t T β) (p : String)
    (hrecv : retry (recv_cmd_str fuel) fuel "" s = Res.ok p s1)
    (hmap : s1.sim_data.signal_map p = none) :
    getid B fuel s = retry (send_resp (intToSize (toInt (B.search p s1.backend).1)) fuel) fuel ()
      { s1 with backend := (B.search p s1.backend).2, log := s1.log ++ [Event.search p] } := by
  show M.bind (retry (recv_cmd_str fuel) fuel "") _ s = _
  rw [bind_ok _ _ _ _ _ hrecv]
  show M.bind getState _ s1 = _
  rw [bind_ok getState _ s1 s1 s1 rfl]
  simp only [hmap]
  rfl

/-- A non-negative `int` converted to `size_t` keeps its value. -/
theorem intToSize_nonneg (r : Int) (h0 : 0 ≤ r) (hhi : r < 2 ^ 31) :
    ((intToSize r : Nat) : Int) = r := by
  unfold intToSize SIZE_MOD
  have h1 : r % ((2 ^ 64 : Nat) : Int) = r := by
    push_cast
    omega
  rw [h1]
  exact Int.toNat_of_nonneg h0

/-! ### The log only grows -/

theorem grows_pure {α : Type} (a : α) : Grows (pure a : M (sim_api_t T β) α) :=
  fun _ => ⟨[], by simp [Res.state]⟩

theorem grows_exit {α : Type} (code : Nat) : Grows (exit code : M (sim_api_t T β) α) :=
  fun _ => ⟨[], by simp [exit, Res.state]⟩

theorem grows_hook (f : β → β) (e : Event T) : Grows (hook f e : M (sim_api_t T β) Unit) :=
  fun _ => ⟨[e], rfl⟩

theorem grows_emit (e : Event T) : Grows (emit e : M (sim_api_t T β) Unit) :=
  fun _ => ⟨[e], rfl⟩

theorem grows_getState : Grows (getState : M (sim_api_t T β) (sim_api_t T β)) :=
  fun _ => ⟨[], by simp [getState, Res.state]⟩

theorem grows_set_is_reset (v : Bool) : Grows (set_is_reset v : M (sim_api_t T β) Unit) :=
  fun _ => ⟨[], by simp [set_is_reset, Res.state]⟩

theorem grows_signal_at (id : Nat) : Grows (signal_at id : M (sim_api_t T β) T) := by
  intro s
  unfold signal_at
  cases s.sim_data.signals[id]? <;> exact ⟨[], by simp [Res.state]⟩

theorem grows_ite {α : Type} (c : Prop) [Decidable c] {m1 m2 : M (sim_api_t T β) α}
    (h1 : Grows m1) (h2 : Grows m2) : Grows (if c then m1 else m2) := by
  split
  · exact h1
  · exact h2

theorem grows_null_check (obj : T) :
    Grows (if B.isNull obj = true then
      M.bind (hook B.finish Event.finish) (fun _ => exit 2)
      else (pure () : M (sim_api_t T β) Unit)) :=
  grows_ite _ (grows_bind (grows_hook _ _) (fun _ => grows_exit 2)) (grows_pure ())

theorem grows_poke (force : Bool) (fuel : Nat) : Grows (poke B force fuel) :=
  grows_bind (safe_grows (safe_retry _ (fun x => safe_recv_cmd fuel x) fuel 0)) (fun _ =>
    grows_bind (grows_signal_at _) (fun obj => grows_bind (grows_null_check B obj) (fun _ =>
      (safe_grows (safe_retry _ (fun u => safe_recv_value B obj force fuel u) fuel ())))))

theorem grows_peek (fuel : Nat) : Grows (peek B fuel) :=
  grows_bind (safe_grows (safe_retry _ (fun x => safe_recv_cmd fuel x) fuel 0)) (fun _ =>
    grows_bind (grows_signal_at _) (fun obj => grows_bind (grows_null_check B obj) (fun _ =>
      (safe_grows (safe_retry _ (fun u => safe_send_value B obj fuel u) fuel ())))))

theorem grows_getchk (fuel : Nat) : Grows (getchk B fuel) :=
  grows_bind (safe_grows (safe_retry _ (fun x => safe_recv_cmd fuel x) fuel 0)) (fun _ =>
    grows_bind (grows_signal_at _) (fun obj => grows_bind (grows_null_check B obj) (fun _ =>
      grows_bind (safe_grows (safe_call_get_chunk B obj)) (fun chunk =>
        (safe_grows (safe_retry _ (fun u => safe_send_resp chunk fuel u) fuel ()))))))

theorem grows_setclk (fuel : Nat) : Grows (setclk B fuel) := by
  refine grows_bind (safe_grows (safe_retry _ (fun x => safe_recv_cmd_str fuel x) fuel ""))
    (fun path => grows_bind grows_getState (fun s => ?_))
  cases h : s.sim_data.clk_map path with
  | some obj =>
    simp only [h]
    exact (safe_grows (safe_retry _ (fun u => safe_recv_value B obj false fuel u) fuel ()))
  | none =>
    simp only [h]
    exact fun s1 => ⟨[], by simp [Res.state]⟩

theorem grows_dispatch (fuel c : Nat) : Grows (dispatch B fuel c) := by
  unfold dispatch
  cases castCmd c with
  | none => exact grows_pure false
  | some k =>
    cases k
    · exact grows_bind (grows_hook _ _)
        (fun _ => grows_bind (grows_set_is_reset true) (fun _ => grows_pure true))
    · exact grows_bind (safe_grows (safe_retry _ (fun u => safe_recv_tokens B fuel u) fuel ()))
        (fun _ => grows_bind (grows_hook _ _) (fun _ => grows_pure true))
    · exact grows_bind (safe_grows (safe_retry _ (fun u => safe_recv_tokens B fuel u) fuel ()))
        (fun _ => grows_bind (grows_hook _ _) (fun _ => grows_pure true))
    · exact grows_bind (grows_poke B false fuel) (fun _ => grows_pure false)
    · exact grows_bind (grows_peek B fuel) (fun _ => grows_pure false)
    · exact grows_bind (grows_poke B true fuel) (fun _ => grows_pure false)
    · exact grows_bind (safe_grows (safe_getid B fuel)) (fun _ => grows_pure false)
    · exact grows_bind (grows_getchk B fuel) (fun _ => grows_pure false)
    · exact grows_bind (grows_setclk B fuel) (fun _ => grows_pure false)
    · exact grows_bind (grows_hook _ _) (fun _ => grows_pure true)

theorem grows_cmdLoop (fuel : Nat) : ∀ n, Grows (cmdLoop B fuel n) := by
  intro n
  induction n with
  | zero => exact fun s => ⟨[], by simp [cmdLoop, Res.state]⟩
  | succ n ih =>
    exact grows_bind (safe_grows (safe_retry _ (fun x => safe_recv_cmd fuel x) fuel 0)) (fun cmd =>
      grows_bind (grows_emit _) (fun _ => grows_bind (grows_dispatch B fuel cmd) (fun ex =>
        grows_ite _ (grows_pure ()) ih)))

theorem tick_eq (fuel : Nat) :
    tick B fuel = M.bind (retry (send_tokens B fuel) fuel ()) (fun _ => afterPublish B fuel) :=
  rfl

theorem grows_afterPublish (fuel : Nat) : Grows (afterPublish B fuel) :=
  grows_bind grows_getState (fun _ => grows_bind
    (grows_ite _ (grows_bind (grows_hook _ _) (fun _ => grows_set_is_reset false))
      (grows_pure ()))
    (fun _ => grows_cmdLoop B fuel fuel))

/-! ### Handlers that return -/

theorem okEmits_signal_at (p : Event T → Prop) (id : Nat) :
    OkEmits p (signal_at id : M (sim_api_t T β) T) := by
  intro s a s1 h
  unfold signal_at at h
  cases hs : s.sim_data.signals[id]? with
  | none => rw [hs] at h; cases h
  | some obj =>
    rw [hs] at h
    cases h
    exact ⟨rfl, rfl, [], by simp, by simp⟩

theorem okEmits_null_check (p : Event T → Prop) (obj : T) :
    OkEmits p (if B.isNull obj = true then
      M.bind (hook B.finish Event.finish) (fun _ => exit 2)
      else (pure () : M (sim_api_t T β) Unit)) := by
  intro s a s1 h
  cases hn : B.isNull obj
  · rw [hn] at h
    cases h
    exact ⟨rfl, rfl, [], by simp, by simp⟩
  · rw [hn] at h
    simp [M.bind, hook, exit] at h

theorem okEmits_poke (force : Bool) (fuel : Nat) :
    OkEmits (fun e => e.benign = true) (poke B force fuel) :=
  okEmits_bind (safe_okEmits (safe_retry _ (fun x => safe_recv_cmd fuel x) fuel 0)) (fun _ =>
    okEmits_bind (okEmits_signal_at _ _) (fun obj =>
      okEmits_bind (okEmits_null_check B _ obj) (fun _ =>
        safe_okEmits (safe_retry _ (fun u => safe_recv_value B obj force fuel u) fuel ()))))

theorem okEmits_peek (fuel : Nat) : OkEmits (fun e => e.benign = true) (peek B fuel) :=
  okEmits_bind (safe_okEmits (safe_retry _ (fun x => safe_recv_cmd fuel x) fuel 0)) (fun _ =>
    okEmits_bind (okEmits_signal_at _ _) (fun obj =>
      okEmits_bind (okEmits_null_check B _ obj) (fun _ =>
        safe_okEmits (safe_retry _ (fun u => safe_send_value B obj fuel u) fuel ()))))

theorem okEmits_getchk (fuel : Nat) : OkEmits (fun e => e.benign = true) (getchk B fuel) :=
  okEmits_bind (safe_okEmits (safe_retry _ (fun x => safe_recv_cmd fuel x) fuel 0)) (fun _ =>
    okEmits_bind (okEmits_signal_at _ _) (fun obj =>
      okEmits_bind (okEmits_null_check B _ obj) (fun _ =>
        safe_okEmits (safe_bind (safe_call_get_chunk B obj) (fun chunk =>
          safe_retry _ (fun u => safe_send_resp chunk fuel u) fuel ())))))

theorem okEmits_setclk (fuel : Nat) : OkEmits (fun e => e.benign = true) (setclk B fuel) := by
  refine okEmits_bind
    (safe_okEmits (safe_retry _ (fun x => safe_recv_cmd_str fuel x) fuel ""))
    (fun path => okEmits_bind (safe_okEmits (safe_getState _)) (fun s => ?_))
  cases h : s.sim_data.clk_map path with
  | some obj =>
    simp only [h]
    exact safe_okEmits (safe_retry _ (fun u => safe_recv_value B obj false fuel u) fuel ())
  | none =>
    simp only [h]
    intro s0 a s1 h1
    cases h1

/-- A handler followed by `break` with `exit` still false. -/
theorem handler_ok {m : M (sim_api_t T β) Unit} (hm : OkEmits (fun e => e.benign = true) m)
    (s s1 : sim_api_t T β) (ex : Bool)
    (h : M.bind m (fun _ => pure false) s = Res.ok ex s1) :
    ex = false ∧ s1.sim_data = s.sim_data ∧ s1.is_reset = s.is_reset ∧
      ∃ d0, s1.log = s.log ++ d0 ∧ ∀ e ∈ d0, e.benign = true := by
  obtain ⟨a, s0, h1, h2⟩ := bind_ok_inv h
  cases h2
  exact ⟨rfl, hm s a _ h1⟩

/-- What the `switch` has done when it returns: the transfers of the handler (`d0`),
then the lifecycle hook of the label; `exit` and the latch are set by the label. -/
theorem dispatch_ok (fuel c : Nat) (s s1 : sim_api_t T β) (ex : Bool)
    (h : dispatch B fuel c s = Res.ok ex s1) :
    ex = SIM_CMD.endsTick (castCmd c) ∧ s1.sim_data = s.sim_data ∧
      s1.is_reset = (if castCmd c = some SIM_CMD.RESET then true else s.is_reset) ∧
      ∃ d0, s1.log = s.log ++ d0 ++ SIM_CMD.hookEvent (castCmd c) ∧
        (∀ e ∈ d0, e.benign = true) ∧
        (castCmd c = some SIM_CMD.RESET ∨ castCmd c = some SIM_CMD.FIN → d0 = []) := by
  unfold dispatch at h
  cases hc : castCmd c with
  | none =>
    rw [hc] at h
    cases h
    exact ⟨rfl, rfl, by simp, [], by simp [SIM_CMD.hookEvent], by simp, by simp⟩
  | some k =>
    rw [hc] at h
    cases k <;> simp only at h
    · cases h
      exact ⟨rfl, rfl, by simp, [], by simp [SIM_CMD.hookEvent], by simp, by simp⟩
    · obtain ⟨a, s0, h1, h2⟩ := bind_ok_inv h
      cases h2
      obtain ⟨hd, hr, d, hl, hp⟩ :=
        safe_okEmits (safe_retry _ (fun u => safe_recv_tokens B fuel u) fuel ()) s a s0 h1
      exact ⟨rfl, hd, by simpa using hr, d, by simp [SIM_CMD.hookEvent, hl], hp, by simp⟩
    · obtain ⟨a, s0, h1, h2⟩ := bind_ok_inv h
      cases h2
      obtain ⟨hd, hr, d, hl, hp⟩ :=
        safe_okEmits (safe_retry _ (fun u => safe_recv_tokens B fuel u) fuel ()) s a s0 h1
      exact ⟨rfl, hd, by simpa using hr, d, by simp [SIM_CMD.hookEvent, hl], hp, by simp⟩
    · obtain ⟨he, hd, hr, d, hl, hp⟩ := handler_ok (okEmits_poke B false fuel) s s1 ex h
      exact ⟨he, hd, by simpa using hr, d, by simp [SIM_CMD.hookEvent, hl], hp, by simp⟩
    · obtain ⟨he, hd, hr, d, hl, hp⟩ := handler_ok (okEmits_peek B fuel) s s1 ex h
      exact ⟨he, hd, by simpa using hr, d, by simp [SIM_CMD.hookEvent, hl], hp, by simp⟩
    · obtain ⟨he, hd, hr, d, hl, hp⟩ := handler_ok (okEmits_poke B true fuel) s s1 ex h
      exact ⟨he, hd, by simpa using hr, d, by simp [SIM_CMD.hookEvent, hl], hp, by simp⟩
    · obtain ⟨he, hd, hr, d, hl, hp⟩ :=
        handler_ok (safe_okEmits (safe_getid B fuel)) s s1 ex h
      exact ⟨he, hd, by simpa using hr, d, by simp [SIM_CMD.hookEvent, hl], hp, by simp⟩
    · obtain ⟨he, hd, hr, d, hl, hp⟩ := handler_ok (okEmits_getchk B fuel) s s1 ex h
      exact ⟨he, hd, by simpa using hr, d, by simp [SIM_CMD.hookEvent, hl], hp, by simp⟩
    · obtain ⟨he, hd, hr, d, hl, hp⟩ := handler_ok (okEmits_setclk B fuel) s s1 ex h
      exact ⟨he, hd, by simpa using hr, d, by simp [SIM_CMD.hookEvent, hl], hp, by simp⟩
    · cases h
      exact ⟨rfl, rfl, by simp, [], by simp [SIM_CMD.hookEvent], by simp, by simp⟩


theorem benign_not_hook (e : Event T) (h : e.benign = true) : e.isHook = false := by
  cases e <;> simp_all [Event.benign, Event.isHook]

theorem benign_not_opcode (e : Event T) (h : e.benign = true) (c : Nat) :
    e ≠ Event.opcode c := by
  intro he
  rw [he] at h
  simp [Event.benign] at h

theorem hookEvent_of_not_endsTick (k : Option SIM_CMD) (h : SIM_CMD.endsTick k = false) :
    (SIM_CMD.hookEvent k : List (Event T)) = [] ∧ k ≠ some SIM_CMD.RESET := by
  cases k with
  | none => exact ⟨rfl, by simp⟩
  | some k => cases k <;> simp_all [SIM_CMD.endsTick, SIM_CMD.hookEvent]

/-- What the command loop has done when it returns. -/
theorem cmdLoop_ok (fuel : Nat) :
    ∀ (n : Nat) (s s1 : sim_api_t T β), cmdLoop B fuel n s = Res.ok () s1 →
      ∃ c d, s1.log = s.log ++ d ∧ LoopLog c d ∧ s1.sim_data = s.sim_data ∧
        s1.is_reset = (if castCmd c = some SIM_CMD.RESET then true else s.is_reset) := by
  intro n
  induction n with
  | zero =>
    intro s s1 h
    cases h
  | succ n ih =>
    intro s s1 h
    have hdef : cmdLoop B fuel (n + 1) s =
        M.bind (retry (recv_cmd fuel) fuel 0) (fun cmd => M.bind (emit (Event.opcode cmd))
          (fun _ => M.bind (dispatch B fuel cmd)
            (fun e => if e then pure () else cmdLoop B fuel n))) s := rfl
    rw [hdef] at h
    obtain ⟨c, sa, hrecv, h⟩ := bind_ok_inv h
    obtain ⟨_, sb, hemit, h⟩ := bind_ok_inv h
    obtain ⟨ex, sc, hdisp, h⟩ := bind_ok_inv h
    cases hemit
    obtain ⟨hla, -, hda, hra⟩ := retry_recv_cmd_ok fuel fuel 0 s sa c hrecv
    obtain ⟨hex, hdc, hrc, d0, hlc, hp0, hnil⟩ := dispatch_ok B fuel c _ sc ex hdisp
    simp only [] at hdc hrc hlc
    cases ex
    · -- the loop goes on
      have hnot := hookEvent_of_not_endsTick (T := T) (castCmd c) hex.symm
      obtain ⟨c1, d1, hl1, ⟨pre, d01, hd1, hpre, hop, hp01, hnil1, hends⟩, hd1s, hr1⟩ :=
        ih sc s1 (by simpa using h)
      refine ⟨c1, [Event.consume Chan.cmd_channel, Event.opcode c] ++ d0 ++ d1, ?_,
        ⟨[Event.consume Chan.cmd_channel, Event.opcode c] ++ d0 ++ pre, d01, ?_, ?_, ?_, hp01,
          hnil1, hends⟩, ?_, ?_⟩
      · rw [hl1, hlc, hnot.1, hla]; simp
      · rw [hd1]; simp
      · intro e he
        rcases List.mem_append.1 he with he | he
        · rcases List.mem_append.1 he with he | he
          · rcases List.mem_cons.1 he with rfl | he
            · rfl
            · rw [List.mem_singleton.1 he]; rfl
          · exact benign_not_hook e (hp0 e he)
        · exact hpre e he
      · intro c2 he
        rcases List.mem_append.1 he with he | he
        · rcases List.mem_append.1 he with he | he
          · rcases List.mem_cons.1 he with he | he
            · cases he
            · cases List.mem_singleton.1 he
              exact hex.symm
          · exact absurd rfl (benign_not_opcode _ (hp0 _ he) c2)
        · exact hop c2 he
      · rw [hd1s, hdc, hda]
      · rw [hr1, hrc, if_neg hnot.2, hra]
    · -- the loop exits
      cases h
      refine ⟨c, [Event.consume Chan.cmd_channel, Event.opcode c] ++ d0
          ++ SIM_CMD.hookEvent (castCmd c), ?_, ⟨[], d0, by simp, by simp, by simp, hp0,
          hnil, hex.symm⟩, ?_, ?_⟩
      · rw [hlc, hla]; simp
      · rw [hdc, hda]
      · rw [hrc, hra]

/-- What a tick has done when it returns. -/
theorem tick_ok (fuel : Nat) (s s1 : sim_api_t T β) (h : tick B fuel s = Res.ok () s1) :
    ∃ c d, s1.log = s.log ++ d ∧ TickLog s.is_reset c d ∧ s1.sim_data = s.sim_data ∧
      s1.is_reset = (if castCmd c = some SIM_CMD.RESET then true else false) := by
  rw [tick_eq] at h
  obtain ⟨_, sa, hsend, h⟩ := bind_ok_inv h
  rcases retry_send_tokens B fuel fuel () s with
    ⟨s2, h2, -⟩ | ⟨s0, off, sT, hq, -, hrun, h2⟩
  · rw [h2] at hsend; cases hsend
  · rw [h2] at hsend
    cases hsend
    obtain ⟨off1, sT1, batch, hrun1, hlog, hbatch, hdT, hrT, -⟩ :=
      get_tokens_spec B s0.sim_data.outputs 0 s0
    rw [hrun] at hrun1
    cases hrun1
    unfold afterPublish at h
    obtain ⟨_, sb, hget, h⟩ := bind_ok_inv h
    cases hget
    obtain ⟨_, sc, hif, h⟩ := bind_ok_inv h
    obtain ⟨c, d, hl, hloop, hd, hr⟩ := cmdLoop_ok B fuel fuel sc s1 h
    have hrs : sT.is_reset = s.is_reset := hrT.trans hq.2.1
    have hds : sT.sim_data = s.sim_data := hdT.trans hq.1
    have hls : sT.log = s.log ++ batch := by rw [hlog, hq.2.2.2]
    cases hlatch : s.is_reset
    · simp only [hrs, hlatch] at hif
      cases hif
      refine ⟨c, batch ++ [Event.produce Chan.out_channel] ++ d, ?_,
        ⟨batch, d, by simp, hbatch, hloop⟩, ?_, ?_⟩
      · rw [hl]; simp [hls]
      · rw [hd]; exact hds
      · rw [hr]
    · simp only [hrs, hlatch] at hif
      cases hif
      refine ⟨c, batch ++ [Event.produce Chan.out_channel] ++ [Event.start] ++ d, ?_,
        ⟨batch, d, by simp, hbatch, hloop⟩, ?_, ?_⟩
      · rw [hl]; simp [hls]
      · rw [hd]; exact hds
      · rw [hr]

/-! ### Counting hooks in the log of a tick -/

theorem countP_eq_zero_of_forall {α : Type} (p : α → Bool) (l : List α)
    (h : ∀ e ∈ l, p e = false) : l.countP p = 0 := by
  rw [List.countP_eq_zero]
  intro e he
  simp [h e he]

theorem isStart_of_not_hook (e : Event T) (h : e.isHook = false) : e.isStart = false := by
  cases e <;> simp_all [Event.isHook, Event.isStart]

theorem isFinish_of_not_hook (e : Event T) (h : e.isHook = false) : e.isFinish = false := by
  cases e <;> simp_all [Event.isHook, Event.isFinish]

theorem hookEvent_no_start (k : Option SIM_CMD) :
    ∀ e ∈ (SIM_CMD.hookEvent k : List (Event T)), e.isStart = false := by
  cases k with
  | none => simp [SIM_CMD.hookEvent]
  | some k => cases k <;> simp [SIM_CMD.hookEvent, Event.isStart]

/-- The command loop never invokes `start`. -/
theorem loopLog_countStart (c : Nat) (d : List (Event T)) (h : LoopLog c d) :
    d.countP Event.isStart = 0 := by
  obtain ⟨pre, d0, rfl, hpre, -, hd0, -, -⟩ := h
  apply countP_eq_zero_of_forall
  intro e he
  simp only [List.mem_append, List.mem_cons, List.mem_singleton, List.not_mem_nil,
    or_false] at he
  rcases he with ((he | he | he) | he) | he
  · exact isStart_of_not_hook e (hpre e he)
  · rw [he]; rfl
  · rw [he]; rfl
  · exact isStart_of_not_hook e (benign_not_hook e (hd0 e he))
  · exact hookEvent_no_start _ e he

/-- A tick invokes `start` once if it is entered with the latch set, and not at all
otherwise. -/
theorem tickLog_countStart (latch : Bool) (c : Nat) (d : List (Event T))
    (h : TickLog latch c d) : d.countP Event.isStart = if latch then 1 else 0 := by
  obtain ⟨batch, loop, rfl, hbatch, hloop⟩ := h
  have h1 : batch.countP Event.isStart = 0 := by
    apply countP_eq_zero_of_forall
    intro e he
    obtain ⟨sig, o, n, rfl⟩ := hbatch e he
    rfl
  simp only [List.countP_append, h1, loopLog_countStart c loop hloop]
  cases latch <;> simp [List.countP_cons, Event.isStart]

/-- A tick ended by RESET has invoked the reset hook. -/
theorem tickLog_reset_mem (latch : Bool) (c : Nat) (d : List (Event T))
    (h : TickLog latch c d) (hc : castCmd c = some SIM_CMD.RESET) : Event.reset ∈ d := by
  obtain ⟨batch, loop, rfl, -, pre, d0, rfl, -⟩ := h
  simp [hc, SIM_CMD.hookEvent]

theorem ticks_succ (fuel k : Nat) :
    ticks B fuel (k + 1) = M.bind (tick B fuel) (fun _ => ticks B fuel k) := rfl

/-- Over a run of `k` ticks in which the reset hook is not invoked, `start` is invoked
once if the run is entered with the latch set and has at least one tick, and not at all
otherwise. -/
theorem ticks_countStart (fuel : Nat) :
    ∀ (k : Nat) (s sK : sim_api_t T β), ticks B fuel k s = Res.ok () sK →
      ∃ d, sK.log = s.log ++ d ∧
        ((∀ e ∈ d, e ≠ Event.reset) →
          d.countP Event.isStart = if s.is_reset = true ∧ 0 < k then 1 else 0) := by
  intro k
  induction k with
  | zero =>
    intro s sK h
    cases h
    exact ⟨[], by simp, fun _ => by simp⟩
  | succ k ih =>
    intro s sK h
    rw [ticks_succ] at h
    obtain ⟨_, s1, h1, h2⟩ := bind_ok_inv h
    obtain ⟨c, d1, hl1, hshape, -, hr1⟩ := tick_ok B fuel s s1 h1
    obtain ⟨dK, hlK, hK⟩ := ih s1 sK h2
    refine ⟨d1 ++ dK, by rw [hlK, hl1, List.append_assoc], fun hno => ?_⟩
    have hc : castCmd c ≠ some SIM_CMD.RESET := fun hc =>
      hno _ (List.mem_append_left _ (tickLog_reset_mem _ c d1 hshape hc)) rfl
    rw [if_neg hc] at hr1
    have hKz : dK.countP Event.isStart = 0 := by
      rw [hK (fun e he => hno e (List.mem_append_right _ he))]
      simp [hr1]
    rw [List.countP_append, hKz, tickLog_countStart _ c d1 hshape]
    cases s.is_reset <;> simp

/-! ### The opcodes of a tick -/

theorem opcodes_append (d1 d2 : List (Event T)) :
    opcodes (d1 ++ d2) = opcodes d1 ++ opcodes d2 := by
  induction d1 with
  | nil => rfl
  | cons e rest ih => cases e <;> simp [opcodes, ih]

theorem opcodes_eq_nil (d : List (Event T)) (h : ∀ e ∈ d, ∀ c, e ≠ Event.opcode c) :
    opcodes d = [] := by
  induction d with
  | nil => rfl
  | cons e rest ih =>
    have hrest := ih (fun e1 he1 => h e1 (List.mem_cons_of_mem _ he1))
    cases e <;> simp_all [opcodes]

theorem mem_opcodes (d : List (Event T)) (c : Nat) (h : c ∈ opcodes d) :
    Event.opcode c ∈ d := by
  induction d with
  | nil => simp [opcodes] at h
  | cons e rest ih =>
    cases e <;> simp_all [opcodes]
    rcases h with h | h
    · exact Or.inl h
    · exact Or.inr (ih h)

theorem hookEvent_no_opcode (k : Option SIM_CMD) :
    ∀ e ∈ (SIM_CMD.hookEvent k : List (Event T)), ∀ c, e ≠ Event.opcode c := by
  cases k with
  | none => simp [SIM_CMD.hookEvent]
  | some k => cases k <;> simp [SIM_CMD.hookEvent]

/-- The opcodes received by a command loop that returns: opcodes that do not end the
tick, followed by the one that ended it. -/
theorem loopLog_opcodes (c : Nat) (d : List (Event T)) (h : LoopLog c d) :
    ∃ cs, opcodes d = cs ++ [c] ∧ ∀ c1 ∈ cs, SIM_CMD.endsTick (castCmd c1) = false := by
  obtain ⟨pre, d0, rfl, -, hop, hd0, -, -⟩ := h
  refine ⟨opcodes pre, ?_, fun c1 hc1 => hop c1 (mem_opcodes pre c1 hc1)⟩
  have h0 : opcodes d0 = [] :=
    opcodes_eq_nil d0 (fun e he c1 => benign_not_opcode e (hd0 e he) c1)
  have h1 : opcodes (SIM_CMD.hookEvent (castCmd c) : List (Event T)) = [] :=
    opcodes_eq_nil _ (hookEvent_no_opcode _)
  simp [opcodes_append, h0, h1, opcodes]

theorem tickLog_opcodes (latch : Bool) (c : Nat) (d : List (Event T))
    (h : TickLog latch c d) :
    ∃ cs, opcodes d = cs ++ [c] ∧ ∀ c1 ∈ cs, SIM_CMD.endsTick (castCmd c1) = false := by
  obtain ⟨batch, loop, rfl, hbatch, hloop⟩ := h
  obtain ⟨cs, hcs, hnon⟩ := loopLog_opcodes c loop hloop
  refine ⟨cs, ?_, hnon⟩
  have h0 : opcodes batch = [] := by
    apply opcodes_eq_nil
    intro e he c1
    obtain ⟨sig, o, n, rfl⟩ := hbatch e he
    simp
  have h1 : opcodes (if latch = true then [Event.start] else [] : List (Event T)) = [] := by
    cases latch <;> rfl
  simp [opcodes_append, h0, h1, hcs, opcodes]

/-- An outcome that is a normal return is the return of its own state. -/
theorem eq_ok_of_returned {σ : Type} (r : Res σ Unit) (h : r.returned = true) :
    r = Res.ok () r.state := by
  cases r <;> simp_all [Res.returned, Res.state]

/-! ### Offsets of a token batch -/

theorem sumRet_cons (e : Event T) (d : List (Event T)) : sumRet (e :: d) = e.ret + sumRet d := by
  simp [sumRet]

theorem mod_add_mod_size (a b c : Nat) :
    ((a + b) % SIZE_MOD + c) % SIZE_MOD = (a + (b + c)) % SIZE_MOD := by
  unfold SIZE_MOD
  omega

/-- The loop of `send_tokens` calls `get_value` once per signal, in order, each time at
the running offset. -/
theorem get_tokens_offsets (l : List T) :
    ∀ (off : Nat) (s : sim_api_t T β), off < SIZE_MOD →
      ∃ off1 sT d, get_tokens B l off s = Res.ok off1 sT ∧ sT.log = s.log ++ d ∧
        d.length = l.length ∧
        ∀ k sig, l[k]? = some sig →
          ∃ n, d[k]? = some (Event.get_value sig ((off + sumRet (d.take k)) % SIZE_MOD) n) := by
  induction l with
  | nil =>
    intro off s _
    exact ⟨off, s, [], rfl, by simp, rfl, fun k sig h => by simp at h⟩
  | cons sig0 rest ih =>
    intro off s hoff
    obtain ⟨off1, sT, d, hrun, hlog, hlen, hk⟩ :=
      ih (addSize off (B.get_value sig0 (s.ch Chan.out_channel).words off s.backend).1)
        { s with
          ch := Function.update s.ch Chan.out_channel
            { s.ch Chan.out_channel with
              words := (B.get_value sig0 (s.ch Chan.out_channel).words off s.backend).2.1 },
          backend := (B.get_value sig0 (s.ch Chan.out_channel).words off s.backend).2.2,
          log := s.log ++ [Event.get_value sig0 off
            (B.get_value sig0 (s.ch Chan.out_channel).words off s.backend).1] }
        (addSize_lt _ _)
    refine ⟨off1, sT, Event.get_value sig0 off
        (B.get_value sig0 (s.ch Chan.out_channel).words off s.backend).1 :: d, ?_, ?_, ?_, ?_⟩
    · simpa [get_tokens, call_get_value, M.bind] using hrun
    · simpa using hlog
    · simp [hlen]
    · intro k sig h
      cases k with
      | zero =>
        simp only [List.getElem?_cons_zero, Option.some.injEq] at h
        subst h
        exact ⟨(B.get_value sig0 (s.ch Chan.out_channel).words off s.backend).1,
          by simp [sumRet, Nat.mod_eq_of_lt hoff]⟩
      | succ k =>
        simp only [List.getElem?_cons_succ] at h
        obtain ⟨n, hn⟩ := hk k sig h
        refine ⟨n, ?_⟩
        simp only [List.getElem?_cons_succ, List.take_succ_cons, sumRet_cons, Event.ret]
        rw [hn, addSize, mod_add_mod_size]

/-- The loop of `recv_tokens` calls `put_value` once per signal, in order, each time at
the running offset, without force. -/
theorem put_tokens_offsets (l : List T) :
    ∀ (off : Nat) (s : sim_api_t T β), off < SIZE_MOD →
      ∃ off1 sT d, put_tokens B l off s = Res.ok off1 sT ∧ sT.log = s.log ++ d ∧
        d.length = l.length ∧
        ∀ k sig, l[k]? = some sig →
          ∃ n, d[k]? = some
            (Event.put_value sig ((off + sumRet (d.take k)) % SIZE_MOD) false n) := by
  induction l with
  | nil =>
    intro off s _
    exact ⟨off, s, [], rfl, by simp, rfl, fun k sig h => by simp at h⟩
  | cons sig0 rest ih =>
    intro off s hoff
    obtain ⟨off1, sT, d, hrun, hlog, hlen, hk⟩ :=
      ih (addSize off (B.put_value sig0 (s.ch Chan.in_channel).words off false s.backend).1)
        { s with
          backend := (B.put_value sig0 (s.ch Chan.in_channel).words off false s.backend).2,
          log := s.log ++ [Event.put_value sig0 off false
            (B.put_value sig0 (s.ch Chan.in_channel).words off false s.backend).1] }
        (addSize_lt _ _)
    refine ⟨off1, sT, Event.put_value sig0 off false
        (B.put_value sig0 (s.ch Chan.in_channel).words off false s.backend).1 :: d, ?_, ?_, ?_,
      ?_⟩
    · simpa [put_tokens, call_put_value, M.bind] using hrun
    · simpa using hlog
    · simp [hlen]
    · intro k sig h
      cases k with
      | zero =>
        simp only [List.getElem?_cons_zero, Option.some.injEq] at h
        subst h
        exact ⟨(B.put_value sig0 (s.ch Chan.in_channel).words off false s.backend).1,
          by simp [sumRet, Nat.mod_eq_of_lt hoff]⟩
      | succ k =>
        simp only [List.getElem?_cons_succ] at h
        obtain ⟨n, hn⟩ := hk k sig h
        refine ⟨n, ?_⟩
        simp only [List.getElem?_cons_succ, List.take_succ_cons, sumRet_cons, Event.ret]
        rw [hn, addSize, mod_add_mod_size]

/-- With a backend that writes exactly what it returns, the loop of `send_tokens` fills
the payload from `off` on with the concatenation of the values and leaves the other
words alone. -/
theorem get_tokens_concat (val : T → β → List Nat) (hB : WritesExactly B val) (l : List T) :
    ∀ (off : Nat) (s : sim_api_t T β),
      off + (l.flatMap (fun o => val o s.backend)).length < SIZE_MOD →
      ∃ off1 sT, get_tokens B l off s = Res.ok off1 sT ∧ sT.backend = s.backend ∧
        ∀ j, (sT.ch Chan.out_channel).words j =
          if off ≤ j ∧ j < off + (l.flatMap (fun o => val o s.backend)).length
          then (l.flatMap (fun o => val o s.backend)).getD (j - off) 0
          else (s.ch Chan.out_channel).words j := by
  induction l with
  | nil =>
    intro off s _
    refine ⟨off, s, rfl, rfl, fun j => ?_⟩
    have hno : ¬ (off ≤ j ∧ j < off + ([].flatMap (fun o => val o s.backend)).length) := by
      simp
    rw [if_neg hno]
  | cons sig0 rest ih =>
    intro off s hlt
    have hcall := hB sig0 (s.ch Chan.out_channel).words off s.backend
    simp only [List.flatMap_cons, List.length_append] at hlt
    have hoff1 : addSize off (val sig0 s.backend).length = off + (val sig0 s.backend).length := by
      unfold addSize
      exact Nat.mod_eq_of_lt (by omega)
    obtain ⟨off1, sT, hrun, hback, hwords⟩ :=
      ih (off + (val sig0 s.backend).length)
        { s with
          ch := Function.update s.ch Chan.out_channel
            { s.ch Chan.out_channel with
              words := fun j =>
                if off ≤ j ∧ j < off + (val sig0 s.backend).length
                then (val sig0 s.backend).getD (j - off) 0
                else (s.ch Chan.out_channel).words j },
          log := s.log ++ [Event.get_value sig0 off (val sig0 s.backend).length] }
        (by simp only []; omega)
    refine ⟨off1, sT, ?_, hback, fun j => ?_⟩
    · simp only [get_tokens, call_get_value, bind_apply, M.bind, hcall, hoff1]
      exact hrun
    · rw [hwords j]
      simp only [Function.update_same, List.flatMap_cons, List.length_append]
      by_cases h1 : off + (val sig0 s.backend).length ≤ j ∧
          j < off + (val sig0 s.backend).length
            + (rest.flatMap (fun o => val o s.backend)).length
      · rw [if_pos h1, if_pos (by omega)]
        rw [List.getD_append_right _ _ _ _ (by omega)]
        congr 1
        omega
      · rw [if_neg h1]
        by_cases h2 : off ≤ j ∧ j < off + (val sig0 s.backend).length
        · rw [if_pos h2, if_pos (by omega)]
          rw [List.getD_append _ _ _ _ (by omega)]
        · rw [if_neg h2, if_neg (by omega)]

theorem sumRet_take_le (d : List (Event T)) (k : Nat) : sumRet (d.take k) ≤ sumRet d := by
  have h : sumRet d = sumRet (d.take k) + sumRet (d.drop k) := by
    unfold sumRet
    rw [← List.sum_append, ← List.map_append, List.take_append_drop]
  omega

/-- The tester's turn touches only the regions and its own script. -/
theorem testerTurn_ch (s : sim_api_t T β) (b : β) (l : List (Event T)) :
    (testerTurn { s with backend := b, log := l }).state.ch = (testerTurn s).state.ch := by
  unfold testerTurn
  cases s.tester <;> rfl

/-- A response is sent at the first attempt when, after the tester's turn, the tester
does not want the output channel and the slot is empty. -/
theorem retry_send_resp_now (v fuel n : Nat) (x : Unit) (s : sim_api_t T β)
    (hwant : ((testerTurn s).state.ch Chan.out_channel).b0 ≠ 1)
    (hflag : ((testerTurn s).state.ch Chan.out_channel).b3 = 0) :
    (retry (send_resp v fuel) (n + 1) x s).returned = true := by
  obtain ⟨s0, ht, -⟩ := testerTurn_ok s
  rw [ht] at hwant hflag
  simp only [Res.state] at hwant hflag
  have hdef : retry (send_resp v fuel) (n + 1) x s =
      M.bind (send_resp v fuel x) (fun r => if r.1 then pure r.2
        else retry (send_resp v fuel) n r.2) s0 := by
    show M.bind testerTurn _ s = _
    rw [bind_ok _ _ _ _ _ ht]
    rfl
  have hsend := send_resp_true v fuel x s0 _ (aquire_free Chan.out_channel fuel s0 hwant)
    (by simpa [channel_t.ready, channel_t.want] using hflag)
  rw [hdef, bind_ok _ _ _ _ _ hsend]
  rfl

/-! ### Prefix sums of the word-counts -/

theorem take_sum_succ (lines : List Line) (k : Nat) (l : Line) (h : lines[k]? = some l) :
    ((lines.take (k + 1)).map Line.n).sum = ((lines.take k).map Line.n).sum + l.n := by
  rw [List.take_succ, h]
  simp

theorem take_sum_mono (lines : List Line) (j k : Nat) (h : j ≤ k) :
    ((lines.take j).map Line.n).sum ≤ ((lines.take k).map Line.n).sum := by
  induction lines generalizing j k with
  | nil => simp
  | cons l0 rest ih =>
    cases j with
    | zero => simp
    | succ j =>
      cases k with
      | zero => omega
      | succ k =>
        have := ih j k (by omega)
        simp only [List.take_succ_cons, List.map_cons, List.sum_cons]
        omega

theorem take_sum_le_total (lines : List Line) (k : Nat) :
    ((lines.take k).map Line.n).sum ≤ (lines.map Line.n).sum := by
  have h := take_sum_mono lines k (max k lines.length) (le_max_left _ _)
  rwa [List.take_of_length_le (le_max_right _ _)] at h

theorem take_sum_next_le (lines : List Line) (j k : Nat) (l : Line) (hj : lines[j]? = some l)
    (h : j < k) :
    ((lines.take j).map Line.n).sum + l.n ≤ ((lines.take k).map Line.n).sum := by
  rw [← take_sum_succ lines j l hj]
  exact take_sum_mono lines (j + 1) k h

theorem take_sum_cover (lines : List Line) (x : Nat) (hx : x < (lines.map Line.n).sum) :
    ∃ k l, lines[k]? = some l ∧ ((lines.take k).map Line.n).sum ≤ x ∧
      x < ((lines.take k).map Line.n).sum + l.n := by
  induction lines generalizing x with
  | nil => simp at hx
  | cons l0 rest ih =>
    by_cases h0 : x < l0.n
    · exact ⟨0, l0, by simp, by simp, by simpa using h0⟩
    · simp only [List.map_cons, List.sum_cons] at hx
      obtain ⟨k, l, hk, hlo, hhi⟩ := ih (x - l0.n) (by omega)
      refine ⟨k + 1, l, by simpa using hk, ?_, ?_⟩
      · simp only [List.take_succ_cons, List.map_cons, List.sum_cons]
        omega
      · simp only [List.take_succ_cons, List.map_cons, List.sum_cons]
        omega

/-! ### Progress of a receive -/

/-- A value is received at the first attempt when, after the tester's turn, the tester
does not want the input channel and the slot is full. -/
theorem retry_recv_value_now (obj : T) (force : Bool) (fuel n : Nat) (x : Unit)
    (s : sim_api_t T β)
    (hwant : ((testerTurn s).state.ch Chan.in_channel).b0 ≠ 1)
    (hflag : ((testerTurn s).state.ch Chan.in_channel).b3 = 1) :
    (retry (recv_value B obj force fuel) (n + 1) x s).returned = true := by
  obtain ⟨s0, ht, -⟩ := testerTurn_ok s
  rw [ht] at hwant hflag
  simp only [Res.state] at hwant hflag
  have hdef : retry (recv_value B obj force fuel) (n + 1) x s =
      M.bind (recv_value B obj force fuel x) (fun r => if r.1 then pure r.2
        else retry (recv_value B obj force fuel) n r.2) s0 := by
    show M.bind testerTurn _ s = _
    rw [bind_ok _ _ _ _ _ ht]
    rfl
  have hrecv := recv_value_true B obj force fuel x s0 _
    (aquire_free Chan.in_channel fuel s0 hwant)
    (by simpa [channel_t.valid, channel_t.want] using hflag)
  rw [hdef, bind_ok _ _ _ _ _ hrecv]
  rfl

/-- The two loops `while(!recv_value(obj, true));` and `while(!recv_value(obj, false));`
run from the same state wait alike and succeed alike, from the same entry `sc` to the
critical section; they differ in the force argument of the one `put_value`. -/
theorem retry_recv_value_pair (obj : T) (fuel : Nat) :
    ∀ (n : Nat) (x : Unit) (s : sim_api_t T β),
    (∃ sc, Quiet s sc ∧
      ∀ force, retry (recv_value B obj force fuel) n x s = Res.spinning sc) ∨
    (∃ sc, Quiet s sc ∧ (sc.ch Chan.in_channel).b3 = 1 ∧
      ∀ force, retry (recv_value B obj force fuel) n x s = Res.ok ()
        { sc with
          ch := Function.update sc.ch Chan.in_channel (sc.ch Chan.in_channel).consume.release,
          backend := (B.put_value obj (sc.ch Chan.in_channel).words 0 force sc.backend).2,
          log := sc.log ++
            [Event.put_value obj 0 force
                (B.put_value obj (sc.ch Chan.in_channel).words 0 force sc.backend).1,
              Event.consume Chan.in_channel] }) := by
  intro n
  induction n with
  | zero => exact fun x s => Or.inl ⟨s, Quiet.refl s, fun _ => rfl⟩
  | succ n ih =>
    intro x s
    obtain ⟨s0, ht, hq0⟩ := testerTurn_ok s
    have hdef : ∀ force, retry (recv_value B obj force fuel) (n + 1) x s =
        M.bind (recv_value B obj force fuel x) (fun r => if r.1 then pure r.2
          else retry (recv_value B obj force fuel) n r.2) s0 := by
      intro force
      show M.bind testerTurn _ s = _
      rw [bind_ok _ _ _ _ _ ht]
      rfl
    rcases aquire_cases Chan.in_channel fuel s0 with ⟨s1, h, hq⟩ | ⟨s1, h, hq⟩
    · cases hv : (s1.ch Chan.in_channel).valid
      · have hstep : ∀ force, retry (recv_value B obj force fuel) (n + 1) x s =
            retry (recv_value B obj force fuel) n ()
              { s1 with
                ch := Function.update s1.ch Chan.in_channel
                    (s1.ch Chan.in_channel).release } := by
          intro force
          rw [hdef, bind_ok _ _ _ _ _ (recv_value_false B obj force fuel x s0 s1 h hv)]
          simp
        have hq1 := (hq0.trans hq).trans (quiet_release Chan.in_channel s1)
        rcases ih () _ with ⟨sc, hqc, hc⟩ | ⟨sc, hqc, hb, hc⟩
        · exact Or.inl ⟨sc, hq1.trans hqc, fun force => by rw [hstep, hc]⟩
        · exact Or.inr ⟨sc, hq1.trans hqc, hb, fun force => by rw [hstep, hc]⟩
      · refine Or.inr ⟨s1, hq0.trans hq, (valid_iff _).1 hv, fun force => ?_⟩
        rw [hdef, bind_ok _ _ _ _ _ (recv_value_true B obj force fuel x s0 s1 h hv)]
        rfl
    · refine Or.inl ⟨s1, hq0.trans hq, fun force => ?_⟩
      rw [hdef]
      simp [M.bind, recv_value_spinning B obj force fuel x s0 s1 h]

/-! ### Progress of the token transfers -/

/-- The input batch is received at the first attempt when, after the tester's turn,
the tester does not want the input channel and the slot is full. -/
theorem retry_recv_tokens_now (fuel n : Nat) (x : Unit) (s : sim_api_t T β)
    (hwant : ((testerTurn s).state.ch Chan.in_channel).b0 ≠ 1)
    (hflag : ((testerTurn s).state.ch Chan.in_channel).b3 = 1) :
    (retry (recv_tokens B fuel) (n + 1) x s).returned = true := by
  obtain ⟨s0, ht, -⟩ := testerTurn_ok s
  rw [ht] at hwant hflag
  simp only [Res.state] at hwant hflag
  have hdef : retry (recv_tokens B fuel) (n + 1) x s =
      M.bind (recv_tokens B fuel x) (fun r => if r.1 then pure r.2
        else retry (recv_tokens B fuel) n r.2) s0 := by
    show M.bind testerTurn _ s = _
    rw [bind_ok _ _ _ _ _ ht]
    rfl
  have key : ∀ s1 : sim_api_t T β, aquire Chan.in_channel fuel s0 = Res.ok () s1 →
      (s1.ch Chan.in_channel).valid = true →
      (retry (recv_tokens B fuel) (n + 1) x s).returned = true := by
    intro s1 haq hv
    obtain ⟨off, sT, -, hT, -⟩ := put_tokens_spec B s1.sim_data.inputs 0 s1
    rw [hdef, bind_ok _ _ _ _ _ (recv_tokens_true B fuel x s0 s1 sT off haq hv hT)]
    rfl
  exact key _ (aquire_free Chan.in_channel fuel s0 hwant)
    (by simpa [channel_t.valid, channel_t.want] using hflag)

/-- The output batch is published at the first attempt when, after the tester's turn,
the tester does not want the output channel and the slot is empty. -/
theorem retry_send_tokens_now (fuel n : Nat) (x : Unit) (s : sim_api_t T β)
    (hwant : ((testerTurn s).state.ch Chan.out_channel).b0 ≠ 1)
    (hflag : ((testerTurn s).state.ch Chan.out_channel).b3 = 0) :
    (retry (send_tokens B fuel) (n + 1) x s).returned = true := by
  obtain ⟨s0, ht, -⟩ := testerTurn_ok s
  rw [ht] at hwant hflag
  simp only [Res.state] at hwant hflag
  have hdef : retry (send_tokens B fuel) (n + 1) x s =
      M.bind (send_tokens B fuel x) (fun r => if r.1 then pure r.2
        else retry (send_tokens B fuel) n r.2) s0 := by
    show M.bind testerTurn _ s = _
    rw [bind_ok _ _ _ _ _ ht]
    rfl
  have key : ∀ s1 : sim_api_t T β, aquire Chan.out_channel fuel s0 = Res.ok () s1 →
      (s1.ch Chan.out_channel).ready = true →
      (retry (send_tokens B fuel) (n + 1) x s).returned = true := by
    intro s1 haq hv
    obtain ⟨off, sT, -, hT, -⟩ := get_tokens_spec B s1.sim_data.outputs 0 s1
    rw [hdef, bind_ok _ _ _ _ _ (send_tokens_true B fuel x s0 s1 sT off haq hv hT)]
    rfl
  exact key _ (aquire_free Chan.out_channel fuel s0 hwant)
    (by simpa [channel_t.ready, channel_t.want] using hflag)

/-! ### The register backend -/

/-- Over the register backend the loop of `recv_tokens` latches one payload word per
input signal, at consecutive offsets, and leaves the register and the channels alone. -/
theorem put_tokens_register (next : Nat → List Nat → Nat) (l : List T) :
    ∀ (off : Nat) (s sT : sim_api_t T RegState) (off1 : Nat), off < SIZE_MOD →
      put_tokens (registerBackend T next) l off s = Res.ok off1 sT →
      sT.backend.reg = s.backend.reg ∧
      sT.backend.latched = s.backend.latched ++
        (List.range l.length).map (fun j => (s.ch Chan.in_channel).words ((off + j) % SIZE_MOD)) ∧
      sT.ch = s.ch ∧ sT.sim_data = s.sim_data := by
  induction l with
  | nil =>
    intro off s sT off1 _ h
    cases h
    simp
  | cons sig rest ih =>
    intro off s sT off1 hoff h
    have hcall : call_put_value (registerBackend T next) Chan.in_channel sig off false s
        = Res.ok 1 { s with
          backend := { s.backend with
            latched := s.backend.latched ++ [(s.ch Chan.in_channel).words off] },
          log := s.log ++ [Event.put_value sig off false 1] } := rfl
    have hdef : put_tokens (registerBackend T next) (sig :: rest) off s =
        M.bind (call_put_value (registerBackend T next) Chan.in_channel sig off false)
          (fun n => put_tokens (registerBackend T next) rest (addSize off n)) s := rfl
    rw [hdef, bind_ok _ _ _ _ _ hcall] at h
    obtain ⟨h1, h2, h3, h4⟩ := ih _ _ sT off1 (addSize_lt off 1) h
    refine ⟨h1, ?_, h3, h4⟩
    rw [h2]
    simp only [List.length_cons, List.range_succ_eq_map, List.map_cons, List.map_map,
      List.append_assoc, List.singleton_append, Nat.add_zero, Nat.mod_eq_of_lt hoff]
    congr 2
    apply List.map_congr_left
    intro j _
    simp only [Function.comp, addSize, SIZE_MOD]
    congr 1
    omega

/-- Over the register backend the loop of `send_tokens` with one output signal writes
the register into the first payload word. -/
theorem get_tokens_register (next : Nat → List Nat → Nat) (o : T)
    (s sT : sim_api_t T RegState) (off1 : Nat)
    (h : get_tokens (registerBackend T next) [o] 0 s = Res.ok off1 sT) :
    (sT.ch Chan.out_channel).words 0 = s.backend.reg ∧ sT.backend = s.backend ∧
      sT.log = s.log ++ [Event.get_value o 0 1] := by
  have hrun : get_tokens (registerBackend T next) [o] 0 s = Res.ok (addSize 0 1)
      { s with
        ch := Function.update s.ch Chan.out_channel
            { s.ch Chan.out_channel with
              words := Function.update (s.ch Chan.out_channel).words 0 s.backend.reg },
        log := s.log ++ [Event.get_value o 0 1] } := rfl
  rw [hrun] at h
  cases h
  simp

/-- One iteration of the command loop that receives STEP over the register backend,
and the `send_tokens` that follows: the register becomes `next` of the register and of
the words of the input payload, and that is the word published. -/
theorem round_trip_run (next : Nat → List Nat → Nat) (fuel n c : Nat)
    (s0 sA s1 : sim_api_t T RegState) (o : T)
    (hrecv : retry (recv_cmd fuel) fuel 0 s0 = Res.ok c sA)
    (hc : castCmd c = some SIM_CMD.STEP)
    (hout : sA.sim_data.outputs = [o])
    (hpend : sA.backend.latched = [])
    (hlen : sA.sim_data.inputs.length ≤ SIZE_MOD)
    (hloop : cmdLoop (registerBackend T next) fuel (n + 1) s0 = Res.ok () s1) :
    s1.backend.reg = next sA.backend.reg
        ((List.range sA.sim_data.inputs.length).map (s1.ch Chan.in_channel).words) ∧
      s1.backend.latched = [] ∧ s1.sim_data = sA.sim_data ∧
      ∀ s2, retry (send_tokens (registerBackend T next) fuel) fuel () s1 = Res.ok () s2 →
        (s2.ch Chan.out_channel).words 0 = s1.backend.reg ∧
        (s2.ch Chan.out_channel).b3 = 1 ∧
        s2.log = s1.log ++ [Event.get_value o 0 1, Event.produce Chan.out_channel] ∧
        s2.backend = s1.backend := by
  have hloopdef : cmdLoop (registerBackend T next) fuel (n + 1) s0 =
      M.bind (retry (recv_cmd fuel) fuel 0) (fun cmd => M.bind (emit (Event.opcode cmd))
        (fun _ => M.bind (dispatch (registerBackend T next) fuel cmd)
          (fun e => if e then pure () else cmdLoop (registerBackend T next) fuel n))) s0 := rfl
  have hemit : (emit (Event.opcode c) : M (sim_api_t T RegState) Unit) sA
      = Res.ok () { sA with log := sA.log ++ [Event.opcode c] } := rfl
  have hdisp : dispatch (registerBackend T next) fuel c =
      M.bind (retry (recv_tokens (registerBackend T next) fuel) fuel ())
        (fun _ => M.bind (hook (registerBackend T next).step Event.step)
          (fun _ => pure true)) := by
    unfold dispatch
    rw [hc]
    rfl
  rw [hloopdef, bind_ok _ _ _ _ _ hrecv, bind_ok _ _ _ _ _ hemit, hdisp] at hloop
  obtain ⟨ex, sD, hD, hrest⟩ := bind_ok_inv hloop
  obtain ⟨u, sR, hR, hH⟩ := bind_ok_inv hD
  rcases retry_recv_tokens (registerBackend T next) fuel fuel ()
      { sA with log := sA.log ++ [Event.opcode c] } with
    ⟨sx, hx, -⟩ | ⟨sc, off, sT, hq, -, hT, hx⟩
  · rw [hx] at hR
    cases hR
  rw [hx] at hR
  cases hR
  obtain ⟨hr1, hr2, hr3, hr4⟩ := put_tokens_register next sc.sim_data.inputs 0 sc sT off
    (by decide) hT
  have hsD : sD = { sT with
      ch := Function.update sT.ch Chan.in_channel (sT.ch Chan.in_channel).consume.release,
      backend := (registerBackend T next).step sT.backend,
      log := sT.log ++ [Event.consume Chan.in_channel] ++ [Event.step] } := by
    simp only [M.bind, hook, pure_apply] at hH
    cases hH
    rfl
  have hex : ex = true := by
    simp only [M.bind, hook, pure_apply] at hH
    cases hH
    rfl
  subst hex
  simp only [if_true, pure_apply] at hrest
  cases hrest
  subst hsD
  have hdata : sc.sim_data = sA.sim_data := hq.1
  have hback : sc.backend = sA.backend := hq.2.2.1
  have hwords : ∀ j, j < sA.sim_data.inputs.length →
      (sc.ch Chan.in_channel).words ((0 + j) % SIZE_MOD) = (sc.ch Chan.in_channel).words j := by
    intro j hj
    rw [Nat.zero_add, Nat.mod_eq_of_lt (lt_of_lt_of_le hj hlen)]
  refine ⟨?_, rfl, ?_, ?_⟩
  · show next sT.backend.reg sT.backend.latched = _
    rw [hr1, hr2, hback, hpend, hdata, hr3]
    simp only [List.nil_append, Function.update_same, channel_t.consume, channel_t.release]
    congr 1
    apply List.map_congr_left
    intro j hj
    exact hwords j (List.mem_range.1 hj)
  · show sT.sim_data = sA.sim_data
    rw [hr4, hdata]
  · intro s2 hsend
    rcases retry_send_tokens (registerBackend T next) fuel fuel () _ with
      ⟨sx, hx, -⟩ | ⟨sc2, off2, sT2, hq2, -, hT2, hx⟩
    · rw [hx] at hsend
      cases hsend
    rw [hx] at hsend
    cases hsend
    have hout2 : sc2.sim_data.outputs = [o] := by
      rw [hq2.1]
      show sT.sim_data.outputs = [o]
      rw [hr4, hdata, hout]
    rw [hout2] at hT2
    obtain ⟨hg1, hg2, hg3⟩ := get_tokens_register next o sc2 sT2 off2 hT2
    refine ⟨?_, ?_, ?_, ?_⟩
    · simp only [Function.update_same, channel_t.produce, channel_t.release]
      rw [hg1, hq2.2.2.1]
    · simp [channel_t.produce, channel_t.release]
    · simp only [hg3, hq2.2.2.2, List.append_assoc, List.singleton_append]
    · show sT2.backend = _
      rw [hg2, hq2.2.2.1]

/-! ### Partial correctness -/

theorem hoare_bind {σ α γ : Type} {P Q R : σ → Prop} {m : M σ α} {f : α → M σ γ}
    (hm : Hoare P m Q) (hf : ∀ a, Hoare Q (f a) R) : Hoare P (M.bind m f) R := by
  intro s b s2 hP h
  obtain ⟨a, s1, h1, h2⟩ := bind_ok_inv h
  exact hf a s1 b s2 (hm s a s1 hP h1) h2

theorem hoare_pure {σ α : Type} (P : σ → Prop) (a : α) : Hoare P (pure a : M σ α) P := by
  intro s b s1 hP h
  cases h
  exact hP

theorem hoare_pre {σ α : Type} {P P1 Q : σ → Prop} {m : M σ α} (h : ∀ s, P1 s → P s)
    (hm : Hoare P m Q) : Hoare P1 m Q :=
  fun s a s1 hP hr => hm s a s1 (h s hP) hr

theorem hoare_post {σ α : Type} {P Q Q1 : σ → Prop} {m : M σ α} (hm : Hoare P m Q)
    (h : ∀ s, Q s → Q1 s) : Hoare P m Q1 :=
  fun s a s1 hP hr => h s1 (hm s a s1 hP hr)

theorem hoare_ite {σ α : Type} {P Q : σ → Prop} (c : Prop) [Decidable c] {m1 m2 : M σ α}
    (h1 : Hoare P m1 Q) (h2 : Hoare P m2 Q) : Hoare P (if c then m1 else m2) Q := by
  split
  · exact h1
  · exact h2

theorem hoare_exit {α : Type} (P Q : sim_api_t T β → Prop) (code : Nat) :
    Hoare P (exit code : M (sim_api_t T β) α) Q := by
  intro s a s1 _ h
  cases h

theorem hoare_retry {α : Type} {P : sim_api_t T β → Prop}
    (op : α → M (sim_api_t T β) (Bool × α)) (ht : Hoare P testerTurn P)
    (hop : ∀ x, Hoare P (op x) P) : ∀ fuel x, Hoare P (retry op fuel x) P := by
  intro fuel
  induction fuel with
  | zero =>
    intro x s a s1 _ h
    cases h
  | succ n ih =>
    intro x
    have : retry op (n + 1) x =
        M.bind testerTurn (fun _ => M.bind (op x) (fun r =>
          if r.1 then pure r.2 else retry op n r.2)) := rfl
    rw [this]
    exact hoare_bind ht (fun _ => hoare_bind (hop x) (fun r =>
      hoare_ite _ (hoare_pure P r.2) (ih r.2)))

/-! ### Control bytes across the dispatcher -/

/-- A step that touches neither the regions nor the tester's script keeps `Framed`. -/
theorem hoare_static {α : Type} (f : channel_t → Nat) (v : Chan → Nat)
    (m : M (sim_api_t T β) α)
    (h : ∀ s a s1, m s = Res.ok a s1 → s1.ch = s.ch ∧ s1.tester = s.tester) :
    Hoare (Framed f v) m (Framed f v) := by
  intro s a s1 hP hr
  obtain ⟨h1, h2⟩ := h s a s1 hr
  unfold Framed
  rw [h1, h2]
  exact hP

theorem hoare_emit (f : channel_t → Nat) (v : Chan → Nat) (e : Event T) :
    Hoare (Framed f v) (emit e : M (sim_api_t T β) Unit) (Framed f v) :=
  hoare_static f v _ (fun s a s1 h => by cases h; exact ⟨rfl, rfl⟩)

theorem hoare_hook (f : channel_t → Nat) (v : Chan → Nat) (g : β → β) (e : Event T) :
    Hoare (Framed f v) (hook g e : M (sim_api_t T β) Unit) (Framed f v) :=
  hoare_static f v _ (fun s a s1 h => by cases h; exact ⟨rfl, rfl⟩)

theorem hoare_getState (f : channel_t → Nat) (v : Chan → Nat) :
    Hoare (Framed f v) (getState : M (sim_api_t T β) (sim_api_t T β)) (Framed f v) :=
  hoare_static f v _ (fun s a s1 h => by cases h; exact ⟨rfl, rfl⟩)

theorem hoare_set_is_reset (f : channel_t → Nat) (v : Chan → Nat) (b : Bool) :
    Hoare (Framed f v) (set_is_reset b : M (sim_api_t T β) Unit) (Framed f v) :=
  hoare_static f v _ (fun s a s1 h => by cases h; exact ⟨rfl, rfl⟩)

theorem hoare_call_put_value (f : channel_t → Nat) (v : Chan → Nat) (c : Chan) (sig : T)
    (off : Nat) (force : Bool) :
    Hoare (Framed f v) (call_put_value B c sig off force) (Framed f v) :=
  hoare_static f v _ (fun s a s1 h => by cases h; exact ⟨rfl, rfl⟩)

theorem hoare_call_search (f : channel_t → Nat) (v : Chan → Nat) (path : String) :
    Hoare (Framed f v) (call_search B path) (Framed f v) :=
  hoare_static f v _ (fun s a s1 h => by cases h; exact ⟨rfl, rfl⟩)

theorem hoare_call_get_chunk (f : channel_t → Nat) (v : Chan → Nat) (sig : T) :
    Hoare (Framed f v) (call_get_chunk B sig) (Framed f v) :=
  hoare_static f v _ (fun s a s1 h => by cases h; exact ⟨rfl, rfl⟩)

theorem hoare_signal_at (f : channel_t → Nat) (v : Chan → Nat) (id : Nat) :
    Hoare (Framed f v) (signal_at id : M (sim_api_t T β) T) (Framed f v) :=
  hoare_static f v _ (fun s a s1 h => by
    unfold signal_at at h
    split at h
    · cases h; exact ⟨rfl, rfl⟩
    · cases h)

theorem hoare_testerTurn (f : channel_t → Nat) (v : Chan → Nat) :
    Hoare (Framed f v) (testerTurn : M (sim_api_t T β) Unit) (Framed f v) := by
  intro s a s1 hP h
  unfold testerTurn at h
  cases ht : s.tester with
  | nil =>
    rw [ht] at h
    cases h
    exact hP
  | cons act rest =>
    rw [ht] at h
    cases h
    obtain ⟨hk, hv⟩ := hP
    rw [ht] at hk
    refine ⟨fun a ha => hk a (List.mem_cons_of_mem _ ha), fun c => ?_⟩
    show f (act s.ch c) = v c
    rw [hk act (List.mem_cons_self _ _) s.ch c]
    exact hv c

/-- A member of `channel_t` applied to channel `c` sets the control byte of `c` to
`n` when it takes the value at rest there to `n`. -/
theorem hoare_onChan (f : channel_t → Nat) (v : Chan → Nat) (c : Chan)
    (g : channel_t → channel_t) (n : Nat) (hg : ∀ x, f x = v c → f (g x) = n) :
    Hoare (Framed f v) (onChan c g : M (sim_api_t T β) Unit)
      (Framed f (Function.update v c n)) := by
  intro s a s1 hP h
  cases h
  refine ⟨hP.1, fun c1 => ?_⟩
  show f (Function.update s.ch c (g (s.ch c)) c1) = Function.update v c n c1
  by_cases hc : c1 = c
  · subst hc
    simp only [Function.update_same]
    exact hg _ (hP.2 c1)
  · simp only [Function.update_noteq hc]
    exact hP.2 c1

theorem hoare_onChan_keep (f : channel_t → Nat) (v : Chan → Nat) (c : Chan)
    (g : channel_t → channel_t) (hg : ∀ x, f (g x) = f x) :
    Hoare (Framed f v) (onChan c g : M (sim_api_t T β) Unit) (Framed f v) := by
  have h : Hoare (Framed f v) (onChan c g : M (sim_api_t T β) Unit)
      (Framed f (Function.update v c (v c))) :=
    hoare_onChan f v c g (v c) (fun x hx => by rw [hg x, hx])
  rwa [Function.update_eq_self] at h

theorem hoare_spin (f : channel_t → Nat) (v : Chan → Nat) (c : Chan) :
    ∀ fuel, Hoare (Framed f v) (spin c fuel : M (sim_api_t T β) Unit) (Framed f v) := by
  intro fuel
  induction fuel with
  | zero =>
    intro s a s1 hP h
    unfold spin at h
    split at h
    · cases h
    · cases h; exact hP
  | succ n ih =>
    intro s a s1 hP h
    unfold spin at h
    split at h
    · exact hoare_bind (hoare_testerTurn f v) (fun _ => ih) s a s1 hP h
    · cases h; exact hP

theorem hoare_aquire (f : channel_t → Nat) (v w : Chan → Nat) (hf : FlagCycle f v w)
    (c : Chan) (fuel : Nat) :
    Hoare (Framed f v) (aquire c fuel : M (sim_api_t T β) Unit)
      (Framed f (Function.update v c (w c))) :=
  hoare_bind (hoare_onChan f v c channel_t.want (w c) (hf.2.2.2.1 c))
    (fun _ => hoare_spin f _ c fuel)

theorem hoare_release (f : channel_t → Nat) (v w : Chan → Nat) (hf : FlagCycle f v w)
    (c : Chan) :
    Hoare (Framed f (Function.update v c (w c))) (release c : M (sim_api_t T β) Unit)
      (Framed f v) := by
  have h : Hoare (Framed f (Function.update v c (w c)))
      (onChan c channel_t.release : M (sim_api_t T β) Unit)
      (Framed f (Function.update (Function.update v c (w c)) c (v c))) :=
    hoare_onChan f _ c channel_t.release (v c) (fun x hx => by
      rw [Function.update_same] at hx
      exact hf.2.2.2.2 c x hx)
  rwa [Function.update_idem, Function.update_eq_self] at h

theorem hoare_produce (f : channel_t → Nat) (v : Chan → Nat) (hp : ∀ x, f x.produce = f x)
    (c : Chan) : Hoare (Framed f v) (produce c : M (sim_api_t T β) Unit) (Framed f v) :=
  hoare_bind (hoare_onChan_keep f v c _ hp) (fun _ => hoare_emit f v _)

theorem hoare_consume (f : channel_t → Nat) (v : Chan → Nat) (hp : ∀ x, f x.consume = f x)
    (c : Chan) : Hoare (Framed f v) (consume c : M (sim_api_t T β) Unit) (Framed f v) :=
  hoare_bind (hoare_onChan_keep f v c _ hp) (fun _ => hoare_emit f v _)

theorem hoare_call_get_value (f : channel_t → Nat) (v : Chan → Nat)
    (hw : ∀ (x : channel_t) (d : Nat → Nat), f { x with words := d } = f x)
    (c : Chan) (sig : T) (off : Nat) :
    Hoare (Framed f v) (call_get_value B c sig off) (Framed f v) := by
  intro s a s1 hP h
  cases h
  refine ⟨hP.1, fun c1 => ?_⟩
  show f (Function.update s.ch c _ c1) = v c1
  by_cases hc : c1 = c
  · subst hc
    simp only [Function.update_same]
    rw [hw]
    exact hP.2 c1
  · simp only [Function.update_noteq hc]
    exact hP.2 c1

theorem hoare_put_tokens (f : channel_t → Nat) (v : Chan → Nat) (l : List T) :
    ∀ off, Hoare (Framed f v) (put_tokens B l off) (Framed f v) := by
  induction l with
  | nil => exact fun off => hoare_pure _ off
  | cons sig rest ih =>
    exact fun off => hoare_bind (hoare_call_put_value B f v _ sig off false) (fun n => ih _)

theorem hoare_get_tokens (f : channel_t → Nat) (v : Chan → Nat)
    (hw : ∀ (x : channel_t) (d : Nat → Nat), f { x with words := d } = f x) (l : List T) :
    ∀ off, Hoare (Framed f v) (get_tokens B l off) (Framed f v) := by
  induction l with
  | nil => exact fun off => hoare_pure _ off
  | cons sig rest ih =>
    exact fun off => hoare_bind (hoare_call_get_value B f v hw _ sig off) (fun n => ih _)

/-! ### The seven channel operations keep the control bytes -/

theorem hoare_recv_cmd (f : channel_t → Nat) (v w : Chan → Nat) (hf : FlagCycle f v w)
    (fuel cmd : Nat) :
    Hoare (Framed f v) (recv_cmd fuel cmd : M (sim_api_t T β) (Bool × Nat)) (Framed f v) :=
  hoare_bind (hoare_aquire f v w hf _ fuel) (fun _ => hoare_bind (hoare_getState f _) (fun _ =>
    hoare_bind (hoare_ite _ (hoare_bind (hoare_consume f _ hf.2.1 _) (fun _ => hoare_pure _ _))
      (hoare_pure _ _)) (fun _ => hoare_bind (hoare_release f v w hf _) (fun _ =>
        hoare_pure _ _))))

theorem hoare_recv_cmd_str (f : channel_t → Nat) (v w : Chan → Nat) (hf : FlagCycle f v w)
    (fuel : Nat) (path : String) :
    Hoare (Framed f v) (recv_cmd_str fuel path : M (sim_api_t T β) (Bool × String))
      (Framed f v) :=
  hoare_bind (hoare_aquire f v w hf _ fuel) (fun _ => hoare_bind (hoare_getState f _) (fun _ =>
    hoare_bind (hoare_ite _ (hoare_bind (hoare_consume f _ hf.2.1 _) (fun _ => hoare_pure _ _))
      (hoare_pure _ _)) (fun _ => hoare_bind (hoare_release f v w hf _) (fun _ =>
        hoare_pure _ _))))

theorem hoare_send_resp (f : channel_t → Nat) (v w : Chan → Nat) (hf : FlagCycle f v w)
    (value fuel : Nat) (u : Unit) :
    Hoare (Framed f v) (send_resp value fuel u : M (sim_api_t T β) (Bool × Unit))
      (Framed f v) :=
  hoare_bind (hoare_aquire f v w hf _ fuel) (fun _ => hoare_bind (hoare_getState f _) (fun _ =>
    hoare_bind (hoare_ite _
      (hoare_bind (hoare_onChan_keep f _ _ _ (fun x => hf.2.2.1 x _))
        (fun _ => hoare_produce f _ hf.1 _))
      (hoare_pure _ _)) (fun _ => hoare_bind (hoare_release f v w hf _) (fun _ =>
        hoare_pure _ _))))

theorem hoare_recv_value (f : channel_t → Nat) (v w : Chan → Nat) (hf : FlagCycle f v w)
    (obj : T) (force : Bool) (fuel : Nat) (u : Unit) :
    Hoare (Framed f v) (recv_value B obj force fuel u) (Framed f v) :=
  hoare_bind (hoare_aquire f v w hf _ fuel) (fun _ => hoare_bind (hoare_getState f _) (fun _ =>
    hoare_bind (hoare_ite _
      (hoare_bind (hoare_call_put_value B f _ _ _ _ _) (fun _ => hoare_consume f _ hf.2.1 _))
      (hoare_pure _ _)) (fun _ => hoare_bind (hoare_release f v w hf _) (fun _ =>
        hoare_pure _ _))))

theorem hoare_send_value (f : channel_t → Nat) (v w : Chan → Nat) (hf : FlagCycle f v w)
    (obj : T) (fuel : Nat) (u : Unit) :
    Hoare (Framed f v) (send_value B obj fuel u) (Framed f v) :=
  hoare_bind (hoare_aquire f v w hf _ fuel) (fun _ => hoare_bind (hoare_getState f _) (fun _ =>
    hoare_bind (hoare_ite _
      (hoare_bind (hoare_call_get_value B f _ hf.2.2.1 _ _ _)
        (fun _ => hoare_produce f _ hf.1 _))
      (hoare_pure _ _)) (fun _ => hoare_bind (hoare_release f v w hf _) (fun _ =>
        hoare_pure _ _))))

theorem hoare_recv_tokens (f : channel_t → Nat) (v w : Chan → Nat) (hf : FlagCycle f v w)
    (fuel : Nat) (u : Unit) :
    Hoare (Framed f v) (recv_tokens B fuel u) (Framed f v) :=
  hoare_bind (hoare_aquire f v w hf _ fuel) (fun _ => hoare_bind (hoare_getState f _) (fun _ =>
    hoare_bind (hoare_ite _
      (hoare_bind (hoare_put_tokens B f _ _ _) (fun _ => hoare_consume f _ hf.2.1 _))
      (hoare_pure _ _)) (fun _ => hoare_bind (hoare_release f v w hf _) (fun _ =>
        hoare_pure _ _))))

theorem hoare_send_tokens (f : channel_t → Nat) (v w : Chan → Nat) (hf : FlagCycle f v w)
    (fuel : Nat) (u : Unit) :
    Hoare (Framed f v) (send_tokens B fuel u) (Framed f v) :=
  hoare_bind (hoare_aquire f v w hf _ fuel) (fun _ => hoare_bind (hoare_getState f _) (fun _ =>
    hoare_bind (hoare_ite _
      (hoare_bind (hoare_get_tokens B f _ hf.2.2.1 _ _) (fun _ => hoare_produce f _ hf.1 _))
      (hoare_pure _ _)) (fun _ => hoare_bind (hoare_release f v w hf _) (fun _ =>
        hoare_pure _ _))))

/-! ### The handlers and the tick keep the control bytes -/

theorem hoare_null_check (f : channel_t → Nat) (v : Chan → Nat) (obj : T) :
    Hoare (Framed f v)
      (if B.isNull obj = true then
        M.bind (hook B.finish Event.finish) (fun _ => (exit 2 : M (sim_api_t T β) Unit))
        else pure ())
      (Framed f v) :=
  hoare_ite _ (hoare_bind (hoare_hook f v _ _) (fun _ => hoare_exit _ _ 2)) (hoare_pure _ _)

theorem hoare_poke (f : channel_t → Nat) (v w : Chan → Nat) (hf : FlagCycle f v w)
    (force : Bool) (fuel : Nat) : Hoare (Framed f v) (poke B force fuel) (Framed f v) :=
  hoare_bind (hoare_retry _ (hoare_testerTurn f v) (fun x => hoare_recv_cmd f v w hf fuel x)
    fuel 0) (fun id => hoare_bind (hoare_signal_at f v id) (fun obj =>
      hoare_bind (hoare_null_check B f v obj) (fun _ =>
        hoare_retry _ (hoare_testerTurn f v)
          (fun u => hoare_recv_value B f v w hf obj force fuel u) fuel ())))

theorem hoare_peek (f : channel_t → Nat) (v w : Chan → Nat) (hf : FlagCycle f v w)
    (fuel : Nat) : Hoare (Framed f v) (peek B fuel) (Framed f v) :=
  hoare_bind (hoare_retry _ (hoare_testerTurn f v) (fun x => hoare_recv_cmd f v w hf fuel x)
    fuel 0) (fun id => hoare_bind (hoare_signal_at f v id) (fun obj =>
      hoare_bind (hoare_null_check B f v obj) (fun _ =>
        hoare_retry _ (hoare_testerTurn f v)
          (fun u => hoare_send_value B f v w hf obj fuel u) fuel ())))

theorem hoare_getchk (f : channel_t → Nat) (v w : Chan → Nat) (hf : FlagCycle f v w)
    (fuel : Nat) : Hoare (Framed f v) (getchk B fuel) (Framed f v) :=
  hoare_bind (hoare_retry _ (hoare_testerTurn f v) (fun x => hoare_recv_cmd f v w hf fuel x)
    fuel 0) (fun id => hoare_bind (hoare_signal_at f v id) (fun obj =>
      hoare_bind (hoare_null_check B f v obj) (fun _ =>
        hoare_bind (hoare_call_get_chunk B f v obj) (fun chunk =>
          hoare_retry _ (hoare_testerTurn f v)
            (fun u => hoare_send_resp f v w hf chunk fuel u) fuel ()))))

theorem hoare_getid (f : channel_t → Nat) (v w : Chan → Nat) (hf : FlagCycle f v w)
    (fuel : Nat) : Hoare (Framed f v) (getid B fuel) (Framed f v) := by
  refine hoare_bind (hoare_retry _ (hoare_testerTurn f v)
    (fun x => hoare_recv_cmd_str f v w hf fuel x) fuel "")
    (fun path => hoare_bind (hoare_getState f v) (fun s => ?_))
  cases h : s.sim_data.signal_map path with
  | some id =>
    simp only [h]
    exact hoare_retry _ (hoare_testerTurn f v) (fun u => hoare_send_resp f v w hf id fuel u)
      fuel ()
  | none =>
    simp only [h]
    exact hoare_bind (hoare_call_search B f v path) (fun id =>
      hoare_retry _ (hoare_testerTurn f v)
        (fun u => hoare_send_resp f v w hf (intToSize id) fuel u) fuel ())

theorem hoare_setclk (f : channel_t → Nat) (v w : Chan → Nat) (hf : FlagCycle f v w)
    (fuel : Nat) : Hoare (Framed f v) (setclk B fuel) (Framed f v) := by
  refine hoare_bind (hoare_retry _ (hoare_testerTurn f v)
    (fun x => hoare_recv_cmd_str f v w hf fuel x) fuel "")
    (fun path => hoare_bind (hoare_getState f v) (fun s => ?_))
  cases h : s.sim_data.clk_map path with
  | some obj =>
    simp only [h]
    exact hoare_retry _ (hoare_testerTurn f v)
      (fun u => hoare_recv_value B f v w hf obj false fuel u) fuel ()
  | none =>
    simp only [h]
    intro s0 a s1 _ h1
    cases h1

theorem hoare_dispatch (f : channel_t → Nat) (v w : Chan → Nat) (hf : FlagCycle f v w)
    (fuel c : Nat) : Hoare (Framed f v) (dispatch B fuel c) (Framed f v) := by
  unfold dispatch
  cases castCmd c with
  | none => exact hoare_pure _ _
  | some k =>
    cases k
    · exact hoare_bind (hoare_hook f v _ _) (fun _ =>
        hoare_bind (hoare_set_is_reset f v true) (fun _ => hoare_pure _ _))
    · exact hoare_bind (hoare_retry _ (hoare_testerTurn f v)
        (fun u => hoare_recv_tokens B f v w hf fuel u) fuel ())
        (fun _ => hoare_bind (hoare_hook f v _ _) (fun _ => hoare_pure _ _))
    · exact hoare_bind (hoare_retry _ (hoare_testerTurn f v)
        (fun u => hoare_recv_tokens B f v w hf fuel u) fuel ())
        (fun _ => hoare_bind (hoare_hook f v _ _) (fun _ => hoare_pure _ _))
    · exact hoare_bind (hoare_poke B f v w hf false fuel) (fun _ => hoare_pure _ _)
    · exact hoare_bind (hoare_peek B f v w hf fuel) (fun _ => hoare_pure _ _)
    · exact hoare_bind (hoare_poke B f v w hf true fuel) (fun _ => hoare_pure _ _)
    · exact hoare_bind (hoare_getid B f v w hf fuel) (fun _ => hoare_pure _ _)
    · exact hoare_bind (hoare_getchk B f v w hf fuel) (fun _ => hoare_pure _ _)
    · exact hoare_bind (hoare_setclk B f v w hf fuel) (fun _ => hoare_pure _ _)
    · exact hoare_bind (hoare_hook f v _ _) (fun _ => hoare_pure _ _)

theorem hoare_cmdLoop (f : channel_t → Nat) (v w : Chan → Nat) (hf : FlagCycle f v w)
    (fuel : Nat) : ∀ n, Hoare (Framed f v) (cmdLoop B fuel n) (Framed f v) := by
  intro n
  induction n with
  | zero =>
    intro s a s1 _ h
    cases h
  | succ n ih =>
    exact hoare_bind (hoare_retry _ (hoare_testerTurn f v)
      (fun x => hoare_recv_cmd f v w hf fuel x) fuel 0) (fun cmd =>
        hoare_bind (hoare_emit f v _) (fun _ =>
          hoare_bind (hoare_dispatch B f v w hf fuel cmd) (fun ex =>
            hoare_ite _ (hoare_pure _ _) ih)))

theorem hoare_tick (f : channel_t → Nat) (v w : Chan → Nat) (hf : FlagCycle f v w)
    (fuel : Nat) : Hoare (Framed f v) (tick B fuel) (Framed f v) :=
  hoare_bind (hoare_retry _ (hoare_testerTurn f v)
    (fun u => hoare_send_tokens B f v w hf fuel u) fuel ()) (fun _ =>
      hoare_bind (hoare_getState f v) (fun _ =>
        hoare_bind (hoare_ite _ (hoare_bind (hoare_hook f v _ _)
          (fun _ => hoare_set_is_reset f v false)) (hoare_pure _ _))
          (fun _ => hoare_cmdLoop B f v w hf fuel fuel)))

theorem hoare_ticks (f : channel_t → Nat) (v w : Chan → Nat) (hf : FlagCycle f v w)
    (fuel : Nat) : ∀ n, Hoare (Framed f v) (ticks B fuel n) (Framed f v) := by
  intro n
  induction n with
  | zero => exact hoare_pure _ _
  | succ n ih => exact hoare_bind (hoare_tick B f v w hf fuel) (fun _ => ih)

/-! ### The two want-flags -/

theorem flagCycle_b1 : FlagCycle channel_t.b1 (fun _ => 0) (fun _ => 1) :=
  ⟨fun _ => rfl, fun _ => rfl, fun _ _ => rfl, fun _ _ _ => rfl, fun _ _ _ => rfl⟩

theorem flagCycle_b0 (v : Chan → Nat) : FlagCycle channel_t.b0 v v :=
  ⟨fun _ => rfl, fun _ => rfl, fun _ _ => rfl, fun _ _ h => h, fun _ _ h => h⟩

theorem hoare_true {σ α : Type} (P : σ → Prop) (m : M σ α) : Hoare P m (fun _ => True) :=
  fun _ _ _ _ _ => trivial

/-- `release()` leaves the simulator's want-flag of its channel at 0. -/
theorem hoare_released (c : Chan) :
    Hoare (fun _ => True) (release c : M (sim_api_t T β) Unit) (fun s => (s.ch c).b1 = 0) := by
  intro s a s1 _ h
  cases h
  simp [channel_t.release]

/-- An operation of the shape `aquire; read the flag; body; release; return`. -/
theorem hoare_guarded {α γ δ : Type} (c : Chan) (m1 : M (sim_api_t T β) Unit)
    (m2 : M (sim_api_t T β) δ) (m3 : δ → M (sim_api_t T β) α) (r : δ → α → γ) :
    Hoare (fun _ => True)
      (M.bind m1 (fun _ => M.bind m2 (fun s => M.bind (m3 s) (fun a =>
        M.bind (release c) (fun _ => pure (r s a))))))
      (fun s => (s.ch c).b1 = 0) :=
  hoare_bind (hoare_true _ _) (fun _ => hoare_bind (hoare_true _ _) (fun _ =>
    hoare_bind (hoare_true _ _) (fun _ => hoare_bind (hoare_released c) (fun _ =>
      hoare_pure _ _))))

theorem keepsPeerFlag_of_hoare {α : Type} (m : M (sim_api_t T β) α)
    (h : ∀ v, Hoare (Framed channel_t.b0 v) m (Framed channel_t.b0 v)) : KeepsPeerFlag m :=
  fun s r s1 hk hr => (h (fun c => (s.ch c).b0) s r s1 ⟨hk, fun _ => rfl⟩ hr).2

theorem returnsReleased_of_hoare {α : Type} (c : Chan) (m : M (sim_api_t T β) α)
    (h : Hoare (fun _ => True) m (fun s => (s.ch c).b1 = 0)) : ReturnsReleased c m :=
  fun s r s1 hr => h s r s1 trivial hr

theorem construct_ok (s : sim_api_t T β) :
    ∃ s1, construct s = Res.ok () s1 ∧ WantClear s1 ∧ s1.tester = s.tester ∧
      ∀ c, (s1.ch c).b0 = (s.ch c).b0 := by
  refine ⟨_, rfl, fun c => ?_, rfl, fun c => ?_⟩
  · cases c <;> simp [Function.update, channel_t.release, channel_t.consume]
  · cases c <;> simp [Function.update, channel_t.release, channel_t.consume]

/-! ### The words a batch covers -/

theorem sumRet_take_succ (d : List (Event T)) (k : Nat) (e : Event T) (h : d[k]? = some e) :
    sumRet (d.take (k + 1)) = sumRet (d.take k) + e.ret := by
  unfold sumRet
  rw [List.take_succ, h]
  simp

theorem sumRet_cover (d : List (Event T)) (x : Nat) (hx : x < sumRet d) :
    ∃ k e, d[k]? = some e ∧ sumRet (d.take k) ≤ x ∧ x < sumRet (d.take k) + e.ret := by
  induction d generalizing x with
  | nil => simp [sumRet] at hx
  | cons e0 rest ih =>
    rw [sumRet_cons] at hx
    by_cases h0 : x < e0.ret
    · exact ⟨0, e0, by simp, by simp [sumRet], by simpa [sumRet] using h0⟩
    · obtain ⟨k, e, hk, hlo, hhi⟩ := ih (x - e0.ret) (by omega)
      refine ⟨k + 1, e, by simpa using hk, ?_, ?_⟩
      · rw [List.take_succ_cons, sumRet_cons]
        omega
      · rw [List.take_succ_cons, sumRet_cons]
        omega

/-- When each call of a batch is given the sum of the counts returned before it, the
words the batch accesses are exactly the words below the sum of all counts. -/
theorem touched_iff (d : List (Event T))
    (hoff : ∀ k e, d[k]? = some e → e.off = sumRet (d.take k)) (j : Nat) :
    (∃ e ∈ d, e.touches j = true) ↔ j < sumRet d := by
  constructor
  · rintro ⟨e, he, ht⟩
    obtain ⟨k, hk⟩ := List.mem_iff_getElem?.1 he
    have h1 := hoff k e hk
    have h2 := sumRet_take_succ d k e hk
    have h3 := sumRet_take_le d (k + 1)
    simp only [Event.touches, decide_eq_true_eq] at ht
    omega
  · intro hj
    obtain ⟨k, e, hk, hlo, hhi⟩ := sumRet_cover d j hj
    refine ⟨e, List.mem_iff_getElem?.2 ⟨k, hk⟩, ?_⟩
    simp only [Event.touches, decide_eq_true_eq]
    rw [hoff k e hk]
    exact ⟨hlo, hhi⟩

/-- All accessed words lie inside a region of `P` bytes exactly when the whole batch
fits. -/
theorem inside_iff (d : List (Event T))
    (hoff : ∀ k e, d[k]? = some e → e.off = sumRet (d.take k)) (P : Nat) (hP : 4 ≤ P) :
    (∀ j, (∃ e ∈ d, e.touches j = true) → 4 + 8 * (j + 1) ≤ P) ↔
      4 + 8 * sumRet d ≤ P := by
  constructor
  · intro h
    by_cases h0 : sumRet d = 0
    · omega
    · have := h (sumRet d - 1) ((touched_iff d hoff _).2 (by omega))
      omega
  · intro h j hj
    have := (touched_iff d hoff j).1 hj
    omega

theorem offsets_get (l : List T) (d : List (Event T)) (hlen : d.length = l.length)
    (hk : ∀ k sig, l[k]? = some sig →
      ∃ n, d[k]? = some (Event.get_value sig ((0 + sumRet (d.take k)) % SIZE_MOD) n)) :
    (∀ e ∈ d, ∃ sig o n, e = Event.get_value sig o n) ∧
    (∀ k e, d[k]? = some e → e.off = sumRet (d.take k) % SIZE_MOD) := by
  have key : ∀ k e, d[k]? = some e →
      ∃ sig n, e = Event.get_value sig ((0 + sumRet (d.take k)) % SIZE_MOD) n := by
    intro k e he
    have hlt : k < l.length := by
      rw [← hlen]
      exact (List.getElem?_eq_some.1 he).1
    obtain ⟨n, hn⟩ := hk k l[k] (List.getElem?_eq_getElem hlt)
    rw [hn] at he
    exact ⟨l[k], n, (Option.some.inj he).symm⟩
  refine ⟨fun e he => ?_, fun k e he => ?_⟩
  · obtain ⟨k, hk1⟩ := List.mem_iff_getElem?.1 he
    obtain ⟨sig, n, h⟩ := key k e hk1
    exact ⟨sig, _, n, h⟩
  · obtain ⟨sig, n, h⟩ := key k e he
    rw [h, Nat.zero_add]
    rfl

theorem offsets_put (l : List T) (d : List (Event T)) (hlen : d.length = l.length)
    (hk : ∀ k sig, l[k]? = some sig →
      ∃ n, d[k]? = some (Event.put_value sig ((0 + sumRet (d.take k)) % SIZE_MOD) false n)) :
    (∀ e ∈ d, ∃ sig o n, e = Event.put_value sig o false n) ∧
    (∀ k e, d[k]? = some e → e.off = sumRet (d.take k) % SIZE_MOD) := by
  have key : ∀ k e, d[k]? = some e →
      ∃ sig n, e = Event.put_value sig ((0 + sumRet (d.take k)) % SIZE_MOD) false n := by
    intro k e he
    have hlt : k < l.length := by
      rw [← hlen]
      exact (List.getElem?_eq_some.1 he).1
    obtain ⟨n, hn⟩ := hk k l[k] (List.getElem?_eq_getElem hlt)
    rw [hn] at he
    exact ⟨l[k], n, (Option.some.inj he).symm⟩
  refine ⟨fun e he => ?_, fun k e he => ?_⟩
  · obtain ⟨k, hk1⟩ := List.mem_iff_getElem?.1 he
    obtain ⟨sig, n, h⟩ := key k e hk1
    exact ⟨sig, _, n, h⟩
  · obtain ⟨sig, n, h⟩ := key k e he
    rw [h, Nat.zero_add]
    rfl

/-- In a batch whose calls access addressable words the running offset never wraps:
every prefix of the counts sums to less than `2^64`. -/
theorem sumRet_take_lt (d : List (Event T))
    (hmod : ∀ k e, d[k]? = some e → e.off = sumRet (d.take k) % SIZE_MOD)
    (hadd : Addressable d) : ∀ k, sumRet (d.take k) < SIZE_MOD := by
  intro k
  induction k with
  | zero => simp [sumRet, SIZE_MOD]
  | succ k ih =>
    cases hk : d[k]? with
    | none =>
      have hle : d.length ≤ k := by
        by_contra hlt
        rw [List.getElem?_eq_getElem (by omega)] at hk
        cases hk
      rw [List.take_of_length_le (by omega)]
      rw [List.take_of_length_le hle] at ih
      exact ih
    | some e =>
      have h1 := hmod k e hk
      rw [Nat.mod_eq_of_lt ih] at h1
      have h2 := hadd e (List.mem_iff_getElem?.2 ⟨k, hk⟩)
      rw [sumRet_take_succ d k e hk, ← h1]
      unfold SIZE_MOD at h2 ⊢
      omega

theorem offsets_exact (d : List (Event T))
    (hmod : ∀ k e, d[k]? = some e → e.off = sumRet (d.take k) % SIZE_MOD)
    (hadd : Addressable d) :
    sumRet d < SIZE_MOD ∧ ∀ k e, d[k]? = some e → e.off = sumRet (d.take k) := by
  refine ⟨?_, fun k e he => ?_⟩
  · have h := sumRet_take_lt d hmod hadd d.length
    rwa [List.take_length] at h
  · rw [hmod k e he, Nat.mod_eq_of_lt (sumRet_take_lt d hmod hadd k)]

/-- The region holds the control bytes and every accessed word exactly when the whole
batch fits. -/
theorem inside_all_iff (d : List (Event T))
    (hoff : ∀ k e, d[k]? = some e → e.off = sumRet (d.take k)) (P : Nat) :
    (3 < P ∧ ∀ j, (∃ e ∈ d, e.touches j = true) → 4 + 8 * (j + 1) ≤ P) ↔
      4 + 8 * sumRet d ≤ P := by
  constructor
  · rintro ⟨hP, h⟩
    exact (inside_iff d hoff P hP).1 h
  · intro h
    exact ⟨by omega, (inside_iff d hoff P (by omega)).2 h⟩

/-- With a backend that writes exactly what it returns, the counts returned in a batch
sum to the number of words of the values. -/
theorem get_tokens_sumRet (val : T → β → List Nat) (hB : WritesExactly B val) (l : List T) :
    ∀ (off : Nat) (s sT : sim_api_t T β) (off1 : Nat) (d : List (Event T)),
      get_tokens B l off s = Res.ok off1 sT → sT.log = s.log ++ d →
      sumRet d = (l.flatMap (fun o => val o s.backend)).length := by
  induction l with
  | nil =>
    intro off s sT off1 d h hlog
    cases h
    have hd : d = [] := by simpa using hlog
    rw [hd]
    simp [sumRet]
  | cons sig rest ih =>
    intro off s sT off1 d h hlog
    have hdef : get_tokens B (sig :: rest) off s =
        M.bind (call_get_value B Chan.out_channel sig off)
          (fun n => get_tokens B rest (addSize off n)) s := rfl
    rw [hdef] at h
    obtain ⟨n, s', hc, hrest⟩ := bind_ok_inv h
    have hg := hB sig (s.ch Chan.out_channel).words off s.backend
    have hn : n = (val sig s.backend).length ∧ s'.backend = s.backend ∧
        s'.log = s.log ++ [Event.get_value sig off n] := by
      unfold call_get_value at hc
      cases hc
      simp [hg]
    obtain ⟨hn1, hn2, hn3⟩ := hn
    obtain ⟨off2, sT2, d', hrun, hlog', -⟩ := get_tokens_spec B rest (addSize off n) s'
    rw [hrun] at hrest
    cases hrest
    have hd : d = Event.get_value sig off n :: d' := by
      rw [hlog', hn3, List.append_assoc] at hlog
      exact (List.append_cancel_left hlog).symm
    have hih := ih (addSize off n) s' sT off1 d' hrun hlog'
    rw [hd, sumRet_cons, hih, hn2, List.flatMap_cons, List.length_append, ← hn1]
    rfl

end Lemmas

/-- C2 (as stated, refuted): with the three well-formed lines `(a, 1, 2^64 - 1)`,
`(b, 1, 1)`, `(c, 1, 1)` loaded into an empty registry, the path of the third line is
mapped to 0, not to the sum `2^64` of the word-counts of the lines before it. -/
theorem read_signal_map_sum_counterexample :
    ((read_signal_map (defaultBackend Nat)
        (some [⟨"a", 1, 18446744073709551615⟩, ⟨"b", 1, 1⟩, ⟨"c", 1, 1⟩])
        (sim_api_t.fresh Nat Unit ())).state.sim_data.signal_map "c" = some 0) ∧
    (([⟨"a", 1, 18446744073709551615⟩, ⟨"b", 1, 1⟩, ⟨"c", 1, 1⟩] : List Line).take 2
        |>.map Line.n).sum = 18446744073709551616 := by
  decide

/-- C2 (amended): for every list of well-formed lines with pairwise distinct paths,
loaded by `read_signal_map` into a dispatcher whose registry is empty, the call
returns and `signal_map` maps the path of the k-th line to the sum of the word-counts
of lines 0..k-1 reduced modulo 2^64 (so the first path maps to 0, and to the plain sum
whenever that sum is below 2^64), and `signal_map` has no other key. -/
theorem read_signal_map_ids (B : Backend T β) (lines : List Line) (s : sim_api_t T β)
    (hdistinct : (lines.map Line.path).Nodup)
    (hempty : ∀ p, s.sim_data.signal_map p = none) :
    ∃ s1, read_signal_map B (some lines) s = Res.ok () s1 ∧
      (∀ k l, lines[k]? = some l →
        s1.sim_data.signal_map l.path = some (((lines.take k).map Line.n).sum % SIZE_MOD) ∧
        (((lines.take k).map Line.n).sum < SIZE_MOD →
          s1.sim_data.signal_map l.path = some ((lines.take k).map Line.n).sum)) ∧
      (∀ p, p ∉ lines.map Line.path → s1.sim_data.signal_map p = none) := by
  obtain ⟨id1, s1, hrun, hout, hin⟩ := read_lines_spec lines 0 s (by decide)
  refine ⟨s1, ?_, ?_, ?_⟩
  · simp [read_signal_map, M.bind, hrun]
  · intro k l hk
    have h := hin hdistinct k l hk
    rw [Nat.zero_add] at h
    exact ⟨h, fun hlt => by rw [h, Nat.mod_eq_of_lt hlt]⟩
  · intro p hp
    rw [hout p hp, hempty p]

/-- C2 (amended), at the lines `(a.b, 1, 1)`, `(c.d, 4, 1)`, `(e.f, 8, 2)`: the
registry becomes `a.b ↦ 0`, `c.d ↦ 1`, `e.f ↦ 2` and holds no other key. -/
theorem read_signal_map_ids_witness :
    ∃ s1, read_signal_map (defaultBackend Nat)
        (some [⟨"a.b", 1, 1⟩, ⟨"c.d", 4, 1⟩, ⟨"e.f", 8, 2⟩])
        (sim_api_t.fresh Nat Unit ()) = Res.ok () s1 ∧
      s1.sim_data.signal_map "a.b" = some 0 ∧
      s1.sim_data.signal_map "c.d" = some 1 ∧
      s1.sim_data.signal_map "e.f" = some 2 ∧
      s1.sim_data.signal_map "g.h" = none := by
  obtain ⟨s1, hrun, hin, hout⟩ :=
    read_signal_map_ids (defaultBackend Nat)
      [⟨"a.b", 1, 1⟩, ⟨"c.d", 4, 1⟩, ⟨"e.f", 8, 2⟩]
      (sim_api_t.fresh Nat Unit ()) (by decide) (fun _ => rfl)
  exact ⟨s1, hrun, (hin 0 ⟨"a.b", 1, 1⟩ rfl).2 (by decide),
    (hin 1 ⟨"c.d", 4, 1⟩ rfl).2 (by decide), (hin 2 ⟨"e.f", 8, 2⟩ rfl).2 (by decide),
    hout "g.h" (by decide)⟩

/-- C3: guarded single-slot transfer. Let `s1` be the state in which the operation
enters its critical section (`aquire` has returned). Each send (`send_resp`,
`send_value`, `send_tokens`) returns, and returns true iff the payload-valid flag of
the output channel was 0 on entry; when true the flag is 1 afterwards, the payload has
been written and exactly one `produce()` was issued, after the `get_value` calls; when
false the payload, the flag and the backend are unchanged and no call was made. Each
receive (`recv_cmd` on a word, `recv_cmd` on a string, `recv_value`, `recv_tokens`)
returns true iff the flag was 1 on entry; when true the flag is 0 afterwards and one
`consume()` was issued; when false the flag, the reference argument, the payload and
the backend are untouched. So `produce()` is only issued on an empty slot and
`consume()` only on a full one. When the tester's want-flag is not 1 at the call,
`aquire` returns at once and `s1` has the flag and payload of the state at the call. -/
theorem guarded_transfer {T β : Type} (B : Backend T β) (fuel : Nat) (s s1 : sim_api_t T β) :
    (aquire Chan.out_channel fuel s = Res.ok () s1 →
      (∀ v, ∃ ret s2, send_resp v fuel () s = Res.ok (ret, ()) s2 ∧
        GuardedSend Chan.out_channel s1 s2 ret ∧
        (ret = true → (s2.ch Chan.out_channel).get 0 = v)) ∧
      (∀ obj, ∃ ret s2, send_value B obj fuel () s = Res.ok (ret, ()) s2 ∧
        GuardedSend Chan.out_channel s1 s2 ret ∧
        (ret = true → (s2.ch Chan.out_channel).words
          = (B.get_value obj (s1.ch Chan.out_channel).words 0 s1.backend).2.1)) ∧
      (∃ ret s2, send_tokens B fuel () s = Res.ok (ret, ()) s2 ∧
        GuardedSend Chan.out_channel s1 s2 ret ∧
        (ret = true → (s2.ch Chan.out_channel).words
          = ((get_tokens B s1.sim_data.outputs 0 s1).state.ch Chan.out_channel).words))) ∧
    (aquire Chan.cmd_channel fuel s = Res.ok () s1 →
      (∀ cmd, ∃ ret cmd1 s2, recv_cmd fuel cmd s = Res.ok (ret, cmd1) s2 ∧
        GuardedRecv Chan.cmd_channel s1 s2 ret ∧
        (ret = true → cmd1 = (s1.ch Chan.cmd_channel).get 0) ∧ (ret = false → cmd1 = cmd)) ∧
      (∀ path, ∃ ret path1 s2, recv_cmd_str fuel path s = Res.ok (ret, path1) s2 ∧
        GuardedRecv Chan.cmd_channel s1 s2 ret ∧
        (ret = true → path1 = (s1.ch Chan.cmd_channel).str) ∧
        (ret = false → path1 = path))) ∧
    (aquire Chan.in_channel fuel s = Res.ok () s1 →
      (∀ obj force, ∃ ret s2, recv_value B obj force fuel () s = Res.ok (ret, ()) s2 ∧
        GuardedRecv Chan.in_channel s1 s2 ret) ∧
      (∃ ret s2, recv_tokens B fuel () s = Res.ok (ret, ()) s2 ∧
        GuardedRecv Chan.in_channel s1 s2 ret)) ∧
    (∀ c, (s.ch c).b0 ≠ 1 → ∃ s0, aquire c fuel s = Res.ok () s0 ∧
      (s0.ch c).b3 = (s.ch c).b3 ∧ (s0.ch c).words = (s.ch c).words ∧
      (s0.ch c).str = (s.ch c).str ∧ s0.backend = s.backend ∧ s0.log = s.log) := by
  refine ⟨fun h => ⟨fun v => ?_, fun obj => ?_, ?_⟩,
    fun h => ⟨fun cmd => ?_, fun path => ?_⟩,
    fun h => ⟨fun obj force => ?_, ?_⟩, fun c hc => ?_⟩
  · cases hr : (s1.ch Chan.out_channel).ready
    · exact ⟨false, _, send_resp_false v fuel () s s1 h hr, guardedSend_false _ _ hr, by simp⟩
    · refine ⟨true, _, send_resp_true v fuel () s s1 h hr, ⟨?_, ?_, by simp⟩, fun _ => ?_⟩
      · simpa using (ready_iff _).1 hr
      · intro _
        exact ⟨by simp [channel_t.release, channel_t.produce], [], by simp, by simp⟩
      · simp [channel_t.release, channel_t.produce, channel_t.set, channel_t.get]
  · cases hr : (s1.ch Chan.out_channel).ready
    · exact ⟨false, _, send_value_false B obj fuel () s s1 h hr, guardedSend_false _ _ hr,
        by simp⟩
    · refine ⟨true, _, send_value_true B obj fuel () s s1 h hr, ⟨?_, ?_, by simp⟩,
        fun _ => ?_⟩
      · simpa using (ready_iff _).1 hr
      · intro _
        exact ⟨by simp [channel_t.release, channel_t.produce],
          [Event.get_value obj 0
            (B.get_value obj (s1.ch Chan.out_channel).words 0 s1.backend).1], by simp,
          fun e he => by rw [List.mem_singleton.1 he]; exact ⟨_, _, _, rfl⟩⟩
      · simp [channel_t.release, channel_t.produce]
  · cases hr : (s1.ch Chan.out_channel).ready
    · exact ⟨false, _, send_tokens_false B fuel () s s1 h hr, guardedSend_false _ _ hr,
        by simp⟩
    · obtain ⟨off1, sT, d, hrun, hlog, hd, -, -, -, -, -, -, -, -, -⟩ :=
        get_tokens_spec B s1.sim_data.outputs 0 s1
      refine ⟨true, _, send_tokens_true B fuel () s s1 sT off1 h hr hrun, ⟨?_, ?_, by simp⟩,
        fun _ => ?_⟩
      · simpa using (ready_iff _).1 hr
      · intro _
        exact ⟨by simp [channel_t.release, channel_t.produce], d, by simp [hlog], hd⟩
      · simp [channel_t.release, channel_t.produce, hrun, Res.state]
  · cases hv : (s1.ch Chan.cmd_channel).valid
    · exact ⟨false, cmd, _, recv_cmd_false fuel cmd s s1 h hv, guardedRecv_false _ _ hv,
        by simp, by simp⟩
    · refine ⟨true, _, _, recv_cmd_true fuel cmd s s1 h hv, ⟨?_, ?_, by simp⟩, by simp,
        by simp⟩
      · simpa using (valid_iff _).1 hv
      · intro _
        exact ⟨by simp [channel_t.release, channel_t.consume], [], by simp, by simp⟩
  · cases hv : (s1.ch Chan.cmd_channel).valid
    · exact ⟨false, path, _, recv_cmd_str_false fuel path s s1 h hv, guardedRecv_false _ _ hv,
        by simp, by simp⟩
    · refine ⟨true, _, _, recv_cmd_str_true fuel path s s1 h hv, ⟨?_, ?_, by simp⟩, by simp,
        by simp⟩
      · simpa using (valid_iff _).1 hv
      · intro _
        exact ⟨by simp [channel_t.release, channel_t.consume], [], by simp, by simp⟩
  · cases hv : (s1.ch Chan.in_channel).valid
    · exact ⟨false, _, recv_value_false B obj force fuel () s s1 h hv,
        guardedRecv_false _ _ hv⟩
    · refine ⟨true, _, recv_value_true B obj force fuel () s s1 h hv, ⟨?_, ?_, by simp⟩⟩
      · simpa using (valid_iff _).1 hv
      · intro _
        exact ⟨by simp [channel_t.release, channel_t.consume],
          [Event.put_value obj 0 force
            (B.put_value obj (s1.ch Chan.in_channel).words 0 force s1.backend).1], by simp,
          fun e he => by rw [List.mem_singleton.1 he]; exact ⟨_, _, _, _, rfl⟩⟩
  · cases hv : (s1.ch Chan.in_channel).valid
    · exact ⟨false, _, recv_tokens_false B fuel () s s1 h hv, guardedRecv_false _ _ hv⟩
    · obtain ⟨off1, sT, d, hrun, hlog, hd, -, -, -, hch⟩ :=
        put_tokens_spec B s1.sim_data.inputs 0 s1
      refine ⟨true, _, recv_tokens_true B fuel () s s1 sT off1 h hv hrun, ⟨?_, ?_, by simp⟩⟩
      · simpa using (valid_iff _).1 hv
      · intro _
        exact ⟨by simp [channel_t.release, channel_t.consume], d, by simp [hlog],
          fun e he => by
            obtain ⟨sig, o, n, rfl⟩ := hd e he
            exact ⟨sig, o, false, n, rfl⟩⟩
  · exact ⟨_, aquire_free c fuel s hc, by simp [channel_t.want], by simp [channel_t.want],
      by simp [channel_t.want], rfl, rfl⟩

/-- C3 at a fresh dispatcher: `send_resp(7)` finds the output slot empty, returns true,
leaves the flag at 1 and the word 7 in the payload; `recv_cmd` finds the command slot
empty, returns false and leaves its argument 5 alone. -/
theorem guarded_transfer_witness :
    (∃ s2, send_resp 7 0 () (sim_api_t.fresh Nat Unit ()) = Res.ok (true, ()) s2 ∧
      (s2.ch Chan.out_channel).b3 = 1 ∧ (s2.ch Chan.out_channel).get 0 = 7 ∧
      s2.log = [Event.produce Chan.out_channel]) ∧
    (∃ s2, recv_cmd 0 5 (sim_api_t.fresh Nat Unit ()) = Res.ok (false, 5) s2 ∧
      (s2.ch Chan.cmd_channel).b3 = 0 ∧ s2.log = []) := by
  constructor
  · obtain ⟨ret, s2, hrun, hg, hw⟩ :=
      ((guarded_transfer (defaultBackend Nat) 0 (sim_api_t.fresh Nat Unit ())
        { sim_api_t.fresh Nat Unit () with
          ch := Function.update (sim_api_t.fresh Nat Unit ()).ch Chan.out_channel
            channel_t.zero.want }).1 rfl).1 7
    have hret : ret = true := hg.1.2 rfl
    subst hret
    obtain ⟨hflag, d, hlog, hd⟩ := hg.2.1 rfl
    have hs : s2 = (send_resp 7 0 () (sim_api_t.fresh Nat Unit ())).state := by
      rw [hrun]; rfl
    refine ⟨s2, hrun, hflag, hw rfl, ?_⟩
    rw [hs]
    rfl
  · obtain ⟨ret, cmd1, s2, hrun, hg, -, hw⟩ :=
      ((guarded_transfer (defaultBackend Nat) 0 (sim_api_t.fresh Nat Unit ())
        { sim_api_t.fresh Nat Unit () with
          ch := Function.update (sim_api_t.fresh Nat Unit ()).ch Chan.cmd_channel
            channel_t.zero.want }).2.1 rfl).1 5
    have hret : ret = false := by
      cases ret
      · rfl
      · exact absurd (hg.1.1 rfl) (by decide)
    subst hret
    obtain ⟨hflag, -, -, -, hlog⟩ := hg.2.2 rfl
    rw [hw rfl] at hrun
    exact ⟨s2, hrun, hflag, hlog⟩

/-- C4 (as stated, refuted): the opcode word 4294967296 = 2^32 is at least 10, yet the
command loop handles it under the label `RESET` and exits after it: with room for one
iteration only, the loop returns, having invoked the reset hook. -/
theorem opcode_word_counterexample :
    10 ≤ 4294967296 ∧
    (cmdLoop (defaultBackend Nat) 1 1 (sim_api_t.withCmd Nat Unit () 4294967296)).returned
      = true ∧
    (cmdLoop (defaultBackend Nat) 1 1 (sim_api_t.withCmd Nat Unit () 4294967296)).state.log
      = [Event.consume Chan.cmd_channel, Event.opcode 4294967296, Event.reset] := by
  decide

/-- C4 (amended): let the command loop receive the opcode word `c` and let its handling
return normally, with `ex` the value of `exit`. The `switch` selects the label by the
word modulo 2^32 (the conversion to `SIM_CMD`). The loop exits after handling `c` iff
`c mod 2^32` is 0 (RESET), 1 (STEP), 2 (UPDATE) or 9 (FIN); otherwise, that is for
`c mod 2^32` in 3..8 or at least 10, it goes on with the next iteration, which receives
another opcode. For `c < 2^32` this is the condition on `c` itself. The enumerators have
exactly the values RESET=0, ..., FIN=9. -/
theorem opcode_ends_tick {T β : Type} (B : Backend T β) (fuel n c : Nat)
    (s0 s s1 : sim_api_t T β) (ex : Bool)
    (hrecv : retry (recv_cmd fuel) fuel 0 s0 = Res.ok c s)
    (hdisp : dispatch B fuel c { s with log := s.log ++ [Event.opcode c] } = Res.ok ex s1) :
    (ex = true ↔ c % 2 ^ 32 = 0 ∨ c % 2 ^ 32 = 1 ∨ c % 2 ^ 32 = 2 ∨ c % 2 ^ 32 = 9) ∧
    cmdLoop B fuel (n + 1) s0 = (if ex then Res.ok () s1 else cmdLoop B fuel n s1) ∧
    (c < 2 ^ 32 → (ex = true ↔ c = 0 ∨ c = 1 ∨ c = 2 ∨ c = 9)) ∧
    (∀ k, castCmd c = some k ↔ c % 2 ^ 32 = k.val) ∧
    (SIM_CMD.RESET.val = 0 ∧ SIM_CMD.STEP.val = 1 ∧ SIM_CMD.UPDATE.val = 2 ∧
      SIM_CMD.POKE.val = 3 ∧ SIM_CMD.PEEK.val = 4 ∧ SIM_CMD.FORCE.val = 5 ∧
      SIM_CMD.GETID.val = 6 ∧ SIM_CMD.GETCHK.val = 7 ∧ SIM_CMD.SETCLK.val = 8 ∧
      SIM_CMD.FIN.val = 9) := by
  have hex := dispatch_ok_exit B fuel c _ s1 ex hdisp
  simp only [castCmd_eq_some, SIM_CMD.val, ENUM_MOD] at hex
  refine ⟨hex, ?_, ?_, fun k => by simpa [ENUM_MOD] using castCmd_eq_some c k,
    by simp [SIM_CMD.val]⟩
  · have hloop : cmdLoop B fuel (n + 1) s0 =
        M.bind (retry (recv_cmd fuel) fuel 0) (fun cmd => M.bind (emit (Event.opcode cmd))
          (fun _ => M.bind (dispatch B fuel cmd)
            (fun e => if e then pure () else cmdLoop B fuel n))) s0 := rfl
    rw [hloop, bind_ok _ _ _ _ _ hrecv]
    have hemit : (emit (Event.opcode c) : M (sim_api_t T β) Unit) s
        = Res.ok () { s with log := s.log ++ [Event.opcode c] } := rfl
    rw [bind_ok _ _ _ _ _ hemit, bind_ok _ _ _ _ _ hdisp]
    cases ex <;> rfl
  · intro hlt
    rw [Nat.mod_eq_of_lt hlt] at hex
    exact hex

/-- C4 (amended) at a fresh dispatcher whose command slot holds 9 (FIN): the loop
returns after this opcode, having invoked the finish hook. -/
theorem opcode_ends_tick_witness :
    (cmdLoop (defaultBackend Nat) 1 1 (sim_api_t.withCmd Nat Unit () 9)).returned = true ∧
    (cmdLoop (defaultBackend Nat) 1 1 (sim_api_t.withCmd Nat Unit () 9)).state.log
      = [Event.consume Chan.cmd_channel, Event.opcode 9, Event.finish] := by
  have h := (opcode_ends_tick (defaultBackend Nat) 1 0 9
    (sim_api_t.withCmd Nat Unit () 9)
    (retry (recv_cmd 1) 1 0 (sim_api_t.withCmd Nat Unit () 9)).state
    (dispatch (defaultBackend Nat) 1 9
        { (retry (recv_cmd 1) 1 0 (sim_api_t.withCmd Nat Unit () 9)).state with
          log := [Event.consume Chan.cmd_channel, Event.opcode 9] }).state
    true rfl rfl).2.1
  rw [h]
  exact ⟨rfl, rfl⟩

/-- C5: fatal unresolved handle. Let the handler of POKE, FORCE, PEEK or GETCHK have
received the id `id` from the command channel (one `consume()` there), with `id` inside
the generic signal list and `obj` its entry. If `obj` is a null handle, each of the four
handlers invokes the finish hook once and then calls `exit(2)`: the log is extended by the
command-channel `consume()` and `finish` only, so nothing is consumed from the input-data
channel, nothing is produced on the output-data channel, and `put_value`, `get_value`
and `get_chunk` are not called. If `obj` is not null, none of the four handlers exits
and, whatever the outcome, what they do after receiving the id is data transfer and
lookup only: `finish` is not invoked. -/
theorem fatal_unresolved_handle {T β : Type} (B : Backend T β) (fuel id : Nat)
    (s s1 : sim_api_t T β) (obj : T)
    (hrecv : retry (recv_cmd fuel) fuel 0 s = Res.ok id s1)
    (hobj : s.sim_data.signals[id]? = some obj) :
    s1.log = s.log ++ [Event.consume Chan.cmd_channel] ∧
    (B.isNull obj = true →
      ∀ r ∈ [poke B false fuel s, poke B true fuel s, peek B fuel s, getchk B fuel s],
        r = Res.exited 2 { s1 with
          backend := B.finish s.backend,
          log := s.log ++ [Event.consume Chan.cmd_channel, Event.finish] }) ∧
    (B.isNull obj = false →
      ∀ r ∈ [poke B false fuel s, poke B true fuel s, peek B fuel s, getchk B fuel s],
        r.alive = true ∧
        ∃ d, r.state.log = s.log ++ [Event.consume Chan.cmd_channel] ++ d ∧
          ∀ e ∈ d, e.benign = true) := by
  obtain ⟨hlog, hback, hdata, -⟩ := retry_recv_cmd_ok fuel fuel 0 s s1 id hrecv
  have hobj1 : s1.sim_data.signals[id]? = some obj := by rw [hdata]; exact hobj
  refine ⟨hlog, fun hnull r hr => ?_, fun hnn r hr => ?_⟩
  · have hst : ({ s1 with
          backend := B.finish s1.backend,
          log := s1.log ++ [Event.finish] } : sim_api_t T β) =
        { s1 with
          backend := B.finish s.backend,
          log := s.log ++ [Event.consume Chan.cmd_channel, Event.finish] } := by
      rw [hlog, hback]; simp
    have hfin := congrArg (Res.exited 2 : sim_api_t T β → Res (sim_api_t T β) Unit) hst
    simp only [List.mem_cons, List.mem_singleton, List.not_mem_nil, or_false] at hr
    rcases hr with rfl | rfl | rfl | rfl
    · rw [poke_eq B false fuel id s s1 obj hrecv hobj1, null_branch B obj s1 _ hnull, hfin]
    · rw [poke_eq B true fuel id s s1 obj hrecv hobj1, null_branch B obj s1 _ hnull, hfin]
    · rw [peek_eq B fuel id s s1 obj hrecv hobj1, null_branch B obj s1 _ hnull, hfin]
    · rw [getchk_eq B fuel id s s1 obj hrecv hobj1, null_branch B obj s1 _ hnull, hfin]
  · have key : ∀ (m : M (sim_api_t T β) Unit), Safe (fun e => e.benign = true) m →
        (m s1).alive = true ∧ ∃ d, (m s1).state.log
          = s.log ++ [Event.consume Chan.cmd_channel] ++ d ∧ ∀ e ∈ d, e.benign = true := by
      intro m hm
      obtain ⟨ha, -, -, d, hd, hp⟩ := hm s1
      exact ⟨ha, d, by rw [hd, hlog], hp⟩
    simp only [List.mem_cons, List.mem_singleton, List.not_mem_nil, or_false] at hr
    rcases hr with rfl | rfl | rfl | rfl
    · rw [poke_eq B false fuel id s s1 obj hrecv hobj1, nonnull_branch B obj s1 _ hnn]
      exact key _ (safe_retry _ (fun u => safe_recv_value B obj false fuel u) fuel ())
    · rw [poke_eq B true fuel id s s1 obj hrecv hobj1, nonnull_branch B obj s1 _ hnn]
      exact key _ (safe_retry _ (fun u => safe_recv_value B obj true fuel u) fuel ())
    · rw [peek_eq B fuel id s s1 obj hrecv hobj1, nonnull_branch B obj s1 _ hnn]
      exact key _ (safe_retry _ (fun u => safe_send_value B obj fuel u) fuel ())
    · rw [getchk_eq B fuel id s s1 obj hrecv hobj1, nonnull_branch B obj s1 _ hnn]
      exact key _ (safe_bind (safe_call_get_chunk B obj)
        (fun chunk => safe_retry _ (fun u => safe_send_resp chunk fuel u) fuel ()))

/-- C5 at a dispatcher whose signal list is `[0, 5]` (handle 0 is null) and whose
command slot holds the id 0: `poke` exits with status 2 after the command-channel
`consume()` and one call of the finish hook. -/
theorem fatal_unresolved_handle_witness :
    (poke (defaultBackend Nat) false 1
        (sim_api_t.withSignals Nat Unit () 0 [0, 5])).exitCode = some 2 ∧
    (poke (defaultBackend Nat) false 1
        (sim_api_t.withSignals Nat Unit () 0 [0, 5])).state.log
      = [Event.consume Chan.cmd_channel, Event.finish] := by
  have h := (fatal_unresolved_handle (defaultBackend Nat) 1 0
    (sim_api_t.withSignals Nat Unit () 0 [0, 5])
    (retry (recv_cmd 1) 1 0 (sim_api_t.withSignals Nat Unit () 0 [0, 5])).state
    0 rfl rfl).2.1 rfl _ (List.mem_cons_self _ _)
  rw [h]
  exact ⟨rfl, rfl⟩

/-- C6: GETID resolution and non-fatal miss. Let `getid` have received the path `p`.
If `p` is a key of `signal_map`, a `getid` that returns has sent the response word
`signal_map[p]` and has only consumed the path and produced that one response: `search`
was not called. Otherwise it has called `search(p)` once and sent its result converted to
`size_t`: the result itself when it is not negative, and when it is negative a word
that reads back, as a signed 64-bit integer, as that same negative value (-1 for the
default `search`). In every case and whatever the outcome, `getid` does not exit and
reaches no undefined access, invokes no lifecycle hook (so not `finish`), and leaves the
registry and the latch unchanged; handling GETID leaves `exit` false, so the command
loop continues. And `getid` does return, with its one response, as soon as the tester
leaves the output slot free: not wanting the channel and the slot empty after its next
turn. -/
theorem getid_resolution {T β : Type} (B : Backend T β) (fuel : Nat) (s s1 : sim_api_t T β)
    (p : String) (hrecv : retry (recv_cmd_str fuel) fuel "" s = Res.ok p s1) :
    (∀ id, s.sim_data.signal_map p = some id → ∀ s2, getid B fuel s = Res.ok () s2 →
      (s2.ch Chan.out_channel).get 0 = id ∧
      s2.log = s.log ++ [Event.consume Chan.cmd_channel, Event.produce Chan.out_channel] ∧
      s2.backend = s.backend) ∧
    (s.sim_data.signal_map p = none → ∀ s2, getid B fuel s = Res.ok () s2 →
      (s2.ch Chan.out_channel).get 0 = intToSize (toInt (B.search p s.backend).1) ∧
      (0 ≤ toInt (B.search p s.backend).1 →
        (((s2.ch Chan.out_channel).get 0 : Nat) : Int) = toInt (B.search p s.backend).1) ∧
      (toInt (B.search p s.backend).1 < 0 →
        asSigned ((s2.ch Chan.out_channel).get 0) = toInt (B.search p s.backend).1) ∧
      s2.log = s.log ++ [Event.consume Chan.cmd_channel, Event.search p,
        Event.produce Chan.out_channel] ∧
      s2.backend = (B.search p s.backend).2) ∧
    (B.search = defaultSearch → toInt (B.search p s.backend).1 = -1) ∧
    ((getid B fuel s).alive = true ∧ (getid B fuel s).state.sim_data = s.sim_data ∧
      (getid B fuel s).state.is_reset = s.is_reset ∧
      ∃ d, (getid B fuel s).state.log = s.log ++ d ∧ ∀ e ∈ d, e.benign = true) ∧
    (∀ c s0 ex sx, castCmd c = some SIM_CMD.GETID → dispatch B fuel c s0 = Res.ok ex sx →
      ex = false) ∧
    (((testerTurn s1).state.ch Chan.out_channel).b0 ≠ 1 →
      ((testerTurn s1).state.ch Chan.out_channel).b3 = 0 →
      (getid B fuel s).returned = true) := by
  obtain ⟨hlog, hback, hdata, -⟩ := retry_recv_cmd_str_ok fuel fuel "" s s1 p hrecv
  refine ⟨fun id hmap s2 hrun => ?_, fun hmap s2 hrun => ?_, fun hdef => ?_,
    safe_getid B fuel s, fun c s0 ex sx hc hd => ?_, fun hwant hflag => ?_⟩
  · rw [getid_hit B fuel s s1 p id hrecv (by rw [hdata]; exact hmap)] at hrun
    obtain ⟨h1, -, h3, h4, -, -⟩ := retry_send_resp_ok id fuel fuel () s1 s2 hrun
    exact ⟨h1, by rw [h3, hlog]; simp, h4.trans hback⟩
  · rw [getid_miss B fuel s s1 p hrecv (by rw [hdata]; exact hmap)] at hrun
    obtain ⟨h1, -, h3, h4, -, -⟩ := retry_send_resp_ok _ fuel fuel () _ s2 hrun
    rw [hback] at h1 h4
    refine ⟨h1, fun hpos => ?_, fun hneg => ?_, by rw [h3]; simp [hlog], h4⟩
    · rw [h1]
      exact intToSize_nonneg _ hpos (toInt_range _).2
    · rw [h1]
      exact asSigned_intToSize _ (toInt_range _).1 hneg
  · rw [hdef]
    simp [defaultSearch, toInt]
  · have h := dispatch_ok_exit B fuel c s0 sx ex hd
    rw [hc] at h
    cases ex
    · rfl
    · simp at h
  · cases fuel with
    | zero => cases hrecv
    | succ n =>
      cases hmap : s1.sim_data.signal_map p with
      | some id =>
        rw [getid_hit B (n + 1) s s1 p id hrecv hmap]
        exact retry_send_resp_now id (n + 1) n () s1 hwant hflag
      | none =>
        rw [getid_miss B (n + 1) s s1 p hrecv hmap]
        refine retry_send_resp_now _ (n + 1) n () _ ?_ ?_
        · rw [testerTurn_ch]; exact hwant
        · rw [testerTurn_ch]; exact hflag

/-- C6 at a dispatcher whose registry maps `a.b` to 3: on the path `a.b` the response
is 3 and `search` is not called; on the path `c.d`, which the registry does not hold,
the default `search` gives -1 and the response word reads back as -1. -/
theorem getid_resolution_witness :
    ((getid (defaultBackend Nat) 1
        (sim_api_t.withPath Nat Unit () "a.b"
          (fun p => if p = "a.b" then some 3 else none))).state.ch Chan.out_channel).get 0
      = 3 ∧
    (getid (defaultBackend Nat) 1
        (sim_api_t.withPath Nat Unit () "a.b"
          (fun p => if p = "a.b" then some 3 else none))).state.log
      = [Event.consume Chan.cmd_channel, Event.produce Chan.out_channel] ∧
    asSigned (((getid (defaultBackend Nat) 1
        (sim_api_t.withPath Nat Unit () "c.d"
          (fun p => if p = "a.b" then some 3 else none))).state.ch Chan.out_channel).get 0)
      = -1 := by
  have hit := (getid_resolution (defaultBackend Nat) 1
    (sim_api_t.withPath Nat Unit () "a.b" (fun p => if p = "a.b" then some 3 else none))
    (retry (recv_cmd_str 1) 1 ""
      (sim_api_t.withPath Nat Unit () "a.b"
        (fun p => if p = "a.b" then some 3 else none))).state
    "a.b" rfl).1 3 (by decide) _ rfl
  have miss := (getid_resolution (defaultBackend Nat) 1
    (sim_api_t.withPath Nat Unit () "c.d" (fun p => if p = "a.b" then some 3 else none))
    (retry (recv_cmd_str 1) 1 ""
      (sim_api_t.withPath Nat Unit () "c.d"
        (fun p => if p = "a.b" then some 3 else none))).state
    "c.d" rfl).2.1 (by decide) _ rfl
  exact ⟨hit.1, hit.2.1, (miss.2.2.1 (by decide)).trans (by decide)⟩

/-- C7: outputs before commands. In every execution of `tick()` from a state `s`
(for instance the state left by the previous tick, whose log `s.log` holds that tick's
`put_value`, `step` and `update` calls), whatever the outcome: either the tick is
still trying to publish and has done nothing, or the first thing it did was a
successful `send_tokens`: in a state `s1` with the backend of `s` and an empty output
slot it called `get_value` for the output signals (`batch`) and issued `produce()` on the
output channel, and everything else the tick did (`rest`), in particular every
`consume()` on the command channel and every opcode, comes after that. -/
theorem outputs_before_commands {T β : Type} (B : Backend T β) (fuel : Nat)
    (s : sim_api_t T β) :
    (∃ s1, tick B fuel s = Res.spinning s1 ∧ Quiet s s1) ∨
    (∃ s1 off sT batch rest, Quiet s s1 ∧ (s1.ch Chan.out_channel).b3 = 0 ∧
      get_tokens B s1.sim_data.outputs 0 s1 = Res.ok off sT ∧
      sT.log = s.log ++ batch ∧ (∀ e ∈ batch, ∃ sig o n, e = Event.get_value sig o n) ∧
      (tick B fuel s).state.log
        = s.log ++ batch ++ [Event.produce Chan.out_channel] ++ rest) := by
  rcases retry_send_tokens B fuel fuel () s with
    ⟨s1, h, hq⟩ | ⟨s1, off, sT, hq, hflag, hrun, h⟩
  · exact Or.inl ⟨s1, by rw [tick_eq]; simp [M.bind, h], hq⟩
  · obtain ⟨off1, sT1, batch, hrun1, hlog, hbatch, -⟩ :=
      get_tokens_spec B s1.sim_data.outputs 0 s1
    rw [hrun] at hrun1
    cases hrun1
    obtain ⟨rest, hrest⟩ := grows_afterPublish B fuel
      { sT with
        ch := Function.update sT.ch Chan.out_channel (sT.ch Chan.out_channel).produce.release,
        log := sT.log ++ [Event.produce Chan.out_channel] }
    refine Or.inr ⟨s1, off, sT, batch, rest, hq, hflag, hrun, by rw [hlog, hq.2.2.2], hbatch,
      ?_⟩
    rw [tick_eq]
    show (M.bind _ _ s).state.log = _
    rw [bind_ok _ _ _ _ _ h, hrest, hlog, hq.2.2.2]

/-- C8: post-reset latch. (1) A tick that returns has received opcodes `cs ++ [c]`, the
last of which ended it, and has logged the shape `TickLog`: output batch, `produce()`,
then `start` exactly when the latch was set on entry, then the command loop, which
never invokes `start`; so `start` runs once per tick entered with the latch set and not
at all otherwise, after the batch was published and before any opcode is received.
The latch is set on return iff the tick was ended by RESET: it is set only by RESET and
cleared only together with the `start` call. (2) For two consecutive ticks, the second
invokes `start` exactly once if the first was ended by RESET and not at all otherwise.
(3) Over `k` further ticks during which no RESET is handled, `start` is invoked exactly
once when the run is entered with the latch set (a RESET has just ended a tick) and
`k ≥ 1`, and never when it is entered with the latch clear. -/
theorem post_reset_latch {T β : Type} (B : Backend T β) (fuel : Nat) :
    (∀ s s1 : sim_api_t T β, tick B fuel s = Res.ok () s1 →
      ∃ cs c d, s1.log = s.log ++ d ∧ opcodes d = cs ++ [c] ∧ TickLog s.is_reset c d ∧
        d.countP Event.isStart = (if s.is_reset then 1 else 0) ∧
        (s1.is_reset = true ↔ castCmd c = some SIM_CMD.RESET)) ∧
    (∀ s0 s1 s2 : sim_api_t T β, tick B fuel s0 = Res.ok () s1 →
      tick B fuel s1 = Res.ok () s2 →
      ∃ cs1 c1 d1 d2, s1.log = s0.log ++ d1 ∧ opcodes d1 = cs1 ++ [c1] ∧
        s2.log = s1.log ++ d2 ∧
        d2.countP Event.isStart = (if castCmd c1 = some SIM_CMD.RESET then 1 else 0)) ∧
    (∀ (k : Nat) (s sK : sim_api_t T β), ticks B fuel k s = Res.ok () sK →
      ∃ d, sK.log = s.log ++ d ∧
        ((∀ e ∈ d, e ≠ Event.reset) →
          d.countP Event.isStart = if s.is_reset = true ∧ 0 < k then 1 else 0)) := by
  refine ⟨fun s s1 h => ?_, fun s0 s1 s2 h1 h2 => ?_, ticks_countStart B fuel⟩
  · obtain ⟨c, d, hl, hshape, -, hr⟩ := tick_ok B fuel s s1 h
    obtain ⟨cs, hcs, -⟩ := tickLog_opcodes _ c d hshape
    refine ⟨cs, c, d, hl, hcs, hshape, tickLog_countStart _ c d hshape, ?_⟩
    rw [hr]
    by_cases hc : castCmd c = some SIM_CMD.RESET <;> simp [hc]
  · obtain ⟨c1, d1, hl1, hshape1, -, hr1⟩ := tick_ok B fuel s0 s1 h1
    obtain ⟨c2, d2, hl2, hshape2, -, -⟩ := tick_ok B fuel s1 s2 h2
    obtain ⟨cs1, hcs1, -⟩ := tickLog_opcodes _ c1 d1 hshape1
    refine ⟨cs1, c1, d1, d2, hl1, hcs1, hl2, ?_⟩
    rw [tickLog_countStart _ c2 d2 hshape2, hr1]
    by_cases hc : castCmd c1 = some SIM_CMD.RESET <;> simp [hc]

/-- C8 on a run of two ticks: the first receives RESET, the tester then takes the output
and sends FIN; the second tick publishes its batch, invokes `start` once, and only then
receives FIN. -/
theorem post_reset_latch_witness :
    (ticks (defaultBackend Nat) 1 2
        (sim_api_t.withScript Nat Unit () 0 [id, id, testerSends 9])).state.log
      = [Event.produce Chan.out_channel, Event.consume Chan.cmd_channel, Event.opcode 0,
          Event.reset,
          Event.produce Chan.out_channel, Event.start, Event.consume Chan.cmd_channel,
          Event.opcode 9, Event.finish] ∧
    ∃ cs1 c1 d1 d2,
      (tick (defaultBackend Nat) 1
        (sim_api_t.withScript Nat Unit () 0 [id, id, testerSends 9])).state.log
        = (sim_api_t.withScript Nat Unit () 0 [id, id, testerSends 9]).log ++ d1 ∧
      opcodes d1 = cs1 ++ [c1] ∧
      (tick (defaultBackend Nat) 1 (tick (defaultBackend Nat) 1
        (sim_api_t.withScript Nat Unit () 0 [id, id, testerSends 9])).state).state.log
        = (tick (defaultBackend Nat) 1
          (sim_api_t.withScript Nat Unit () 0 [id, id, testerSends 9])).state.log ++ d2 ∧
      d2.countP Event.isStart = (if castCmd c1 = some SIM_CMD.RESET then 1 else 0) :=
  ⟨by decide!, (post_reset_latch (defaultBackend Nat) 1).2.1
    (sim_api_t.withScript Nat Unit () 0 [id, id, testerSends 9])
    (tick (defaultBackend Nat) 1
      (sim_api_t.withScript Nat Unit () 0 [id, id, testerSends 9])).state
    (tick (defaultBackend Nat) 1 (tick (defaultBackend Nat) 1
      (sim_api_t.withScript Nat Unit () 0 [id, id, testerSends 9])).state).state
    (eq_ok_of_returned _ (by decide!)) (eq_ok_of_returned _ (by decide!))⟩

/-- C9: FIN invokes finish exactly once. A tick that returns (no fatal error) has
received opcodes `cs ++ [c]`, where no opcode of `cs` ends a tick and `c` does. If `c` is
FIN, the finish hook is invoked exactly once during the tick, it is the last thing the
tick does, right after FIN was received, and none of `reset`, `step`, `update` is
invoked in the tick. -/
theorem fin_invokes_finish_once {T β : Type} (B : Backend T β) (fuel : Nat)
    (s s1 : sim_api_t T β) (h : tick B fuel s = Res.ok () s1) :
    ∃ cs c d, s1.log = s.log ++ d ∧ opcodes d = cs ++ [c] ∧
      (∀ c1 ∈ cs, SIM_CMD.endsTick (castCmd c1) = false) ∧
      SIM_CMD.endsTick (castCmd c) = true ∧
      (castCmd c = some SIM_CMD.FIN →
        d.countP Event.isFinish = 1 ∧
        (∃ front, d = front ++ [Event.consume Chan.cmd_channel, Event.opcode c,
          Event.finish]) ∧
        (∀ e ∈ d, e ≠ Event.reset ∧ e ≠ Event.step ∧ e ≠ Event.update)) := by
  obtain ⟨c, d, hl, hshape, -, -⟩ := tick_ok B fuel s s1 h
  obtain ⟨cs, hcs, hnon⟩ := tickLog_opcodes _ c d hshape
  have hends : SIM_CMD.endsTick (castCmd c) = true := by
    obtain ⟨_, _, _, _, _, _, _, _, _, _, _, he⟩ := hshape
    exact he
  refine ⟨cs, c, d, hl, hcs, hnon, hends, fun hc => ?_⟩
  obtain ⟨batch, loop, rfl, hbatch, pre, d0, rfl, hpre, -, -, hnil, -⟩ := hshape
  rw [hnil (Or.inr hc), hc]
  simp only [SIM_CMD.hookEvent, List.append_nil]
  have hfront : ∀ e ∈ batch ++ [Event.produce Chan.out_channel]
      ++ (if s.is_reset = true then [Event.start] else []) ++ pre,
      e.isFinish = false ∧ e ≠ Event.reset ∧ e ≠ Event.step ∧ e ≠ Event.update := by
    intro e he
    simp only [List.mem_append, List.mem_singleton] at he
    rcases he with ((he | he) | he) | he
    · obtain ⟨sig, o, n, rfl⟩ := hbatch e he
      simp [Event.isFinish]
    · rw [he]; simp [Event.isFinish]
    · by_cases hlatch : s.is_reset = true
      · rw [if_pos hlatch] at he
        rw [List.mem_singleton.1 he]
        simp [Event.isFinish]
      · rw [if_neg hlatch] at he
        cases he
    · have := hpre e he
      cases e <;> simp_all [Event.isHook, Event.isFinish]
  refine ⟨?_, ⟨batch ++ [Event.produce Chan.out_channel]
      ++ (if s.is_reset = true then [Event.start] else []) ++ pre, by simp⟩, ?_⟩
  · have hz := countP_eq_zero_of_forall Event.isFinish _ (fun e he => (hfront e he).1)
    have hsplit : batch ++ [Event.produce Chan.out_channel]
          ++ (if s.is_reset = true then [Event.start] else [])
          ++ (pre ++ [Event.consume Chan.cmd_channel, Event.opcode c] ++ [Event.finish])
        = (batch ++ [Event.produce Chan.out_channel]
          ++ (if s.is_reset = true then [Event.start] else []) ++ pre)
          ++ [Event.consume Chan.cmd_channel, Event.opcode c, Event.finish] := by simp
    rw [hsplit, List.countP_append, hz]
    simp [List.countP_cons, Event.isFinish]
  · intro e he
    have hsplit : batch ++ [Event.produce Chan.out_channel]
          ++ (if s.is_reset = true then [Event.start] else [])
          ++ (pre ++ [Event.consume Chan.cmd_channel, Event.opcode c] ++ [Event.finish])
        = (batch ++ [Event.produce Chan.out_channel]
          ++ (if s.is_reset = true then [Event.start] else []) ++ pre)
          ++ [Event.consume Chan.cmd_channel, Event.opcode c, Event.finish] := by simp
    rw [hsplit] at he
    rcases List.mem_append.1 he with he | he
    · exact (hfront e he).2
    · simp only [List.mem_cons, List.mem_singleton, List.not_mem_nil, or_false] at he
      rcases he with rfl | rfl | rfl <;> simp

/-- C9 at a fresh dispatcher whose command slot holds 9 (FIN): the tick publishes its
(empty) batch, receives FIN and invokes `finish` once, as its last action. -/
theorem fin_invokes_finish_once_witness :
    (tick (defaultBackend Nat) 1 (sim_api_t.withCmd Nat Unit () 9)).state.log
      = [Event.produce Chan.out_channel, Event.consume Chan.cmd_channel, Event.opcode 9,
          Event.finish] ∧
    ∃ cs c d,
      (tick (defaultBackend Nat) 1 (sim_api_t.withCmd Nat Unit () 9)).state.log
        = (sim_api_t.withCmd Nat Unit () 9).log ++ d ∧
      opcodes d = cs ++ [c] ∧
      (∀ c1 ∈ cs, SIM_CMD.endsTick (castCmd c1) = false) ∧
      SIM_CMD.endsTick (castCmd c) = true ∧
      (castCmd c = some SIM_CMD.FIN →
        d.countP Event.isFinish = 1 ∧
        (∃ front, d = front ++ [Event.consume Chan.cmd_channel, Event.opcode c,
          Event.finish]) ∧
        (∀ e ∈ d, e ≠ Event.reset ∧ e ≠ Event.step ∧ e ≠ Event.update)) :=
  ⟨rfl, fin_invokes_finish_once (defaultBackend Nat) 1 (sim_api_t.withCmd Nat Unit () 9)
    (tick (defaultBackend Nat) 1 (sim_api_t.withCmd Nat Unit () 9)).state rfl⟩

/-- C10 (as stated, refuted): with output signals whose `get_value` calls return 1,
2^64 - 1 and 1 words, `send_tokens` passes the offsets 0, 1 and 0: the third offset is
not the sum 2^64 of the word counts returned for the first two signals. -/
theorem token_offset_counterexample :
    (send_tokens countBackend 1 ()
        (sim_api_t.withOutputs Nat Unit () [1, 18446744073709551615, 1])).state.log
      = [Event.get_value 1 0 1,
          Event.get_value 18446744073709551615 1 18446744073709551615,
          Event.get_value 1 0 1,
          Event.produce Chan.out_channel] ∧
    sumRet [(Event.get_value 1 0 1 : Event Nat),
        Event.get_value 18446744073709551615 1 18446744073709551615]
      = 18446744073709551616 := by
  decide!

/-- C10 (amended): output batch packing. When `send_tokens` enters its critical section
in `s1` with the output slot empty, it returns true after calling `get_value` once per
output signal, in list order (`d`), and then `produce()`; the call for the k-th signal
gets the payload word offset equal to the sum of the word counts returned by the calls
before it, reduced modulo 2^64 (the offset is a `size_t`), which is that sum itself when
the counts sum to less than 2^64. `recv_tokens` does the same with `put_value`, without
force, over the input signals when the input slot is full. If moreover `get_value`
writes exactly the words it returns the count of (`WritesExactly`) and they sum to less
than 2^64, the payload afterwards holds the concatenation of the signals' values in
output-list order from word 0 on, and its other words are unchanged. -/
theorem token_batch_packing {T β : Type} (B : Backend T β) (fuel : Nat)
    (s s1 : sim_api_t T β) :
    (aquire Chan.out_channel fuel s = Res.ok () s1 → (s1.ch Chan.out_channel).b3 = 0 →
      ∃ d s2, send_tokens B fuel () s = Res.ok (true, ()) s2 ∧
        s2.log = s1.log ++ d ++ [Event.produce Chan.out_channel] ∧
        d.length = s1.sim_data.outputs.length ∧
        (∀ k sig, s1.sim_data.outputs[k]? = some sig →
          ∃ n, d[k]? = some (Event.get_value sig (sumRet (d.take k) % SIZE_MOD) n)) ∧
        (sumRet d < SIZE_MOD → ∀ k sig, s1.sim_data.outputs[k]? = some sig →
          ∃ n, d[k]? = some (Event.get_value sig (sumRet (d.take k)) n))) ∧
    (aquire Chan.in_channel fuel s = Res.ok () s1 → (s1.ch Chan.in_channel).b3 = 1 →
      ∃ d s2, recv_tokens B fuel () s = Res.ok (true, ()) s2 ∧
        s2.log = s1.log ++ d ++ [Event.consume Chan.in_channel] ∧
        d.length = s1.sim_data.inputs.length ∧
        (∀ k sig, s1.sim_data.inputs[k]? = some sig →
          ∃ n, d[k]? = some (Event.put_value sig (sumRet (d.take k) % SIZE_MOD) false n)) ∧
        (sumRet d < SIZE_MOD → ∀ k sig, s1.sim_data.inputs[k]? = some sig →
          ∃ n, d[k]? = some (Event.put_value sig (sumRet (d.take k)) false n))) ∧
    (∀ val : T → β → List Nat, WritesExactly B val →
      (s1.sim_data.outputs.flatMap (fun o => val o s1.backend)).length < SIZE_MOD →
      aquire Chan.out_channel fuel s = Res.ok () s1 → (s1.ch Chan.out_channel).b3 = 0 →
      ∃ s2, send_tokens B fuel () s = Res.ok (true, ()) s2 ∧
        ∀ j, (s2.ch Chan.out_channel).words j =
          if j < (s1.sim_data.outputs.flatMap (fun o => val o s1.backend)).length
          then (s1.sim_data.outputs.flatMap (fun o => val o s1.backend)).getD j 0
          else (s1.ch Chan.out_channel).words j) := by
  refine ⟨fun h hflag => ?_, fun h hflag => ?_, fun val hB hlt h hflag => ?_⟩
  · obtain ⟨off1, sT, d, hrun, hlog, hlen, hk⟩ :=
      get_tokens_offsets B s1.sim_data.outputs 0 s1 (by decide)
    refine ⟨d, _, send_tokens_true B fuel () s s1 sT off1 h ((ready_iff _).2 hflag) hrun,
      by simp [hlog], hlen, fun k sig hs => ?_, fun hsum k sig hs => ?_⟩
    · obtain ⟨n, hn⟩ := hk k sig hs
      exact ⟨n, by simpa using hn⟩
    · obtain ⟨n, hn⟩ := hk k sig hs
      refine ⟨n, ?_⟩
      rw [hn, Nat.zero_add,
        Nat.mod_eq_of_lt (Nat.lt_of_le_of_lt (sumRet_take_le d k) hsum)]
  · obtain ⟨off1, sT, d, hrun, hlog, hlen, hk⟩ :=
      put_tokens_offsets B s1.sim_data.inputs 0 s1 (by decide)
    refine ⟨d, _, recv_tokens_true B fuel () s s1 sT off1 h ((valid_iff _).2 hflag) hrun,
      by simp [hlog], hlen, fun k sig hs => ?_, fun hsum k sig hs => ?_⟩
    · obtain ⟨n, hn⟩ := hk k sig hs
      exact ⟨n, by simpa using hn⟩
    · obtain ⟨n, hn⟩ := hk k sig hs
      refine ⟨n, ?_⟩
      rw [hn, Nat.zero_add,
        Nat.mod_eq_of_lt (Nat.lt_of_le_of_lt (sumRet_take_le d k) hsum)]
  · obtain ⟨off1, sT, hrun, -, hwords⟩ :=
      get_tokens_concat B val hB s1.sim_data.outputs 0 s1 (by omega)
    refine ⟨_, send_tokens_true B fuel () s s1 sT off1 h ((ready_iff _).2 hflag) hrun,
      fun j => ?_⟩
    simp only [Function.update_same, channel_t.release, channel_t.produce]
    rw [hwords j]
    simp

/-- C10 (amended) at output signals whose values have 1, 2 and 3 words: the three
`get_value` calls get the offsets 0, 1 and 3. -/
theorem token_batch_packing_witness :
    (send_tokens countBackend 1 () (sim_api_t.withOutputs Nat Unit () [1, 2, 3])).state.log
      = [Event.get_value 1 0 1, Event.get_value 2 1 2, Event.get_value 3 3 3,
          Event.produce Chan.out_channel] ∧
    ∃ d s2, send_tokens countBackend 1 () (sim_api_t.withOutputs Nat Unit () [1, 2, 3])
        = Res.ok (true, ()) s2 ∧
      s2.log = [] ++ d ++ [Event.produce Chan.out_channel] ∧
      d.length = 3 ∧
      (∀ k sig, [1, 2, 3][k]? = some sig →
        ∃ n, d[k]? = some (Event.get_value sig (sumRet (d.take k) % SIZE_MOD) n)) ∧
      (sumRet d < SIZE_MOD → ∀ k sig, [1, 2, 3][k]? = some sig →
        ∃ n, d[k]? = some (Event.get_value sig (sumRet (d.take k)) n)) :=
  ⟨by decide!, (token_batch_packing countBackend 1
    (sim_api_t.withOutputs Nat Unit () [1, 2, 3])
    { sim_api_t.withOutputs Nat Unit () [1, 2, 3] with
      ch := Function.update (sim_api_t.withOutputs Nat Unit () [1, 2, 3]).ch
        Chan.out_channel channel_t.zero.want }).1 rfl rfl⟩

/-! ### C12: opcode words without a case label -/

/-- C12 (as stated, refuted): the opcode word `2^32 + 9` is at least 10, yet its
handling invokes the `finish` hook and sets `exit`, because the switch is on the word
converted to `SIM_CMD`. -/
theorem unknown_opcode_counterexample :
    10 ≤ 4294967305 ∧
    (dispatch (defaultBackend Nat) 1 4294967305 (sim_api_t.fresh Nat Unit ())).state.log
      = [Event.finish] ∧
    dispatch (defaultBackend Nat) 1 4294967305 (sim_api_t.fresh Nat Unit ())
      = Res.ok true { sim_api_t.fresh Nat Unit () with log := [Event.finish] } := by
  refine ⟨by decide, rfl, rfl⟩

/-- C12 (amended): an opcode word `c` received in the command loop with
`c mod 2^32 >= 10` selects the `default:` label: its handling returns at once with
`exit` false and with the state exactly as it was after the opcode was received (no
hook, no accessor, no channel touched, registry and latch unchanged), receiving the
opcode consumed one payload of the command channel and nothing else, and the loop goes
on to receive the next opcode. -/
theorem unknown_opcode_ignored {T β : Type} (B : Backend T β) (fuel n c : Nat)
    (s0 s : sim_api_t T β)
    (hrecv : retry (recv_cmd fuel) fuel 0 s0 = Res.ok c s)
    (hc : 10 ≤ c % 2 ^ 32) :
    dispatch B fuel c { s with log := s.log ++ [Event.opcode c] }
      = Res.ok false { s with log := s.log ++ [Event.opcode c] } ∧
    s.log = s0.log ++ [Event.consume Chan.cmd_channel] ∧
    cmdLoop B fuel (n + 1) s0
      = cmdLoop B fuel n { s with log := s.log ++ [Event.opcode c] } ∧
    (∀ s1 : sim_api_t T β, dispatch B fuel c s1 = Res.ok false s1) := by
  have hnone : castCmd c = none := (castCmd_eq_none c).2 (by simpa [ENUM_MOD] using hc)
  have hd : ∀ s1 : sim_api_t T β, dispatch B fuel c s1 = Res.ok false s1 := by
    intro s1
    unfold dispatch
    rw [hnone]
    rfl
  refine ⟨hd _, (retry_recv_cmd_ok fuel fuel 0 s0 s c hrecv).1, ?_, hd⟩
  have hloop : cmdLoop B fuel (n + 1) s0 =
      M.bind (retry (recv_cmd fuel) fuel 0) (fun cmd => M.bind (emit (Event.opcode cmd))
        (fun _ => M.bind (dispatch B fuel cmd)
          (fun e => if e then pure () else cmdLoop B fuel n))) s0 := rfl
  rw [hloop, bind_ok _ _ _ _ _ hrecv]
  have hemit : (emit (Event.opcode c) : M (sim_api_t T β) Unit) s
      = Res.ok () { s with log := s.log ++ [Event.opcode c] } := rfl
  rw [bind_ok _ _ _ _ _ hemit, bind_ok _ _ _ _ _ (hd _)]
  rfl

theorem unknown_opcode_ignored_witness :
    (cmdLoop (defaultBackend Nat) 1 2
        (sim_api_t.withScript Nat Unit () 77 [id, testerSends 9])).state.log
      = [Event.consume Chan.cmd_channel, Event.opcode 77, Event.consume Chan.cmd_channel,
          Event.opcode 9, Event.finish] ∧
    dispatch (defaultBackend Nat) 1 77
        { (retry (recv_cmd 1) 1 0
            (sim_api_t.withScript Nat Unit () 77 [id, testerSends 9])).state with
          log := [Event.consume Chan.cmd_channel, Event.opcode 77] }
      = Res.ok false
        { (retry (recv_cmd 1) 1 0
            (sim_api_t.withScript Nat Unit () 77 [id, testerSends 9])).state with
          log := [Event.consume Chan.cmd_channel, Event.opcode 77] } :=
  ⟨by decide!, (unknown_opcode_ignored (defaultBackend Nat) 1 1 77
    (sim_api_t.withScript Nat Unit () 77 [id, testerSends 9])
    (retry (recv_cmd 1) 1 0 (sim_api_t.withScript Nat Unit () 77 [id, testerSends 9])).state
    rfl (by decide)).1⟩

/-! ### C13: the ids of the registry -/

/-- C13 (as stated, refuted): with the three well-formed lines `(a, 1, 2^64 - 1)`,
`(b, 1, 1)`, `(c, 1, 1)`, whose word-counts are all at least 1, the ids assigned are
0, `2^64 - 1` and 0: they are not non-decreasing in file order and not pairwise
distinct. -/
theorem registry_ids_counterexample :
    ((read_signal_map (defaultBackend Nat)
        (some [⟨"a", 1, 18446744073709551615⟩, ⟨"b", 1, 1⟩, ⟨"c", 1, 1⟩])
        (sim_api_t.fresh Nat Unit ())).state.sim_data.signal_map "a" = some 0) ∧
    ((read_signal_map (defaultBackend Nat)
        (some [⟨"a", 1, 18446744073709551615⟩, ⟨"b", 1, 1⟩, ⟨"c", 1, 1⟩])
        (sim_api_t.fresh Nat Unit ())).state.sim_data.signal_map "b"
      = some 18446744073709551615) ∧
    ((read_signal_map (defaultBackend Nat)
        (some [⟨"a", 1, 18446744073709551615⟩, ⟨"b", 1, 1⟩, ⟨"c", 1, 1⟩])
        (sim_api_t.fresh Nat Unit ())).state.sim_data.signal_map "c" = some 0) ∧
    (∀ l ∈ ([⟨"a", 1, 18446744073709551615⟩, ⟨"b", 1, 1⟩, ⟨"c", 1, 1⟩] : List Line),
      1 ≤ l.n) := by
  decide

/-- C13 (amended): for every list of well-formed lines with pairwise distinct paths
whose word-counts sum to less than 2^64, `read_signal_map` returns and the ids it
assigns (`id k` for the k-th line) start at 0, satisfy `id (k+1) = id k + n_k`, are
non-decreasing in file order, are strictly increasing when every word-count is at
least 1, and the half-open ranges `[id k, id k + n_k)` are pairwise disjoint with
union exactly `[0, n_0 + ... + n_(m-1))`. -/
theorem registry_ids_contiguous {T β : Type} (B : Backend T β) (lines : List Line)
    (s : sim_api_t T β)
    (hdistinct : (lines.map Line.path).Nodup)
    (htotal : (lines.map Line.n).sum < SIZE_MOD) :
    ∃ (s1 : sim_api_t T β) (id : Nat → Nat),
      read_signal_map B (some lines) s = Res.ok () s1 ∧
      (∀ k l, lines[k]? = some l → s1.sim_data.signal_map l.path = some (id k)) ∧
      id 0 = 0 ∧
      (∀ k l, lines[k]? = some l → id (k + 1) = id k + l.n) ∧
      (∀ j k, j ≤ k → k < lines.length → id j ≤ id k) ∧
      ((∀ l ∈ lines, 1 ≤ l.n) → ∀ j k, j < k → k < lines.length → id j < id k) ∧
      (∀ j k lj lk, lines[j]? = some lj → lines[k]? = some lk → j ≠ k →
        ∀ x, ¬ (id j ≤ x ∧ x < id j + lj.n ∧ id k ≤ x ∧ x < id k + lk.n)) ∧
      (∀ x, x < (lines.map Line.n).sum ↔
        ∃ k l, lines[k]? = some l ∧ id k ≤ x ∧ x < id k + l.n) := by
  obtain ⟨id1, s1, hrun, _, hin⟩ := read_lines_spec lines 0 s (by decide)
  refine ⟨s1, fun k => ((lines.take k).map Line.n).sum, ?_, ?_, ?_, ?_, ?_, ?_, ?_, ?_⟩
  · simp [read_signal_map, M.bind, hrun]
  · intro k l hk
    have h := hin hdistinct k l hk
    rw [Nat.zero_add] at h
    rw [h, Nat.mod_eq_of_lt (lt_of_le_of_lt (take_sum_le_total lines k) htotal)]
  · simp
  · intro k l hk
    exact take_sum_succ lines k l hk
  · intro j k hjk _
    exact take_sum_mono lines j k hjk
  · intro hpos j k hjk hk
    have hj : j < lines.length := by omega
    have hget : lines[j]? = some lines[j] := List.getElem?_eq_getElem hj
    have h1 := take_sum_next_le lines j k _ hget hjk
    have h2 := hpos lines[j] (List.getElem_mem hj)
    show ((lines.take j).map Line.n).sum < ((lines.take k).map Line.n).sum
    omega
  · intro j k lj lk hj hk hne x hx
    simp only at hx
    rcases Nat.lt_or_gt_of_ne hne with h | h
    · have := take_sum_next_le lines j k lj hj h
      omega
    · have := take_sum_next_le lines k j lk hk h
      omega
  · intro x
    constructor
    · exact take_sum_cover lines x
    · rintro ⟨k, l, hk, _, hhi⟩
      have h1 := take_sum_succ lines k l hk
      have h2 := take_sum_le_total lines (k + 1)
      simp only at hhi
      omega

/-- C13 (amended), at the lines `(a.b, 1, 1)`, `(c.d, 4, 1)`, `(e.f, 8, 2)`, whose
ids are 0, 1 and 2. -/
theorem registry_ids_contiguous_witness :
    (read_signal_map (defaultBackend Nat)
        (some [⟨"a.b", 1, 1⟩, ⟨"c.d", 4, 1⟩, ⟨"e.f", 8, 2⟩])
        (sim_api_t.fresh Nat Unit ())).state.sim_data.signal_map "e.f" = some 2 ∧
    ∃ (s1 : sim_api_t Nat Unit) (id : Nat → Nat),
      read_signal_map (defaultBackend Nat)
        (some [⟨"a.b", 1, 1⟩, ⟨"c.d", 4, 1⟩, ⟨"e.f", 8, 2⟩])
        (sim_api_t.fresh Nat Unit ()) = Res.ok () s1 ∧
      s1.sim_data.signal_map "e.f" = some (id 2) ∧ id 0 = 0 ∧ id 3 = id 2 + 2 := by
  refine ⟨by decide, ?_⟩
  obtain ⟨s1, id, hrun, hmap, h0, hnext, _⟩ :=
    registry_ids_contiguous (defaultBackend Nat)
      [⟨"a.b", 1, 1⟩, ⟨"c.d", 4, 1⟩, ⟨"e.f", 8, 2⟩]
      (sim_api_t.fresh Nat Unit ()) (by decide) (by decide)
  exact ⟨s1, id, hrun, hmap 2 ⟨"e.f", 8, 2⟩ rfl, h0, hnext 2 ⟨"e.f", 8, 2⟩ rfl⟩

/-! ### C14: ids outside the generic signal list -/

/-- C14 (failing input): when the id received by `poke` (POKE and FORCE), `peek` or
`getchk` is not less than the length of `sim_data.signals`, the handler reaches the
unchecked `sim_data.signals[id]`, an access outside the vector: it has consumed the id
and nothing else, `finish` has not been invoked and `exit(2)` is not called. -/
theorem unregistered_id_undefined {T β : Type} (B : Backend T β) (fuel id : Nat)
    (s s1 : sim_api_t T β)
    (hrecv : retry (recv_cmd fuel) fuel 0 s = Res.ok id s1)
    (hid : s1.sim_data.signals.length ≤ id) :
    (∀ force, poke B force fuel s = Res.undef s1) ∧
    peek B fuel s = Res.undef s1 ∧
    getchk B fuel s = Res.undef s1 ∧
    s1.log = s.log ++ [Event.consume Chan.cmd_channel] ∧
    s1.backend = s.backend ∧
    (Res.undef s1 : Res (sim_api_t T β) Unit).exitCode = none := by
  have hnone : (signal_at id s1 : Res _ T) = Res.undef s1 :=
    signal_at_none id s1 (List.getElem?_eq_none hid)
  obtain ⟨hlog, hback, -, -⟩ := retry_recv_cmd_ok fuel fuel 0 s s1 id hrecv
  refine ⟨fun force => ?_, ?_, ?_, hlog, hback, rfl⟩
  · show M.bind (retry (recv_cmd fuel) fuel 0) _ s = _
    rw [bind_ok _ _ _ _ _ hrecv]
    show M.bind (signal_at id) _ s1 = _
    simp only [M.bind, hnone]
  · show M.bind (retry (recv_cmd fuel) fuel 0) _ s = _
    rw [bind_ok _ _ _ _ _ hrecv]
    show M.bind (signal_at id) _ s1 = _
    simp only [M.bind, hnone]
  · show M.bind (retry (recv_cmd fuel) fuel 0) _ s = _
    rw [bind_ok _ _ _ _ _ hrecv]
    show M.bind (signal_at id) _ s1 = _
    simp only [M.bind, hnone]

/-- C14 at the id 0 with an empty signal list: POKE reaches the access outside the
vector with only the id consumed; no `finish`, no exit status. -/
theorem unregistered_id_undefined_witness :
    (poke (defaultBackend Nat) false 1 (sim_api_t.withSignals Nat Unit () 0 [])).exitCode
      = none ∧
    (poke (defaultBackend Nat) false 1 (sim_api_t.withSignals Nat Unit () 0 [])).alive
      = false ∧
    (poke (defaultBackend Nat) false 1 (sim_api_t.withSignals Nat Unit () 0 [])).state.log
      = [Event.consume Chan.cmd_channel] ∧
    poke (defaultBackend Nat) false 1 (sim_api_t.withSignals Nat Unit () 0 [])
      = Res.undef (retry (recv_cmd 1) 1 0 (sim_api_t.withSignals Nat Unit () 0 [])).state :=
  ⟨by decide, by decide, by decide,
    (unregistered_id_undefined (defaultBackend Nat) 1 0
      (sim_api_t.withSignals Nat Unit () 0 [])
      (retry (recv_cmd 1) 1 0 (sim_api_t.withSignals Nat Unit () 0 [])).state
      rfl (by decide)).1 false⟩

/-! ### C17: `operator[]` -/

/-- C17 (failing input): `operator[](1)` is `data()[8]`, the word at byte offset
`4 + 8*8 = 68` of the region, not `data()[1]` at byte offset 12: a write through
`operator[](1)` lands in word 8 and leaves word 1 as it was. Only `operator[](0)` is
the word `data()[0]`. -/
theorem operator_index_scaled :
    channel_t.slot 1 = 8 ∧ 4 + 8 * channel_t.slot 1 = 68 ∧ channel_t.slot 0 = 0 ∧
    (∀ c : channel_t, c.get 1 = c.words 8) ∧
    (∀ (c : channel_t) (v : Nat),
      (c.set 1 v).words 8 = v ∧ (c.set 1 v).words 1 = c.words 1) := by
  refine ⟨by decide, by decide, by decide, fun c => rfl, fun c v => ⟨?_, ?_⟩⟩
  · simp [channel_t.set, channel_t.slot, SIZE_MOD]
  · simp [channel_t.set, channel_t.slot, SIZE_MOD, Function.update]

/-! ### C16: GETCHK -/

/-- C16 (as stated, refuted): with the registry loaded from the lines `(a.b, 1, 1)`,
`(c.d, 4, 1)`, `(e.f, 8, 2)`, non-null handles 1, 2, 3 in the generic signal list and
a backend whose `get_chunk` returns 1, GETCHK on the id 2 of `e.f` sends the response
word 1, not the declared word-count 2. -/
theorem getchk_count_counterexample :
    (read_signal_map (defaultBackend Nat)
        (some [⟨"a.b", 1, 1⟩, ⟨"c.d", 4, 1⟩, ⟨"e.f", 8, 2⟩])
        (sim_api_t.withSignals Nat Unit () 2 [1, 2, 3])).state.sim_data.signal_map "e.f"
      = some 2 ∧
    ((getchk (defaultBackend Nat) 1
        (read_signal_map (defaultBackend Nat)
          (some [⟨"a.b", 1, 1⟩, ⟨"c.d", 4, 1⟩, ⟨"e.f", 8, 2⟩])
          (sim_api_t.withSignals Nat Unit () 2 [1, 2, 3])).state).state.ch
        Chan.out_channel).get 0 = 1 ∧
    (getchk (defaultBackend Nat) 1
        (read_signal_map (defaultBackend Nat)
          (some [⟨"a.b", 1, 1⟩, ⟨"c.d", 4, 1⟩, ⟨"e.f", 8, 2⟩])
          (sim_api_t.withSignals Nat Unit () 2 [1, 2, 3])).state).state.log
      = [Event.consume Chan.cmd_channel, Event.get_chunk 3,
          Event.produce Chan.out_channel] := by
  decide

/-- C16 (amended): let `getchk` have received the id `i` and let `signals[i]` be a
non-null handle `obj`. A `getchk` that returns has called `get_chunk(obj)` once and
sent exactly one response word on the output channel, equal to what `get_chunk`
returned (the declared word-count when the backend reports it so); it has done
nothing else but consume the id. `getchk` returns as soon as the tester leaves the
output slot free, and handling GETCHK leaves `exit` false. -/
theorem getchk_response {T β : Type} (B : Backend T β) (fuel i : Nat) (s s1 : sim_api_t T β)
    (obj : T)
    (hrecv : retry (recv_cmd fuel) fuel 0 s = Res.ok i s1)
    (hobj : s1.sim_data.signals[i]? = some obj)
    (hnonnull : B.isNull obj = false) :
    (∀ s2, getchk B fuel s = Res.ok () s2 →
      (s2.ch Chan.out_channel).get 0 = (B.get_chunk obj s.backend).1 ∧
      (s2.ch Chan.out_channel).b3 = 1 ∧
      s2.log = s.log ++ [Event.consume Chan.cmd_channel, Event.get_chunk obj,
        Event.produce Chan.out_channel] ∧
      s2.backend = (B.get_chunk obj s.backend).2) ∧
    (((testerTurn s1).state.ch Chan.out_channel).b0 ≠ 1 →
      ((testerTurn s1).state.ch Chan.out_channel).b3 = 0 →
      (getchk B fuel s).returned = true) ∧
    (∀ c s0 ex sx, castCmd c = some SIM_CMD.GETCHK → dispatch B fuel c s0 = Res.ok ex sx →
      ex = false) := by
  obtain ⟨hlog, hback, -, -⟩ := retry_recv_cmd_ok fuel fuel 0 s s1 i hrecv
  have heq : getchk B fuel s = retry (send_resp (B.get_chunk obj s1.backend).1 fuel) fuel ()
      { s1 with backend := (B.get_chunk obj s1.backend).2,
                log := s1.log ++ [Event.get_chunk obj] } := by
    rw [getchk_eq B fuel i s s1 obj hrecv hobj, nonnull_branch B obj s1 _ hnonnull]
    rfl
  refine ⟨fun s2 hrun => ?_, fun hwant hflag => ?_, fun c s0 ex sx hc hd => ?_⟩
  · rw [heq] at hrun
    obtain ⟨h1, h2, h3, h4, -, -⟩ := retry_send_resp_ok _ fuel fuel () _ s2 hrun
    rw [hback] at h1 h4
    exact ⟨h1, h2, by rw [h3]; simp [hlog], h4⟩
  · cases fuel with
    | zero => cases hrecv
    | succ n =>
      rw [heq]
      refine retry_send_resp_now _ (n + 1) n () _ ?_ ?_
      · rw [testerTurn_ch]; exact hwant
      · rw [testerTurn_ch]; exact hflag
  · have h := dispatch_ok_exit B fuel c s0 sx ex hd
    rw [hc] at h
    cases ex
    · rfl
    · simp at h

/-- C16 (amended) over a backend whose `get_chunk` returns the handle: with handles
1, 1, 2 for the three lines, GETCHK on the id 2 responds 2. -/
theorem getchk_response_witness :
    ((getchk countBackend 1 (sim_api_t.withSignals Nat Unit () 2 [1, 1, 2])).state.ch
        Chan.out_channel).get 0 = 2 ∧
    (getchk countBackend 1 (sim_api_t.withSignals Nat Unit () 2 [1, 1, 2])).returned = true := by
  have h := getchk_response countBackend 1 2
    (sim_api_t.withSignals Nat Unit () 2 [1, 1, 2])
    (retry (recv_cmd 1) 1 0 (sim_api_t.withSignals Nat Unit () 2 [1, 1, 2])).state
    2 rfl rfl rfl
  exact ⟨(h.1 _ rfl).1, h.2.1 (by decide) (by decide)⟩

/-! ### C15: SETCLK -/

/-- C18: FORCE is POKE with the force flag. The case labels POKE and FORCE both call
`poke`, with force false and true, and leave `exit` false. Let `poke` have received the
id `i` and let `signals[i]` be a non-null handle `obj`. Then from the same state the
two calls either both keep waiting for the value, in the same state, or both return
from the same entry `sc` to the critical section of `recv_value`, where only the
tester has acted since the id was received: each has consumed the id from the command
channel and then the payload from the input channel, has produced nothing, and has
called `put_value` exactly once, on `obj`, at the start of the same payload
`sc.ch in_channel`; the force argument is true for FORCE and false for POKE, and
nothing else distinguishes the two runs. Both return as soon as the tester leaves a
payload in the input slot. -/
theorem force_is_poke {T β : Type} (B : Backend T β) (fuel i : Nat) (s s1 : sim_api_t T β)
    (obj : T)
    (hrecv : retry (recv_cmd fuel) fuel 0 s = Res.ok i s1)
    (hobj : s1.sim_data.signals[i]? = some obj)
    (hnonnull : B.isNull obj = false) :
    ((dispatch B fuel 3 : M (sim_api_t T β) Bool)
        = M.bind (poke B false fuel) (fun _ => pure false) ∧
      (dispatch B fuel 5 : M (sim_api_t T β) Bool)
        = M.bind (poke B true fuel) (fun _ => pure false)) ∧
    (∀ c s0 ex sx, castCmd c = some SIM_CMD.POKE ∨ castCmd c = some SIM_CMD.FORCE →
      dispatch B fuel c s0 = Res.ok ex sx → ex = false) ∧
    ((∃ sc, Quiet s1 sc ∧ ∀ force, poke B force fuel s = Res.spinning sc) ∨
      (∃ sc, Quiet s1 sc ∧ (sc.ch Chan.in_channel).b3 = 1 ∧
        ∀ force, poke B force fuel s = Res.ok ()
          { sc with
            ch := Function.update sc.ch Chan.in_channel
              (sc.ch Chan.in_channel).consume.release,
            backend := (B.put_value obj (sc.ch Chan.in_channel).words 0 force s.backend).2,
            log := s.log ++
              [Event.consume Chan.cmd_channel,
                Event.put_value obj 0 force
                  (B.put_value obj (sc.ch Chan.in_channel).words 0 force s.backend).1,
                Event.consume Chan.in_channel] })) ∧
    (((testerTurn s1).state.ch Chan.in_channel).b0 ≠ 1 →
      ((testerTurn s1).state.ch Chan.in_channel).b3 = 1 →
      ∀ force, (poke B force fuel s).returned = true) := by
  obtain ⟨hlog, hback, -, -⟩ := retry_recv_cmd_ok fuel fuel 0 s s1 i hrecv
  have heq : ∀ force, poke B force fuel s = retry (recv_value B obj force fuel) fuel () s1 := by
    intro force
    rw [poke_eq B force fuel i s s1 obj hrecv hobj, nonnull_branch B obj s1 _ hnonnull]
  refine ⟨⟨rfl, rfl⟩, fun c s0 ex sx hc hd => ?_, ?_, fun hwant hflag force => ?_⟩
  · have h := dispatch_ok_exit B fuel c s0 sx ex hd
    cases ex
    · rfl
    · rcases hc with hc | hc <;> rw [hc] at h <;> simp at h
  · rcases retry_recv_value_pair B obj fuel fuel () s1 with ⟨sc, hq, hc⟩ | ⟨sc, hq, hb, hc⟩
    · exact Or.inl ⟨sc, hq, fun force => by rw [heq, hc]⟩
    · refine Or.inr ⟨sc, hq, hb, fun force => ?_⟩
      rw [heq, hc, hq.2.2.1, hq.2.2.2, hback, hlog]
      simp
  · cases fuel with
    | zero => cases hrecv
    | succ n =>
      rw [heq]
      exact retry_recv_value_now B obj force (n + 1) n () s1 hwant hflag

/-- C18 at the id 0 of the handle 7 with a payload waiting: POKE and FORCE log the
same operations, with force false and true. -/
theorem force_is_poke_witness :
    (dispatch (defaultBackend Nat) 1 3
        (sim_api_t.withValue Nat Unit () 0 (fun _ => 9) [7])).state.log
      = [Event.consume Chan.cmd_channel, Event.put_value 7 0 false 1,
          Event.consume Chan.in_channel] ∧
    (dispatch (defaultBackend Nat) 1 5
        (sim_api_t.withValue Nat Unit () 0 (fun _ => 9) [7])).state.log
      = [Event.consume Chan.cmd_channel, Event.put_value 7 0 true 1,
          Event.consume Chan.in_channel] ∧
    (∀ force, (poke (defaultBackend Nat) force 1
        (sim_api_t.withValue Nat Unit () 0 (fun _ => 9) [7])).returned = true) :=
  ⟨by decide, by decide,
    (force_is_poke (defaultBackend Nat) 1 0
      (sim_api_t.withValue Nat Unit () 0 (fun _ => 9) [7])
      (retry (recv_cmd 1) 1 0 (sim_api_t.withValue Nat Unit () 0 (fun _ => 9) [7])).state
      7 rfl rfl rfl).2.2.2 (by decide) (by decide)⟩

/-! ### C11: the round trip of a token batch through STEP -/

/-- C11: token round-trip through STEP, over the register backend (one one-word
register exposed as the only output `o`; `step` replaces it by `next` of the register
and the input words received). Let the command loop of a tick receive the opcode STEP
in a state `sA` with register `r` and no input pending. When the loop returns, in
`s1`, the tick ends there, and the `send_tokens` that opens the next tick publishes a
batch of one word equal to `next r i`, where `i` is the batch of input words, one per
input signal, taken from the payload of the input channel. The loop returns as soon
as the tester leaves an input payload, and `send_tokens` as soon as it leaves the
output slot empty. The published word depends on `r` and `i` only: two such runs,
whatever their fuel, tester and other state, with the same register and the same input
batch publish the same word. -/
theorem token_round_trip {T : Type} (next : Nat → List Nat → Nat) (fuel n c : Nat)
    (s0 sA : sim_api_t T RegState) (o : T)
    (hrecv : retry (recv_cmd fuel) fuel 0 s0 = Res.ok c sA)
    (hc : castCmd c = some SIM_CMD.STEP)
    (hout : sA.sim_data.outputs = [o])
    (hpend : sA.backend.latched = [])
    (hlen : sA.sim_data.inputs.length ≤ SIZE_MOD) :
    (∀ s1, cmdLoop (registerBackend T next) fuel (n + 1) s0 = Res.ok () s1 →
      ∀ s2, retry (send_tokens (registerBackend T next) fuel) fuel () s1 = Res.ok () s2 →
        (s2.ch Chan.out_channel).words 0 = next sA.backend.reg
          ((List.range sA.sim_data.inputs.length).map (s1.ch Chan.in_channel).words) ∧
        (s2.ch Chan.out_channel).b3 = 1 ∧
        s2.log = s1.log ++ [Event.get_value o 0 1, Event.produce Chan.out_channel] ∧
        s2.backend.reg = (s2.ch Chan.out_channel).words 0) ∧
    (tick (registerBackend T next) fuel
      = M.bind (retry (send_tokens (registerBackend T next) fuel) fuel ())
          (fun _ => afterPublish (registerBackend T next) fuel)) ∧
    (((testerTurn sA).state.ch Chan.in_channel).b0 ≠ 1 →
      ((testerTurn sA).state.ch Chan.in_channel).b3 = 1 →
      (cmdLoop (registerBackend T next) fuel (n + 1) s0).returned = true) ∧
    (∀ s1 : sim_api_t T RegState, ((testerTurn s1).state.ch Chan.out_channel).b0 ≠ 1 →
      ((testerTurn s1).state.ch Chan.out_channel).b3 = 0 →
      (retry (send_tokens (registerBackend T next) fuel) fuel () s1).returned = true) ∧
    (∀ (fuel1 n1 c1 : Nat) (t0 tA t1 t2 s1 s2 : sim_api_t T RegState) (o1 : T),
      retry (recv_cmd fuel1) fuel1 0 t0 = Res.ok c1 tA → castCmd c1 = some SIM_CMD.STEP →
      tA.sim_data.outputs = [o1] → tA.backend.latched = [] →
      tA.sim_data.inputs.length ≤ SIZE_MOD →
      cmdLoop (registerBackend T next) fuel1 (n1 + 1) t0 = Res.ok () t1 →
      retry (send_tokens (registerBackend T next) fuel1) fuel1 () t1 = Res.ok () t2 →
      cmdLoop (registerBackend T next) fuel (n + 1) s0 = Res.ok () s1 →
      retry (send_tokens (registerBackend T next) fuel) fuel () s1 = Res.ok () s2 →
      tA.backend.reg = sA.backend.reg →
      (List.range tA.sim_data.inputs.length).map (t1.ch Chan.in_channel).words
        = (List.range sA.sim_data.inputs.length).map (s1.ch Chan.in_channel).words →
      (t2.ch Chan.out_channel).words 0 = (s2.ch Chan.out_channel).words 0) := by
  have hrun : ∀ s1, cmdLoop (registerBackend T next) fuel (n + 1) s0 = Res.ok () s1 →
      ∀ s2, retry (send_tokens (registerBackend T next) fuel) fuel () s1 = Res.ok () s2 →
        (s2.ch Chan.out_channel).words 0 = next sA.backend.reg
          ((List.range sA.sim_data.inputs.length).map (s1.ch Chan.in_channel).words) ∧
        (s2.ch Chan.out_channel).b3 = 1 ∧
        s2.log = s1.log ++ [Event.get_value o 0 1, Event.produce Chan.out_channel] ∧
        s2.backend.reg = (s2.ch Chan.out_channel).words 0 := by
    intro s1 hloop s2 hsend
    obtain ⟨h1, -, -, h4⟩ :=
      round_trip_run next fuel n c s0 sA s1 o hrecv hc hout hpend hlen hloop
    obtain ⟨g1, g2, g3, g4⟩ := h4 s2 hsend
    exact ⟨g1.trans h1, g2, g3, by rw [g4, g1]⟩
  refine ⟨hrun, tick_eq _ fuel, fun hwant hflag => ?_, fun s1 hwant hflag => ?_, ?_⟩
  · cases fuel with
    | zero => cases hrecv
    | succ m =>
      have hloopdef : cmdLoop (registerBackend T next) (m + 1) (n + 1) s0 =
          M.bind (retry (recv_cmd (m + 1)) (m + 1) 0) (fun cmd =>
            M.bind (emit (Event.opcode cmd))
              (fun _ => M.bind (dispatch (registerBackend T next) (m + 1) cmd)
                (fun e => if e then pure ()
                  else cmdLoop (registerBackend T next) (m + 1) n))) s0 := rfl
      have hemit : (emit (Event.opcode c) : M (sim_api_t T RegState) Unit) sA
          = Res.ok () { sA with log := sA.log ++ [Event.opcode c] } := rfl
      have hdisp : dispatch (registerBackend T next) (m + 1) c =
          M.bind (retry (recv_tokens (registerBackend T next) (m + 1)) (m + 1) ())
            (fun _ => M.bind (hook (registerBackend T next).step Event.step)
              (fun _ => pure true)) := by
        unfold dispatch
        rw [hc]
        rfl
      have hret := retry_recv_tokens_now (registerBackend T next) (m + 1) m ()
        { sA with log := sA.log ++ [Event.opcode c] }
        (by rw [testerTurn_ch]; exact hwant) (by rw [testerTurn_ch]; exact hflag)
      obtain ⟨sR, hR⟩ : ∃ sR, retry (recv_tokens (registerBackend T next) (m + 1)) (m + 1) ()
          { sA with log := sA.log ++ [Event.opcode c] } = Res.ok () sR :=
        ⟨_, eq_ok_of_returned _ hret⟩
      rw [hloopdef, bind_ok _ _ _ _ _ hrecv, bind_ok _ _ _ _ _ hemit, hdisp]
      simp only [M.bind, hR]
      rfl
  · cases fuel with
    | zero => cases hrecv
    | succ m => exact retry_send_tokens_now (registerBackend T next) (m + 1) m () s1 hwant hflag
  · intro fuel1 n1 c1 t0 tA t1 t2 s1 s2 o1 hr1 hc1 ho1 hp1 hl1 hloop1 hsend1 hloop hsend hreg
      hbatch
    obtain ⟨h1, -, -, h4⟩ :=
      round_trip_run next fuel1 n1 c1 t0 tA t1 o1 hr1 hc1 ho1 hp1 hl1 hloop1
    rw [(h4 t2 hsend1).1, h1, (hrun s1 hloop s2 hsend).1, hreg, hbatch]

/-- C11 over a register that counts the input words modulo 2: from the register 0
and the input batch 1, 0 the word published after STEP is 1. -/
theorem token_round_trip_witness :
    ((retry (send_tokens (registerBackend Nat (fun r i => (r + i.sum) % 2)) 1) 1 ()
        (cmdLoop (registerBackend Nat (fun r i => (r + i.sum) % 2)) 1 1
          (sim_api_t.withTokens Nat RegState ⟨0, []⟩ 1 (fun j => if j = 0 then 1 else 0)
            [10, 11] [20])).state).state.ch Chan.out_channel).words 0 = 1 ∧
    (cmdLoop (registerBackend Nat (fun r i => (r + i.sum) % 2)) 1 1
        (sim_api_t.withTokens Nat RegState ⟨0, []⟩ 1 (fun j => if j = 0 then 1 else 0)
          [10, 11] [20])).returned = true := by
  have h := token_round_trip (fun r i => (r + i.sum) % 2) 1 0 1
    (sim_api_t.withTokens Nat RegState ⟨0, []⟩ 1 (fun j => if j = 0 then 1 else 0)
      [10, 11] [20])
    (retry (recv_cmd 1) 1 0
      (sim_api_t.withTokens Nat RegState ⟨0, []⟩ 1 (fun j => if j = 0 then 1 else 0)
        [10, 11] [20])).state
    20 rfl rfl rfl rfl (by decide)
  exact ⟨by decide!, h.2.2.1 (by decide!) (by decide!)⟩

/-! ### C19: the simulator's want-flag outside the channel operations -/

/-- C19: each of `recv_cmd` (both overloads), `send_resp`, `recv_value`, `send_value`,
`recv_tokens` and `send_tokens`, whenever it returns and whatever it returns, leaves
byte 1 (the simulator's want-flag) of the channel it used at 0, and does not change
byte 0 (the tester's want-flag) of any channel: with a tester that leaves byte 0 alone,
byte 0 of every channel is after the operation what it was before. The constructor
returns with the want-flag of all three channels at 0. Byte 1 being written by the
simulator only (the tester leaves it alone), a `tick()` entered with all three
want-flags at 0 returns with all three at 0, and so they are 0 after construction and
after any number of ticks that return. -/
theorem want_flag_clear {T β : Type} (B : Backend T β) (fuel : Nat) :
    ((∀ cmd, ReturnsReleased Chan.cmd_channel
          (recv_cmd fuel cmd : M (sim_api_t T β) (Bool × Nat)) ∧
        KeepsPeerFlag (recv_cmd fuel cmd : M (sim_api_t T β) (Bool × Nat))) ∧
      (∀ path, ReturnsReleased Chan.cmd_channel
          (recv_cmd_str fuel path : M (sim_api_t T β) (Bool × String)) ∧
        KeepsPeerFlag (recv_cmd_str fuel path : M (sim_api_t T β) (Bool × String))) ∧
      (∀ value u, ReturnsReleased Chan.out_channel
          (send_resp value fuel u : M (sim_api_t T β) (Bool × Unit)) ∧
        KeepsPeerFlag (send_resp value fuel u : M (sim_api_t T β) (Bool × Unit))) ∧
      (∀ obj force u, ReturnsReleased Chan.in_channel (recv_value B obj force fuel u) ∧
        KeepsPeerFlag (recv_value B obj force fuel u)) ∧
      (∀ obj u, ReturnsReleased Chan.out_channel (send_value B obj fuel u) ∧
        KeepsPeerFlag (send_value B obj fuel u)) ∧
      (∀ u, ReturnsReleased Chan.in_channel (recv_tokens B fuel u) ∧
        KeepsPeerFlag (recv_tokens B fuel u)) ∧
      (∀ u, ReturnsReleased Chan.out_channel (send_tokens B fuel u) ∧
        KeepsPeerFlag (send_tokens B fuel u))) ∧
    (∀ s : sim_api_t T β, ∃ s1, construct s = Res.ok () s1 ∧ WantClear s1 ∧
      s1.tester = s.tester ∧ ∀ c, (s1.ch c).b0 = (s.ch c).b0) ∧
    (∀ s s1 : sim_api_t T β, WantClear s → TesterKeeps channel_t.b1 s.tester →
      tick B fuel s = Res.ok () s1 → WantClear s1 ∧ TesterKeeps channel_t.b1 s1.tester) ∧
    (∀ (n : Nat) (s0 s s1 : sim_api_t T β), TesterKeeps channel_t.b1 s0.tester →
      construct s0 = Res.ok () s → ticks B fuel n s = Res.ok () s1 → WantClear s1) := by
  refine ⟨⟨fun cmd => ⟨?_, ?_⟩, fun path => ⟨?_, ?_⟩, fun value u => ⟨?_, ?_⟩,
    fun obj force u => ⟨?_, ?_⟩, fun obj u => ⟨?_, ?_⟩, fun u => ⟨?_, ?_⟩,
    fun u => ⟨?_, ?_⟩⟩, construct_ok, fun s s1 hw hk hr => ?_, fun n s0 s s1 hk hc hr => ?_⟩
  · exact returnsReleased_of_hoare _ _ (hoare_guarded _ _ _ _ _)
  · exact keepsPeerFlag_of_hoare _ (fun v => hoare_recv_cmd _ v v (flagCycle_b0 v) fuel cmd)
  · exact returnsReleased_of_hoare _ _ (hoare_guarded _ _ _ _ _)
  · exact keepsPeerFlag_of_hoare _
      (fun v => hoare_recv_cmd_str _ v v (flagCycle_b0 v) fuel path)
  · exact returnsReleased_of_hoare _ _ (hoare_guarded _ _ _ _ (fun s _ => (_, ())))
  · exact keepsPeerFlag_of_hoare _
      (fun v => hoare_send_resp _ v v (flagCycle_b0 v) value fuel u)
  · exact returnsReleased_of_hoare _ _ (hoare_guarded _ _ _ _ (fun s _ => (_, ())))
  · exact keepsPeerFlag_of_hoare _
      (fun v => hoare_recv_value B _ v v (flagCycle_b0 v) obj force fuel u)
  · exact returnsReleased_of_hoare _ _ (hoare_guarded _ _ _ _ (fun s _ => (_, ())))
  · exact keepsPeerFlag_of_hoare _
      (fun v => hoare_send_value B _ v v (flagCycle_b0 v) obj fuel u)
  · exact returnsReleased_of_hoare _ _ (hoare_guarded _ _ _ _ (fun s _ => (_, ())))
  · exact keepsPeerFlag_of_hoare _
      (fun v => hoare_recv_tokens B _ v v (flagCycle_b0 v) fuel u)
  · exact returnsReleased_of_hoare _ _ (hoare_guarded _ _ _ _ (fun s _ => (_, ())))
  · exact keepsPeerFlag_of_hoare _
      (fun v => hoare_send_tokens B _ v v (flagCycle_b0 v) fuel u)
  · have h := hoare_tick B channel_t.b1 _ _ flagCycle_b1 fuel s () s1 ⟨hk, hw⟩ hr
    exact ⟨h.2, h.1⟩
  · obtain ⟨s2, h2, hw, ht, -⟩ := construct_ok s0
    rw [h2] at hc
    cases hc
    exact (hoare_ticks B channel_t.b1 _ _ flagCycle_b1 fuel n s () s1
      ⟨by rw [ht]; exact hk, hw⟩ hr).2

/-- C19 at a tester who has put FIN into the command slot: after construction and one
tick the simulator's want-flag is 0 on the three channels. -/
theorem want_flag_clear_witness :
    (ticks (defaultBackend Nat) 1 1
      (construct (sim_api_t.withCmd Nat Unit () 9)).state).returned = true ∧
    WantClear (ticks (defaultBackend Nat) 1 1
      (construct (sim_api_t.withCmd Nat Unit () 9)).state).state :=
  ⟨by decide!, (want_flag_clear (defaultBackend Nat) 1).2.2.2 1
    (sim_api_t.withCmd Nat Unit () 9) _ _ (fun a ha => by cases ha) rfl
    (eq_ok_of_returned _ (by decide!))⟩

/-! ### C20: how far a token batch reaches into the payload -/

/-- C20: payload capacity of a token batch. When `send_tokens` enters its critical
section with the output slot empty it returns true, having called `get_value` once per
output signal (`d`) and then `produce()`, whatever the counts returned: no bound is
checked. Let the calls return the counts `w_0..w_(m-1)`, with sum `W`, and write exactly
that many words each, words that can be addressed (`Addressable`). Then the words
written are exactly the payload words `0..W-1`; so, for a region of `P` bytes with
payload `4..P-1` (payload word `j` being the bytes `4+8j..4+8j+7`), every write lies
inside the region if and only if `4 + 8*W <= P`, that is `W <= 511` for `P = 4096`;
counting the control bytes `1..3`, which `send_tokens` also writes, this holds for every
`P`. For a backend that writes exactly the words of its values, `W` is the number of
words of the values, the payload holds them from word 0 on and its words from `W` on
are unchanged. The same holds for the words read by the `put_value` calls of
`recv_tokens` over the input signals. -/
theorem token_capacity {T β : Type} (B : Backend T β) (fuel : Nat) (s s1 : sim_api_t T β) :
    (aquire Chan.out_channel fuel s = Res.ok () s1 → (s1.ch Chan.out_channel).b3 = 0 →
      ∃ d s2, send_tokens B fuel () s = Res.ok (true, ()) s2 ∧
        s2.log = s1.log ++ d ++ [Event.produce Chan.out_channel] ∧
        d.length = s1.sim_data.outputs.length ∧
        (∀ e ∈ d, ∃ sig o n, e = Event.get_value sig o n) ∧
        (Addressable d →
          (∀ j, (∃ e ∈ d, e.touches j = true) ↔ j < sumRet d) ∧
          (∀ P, 4 ≤ P →
            ((∀ j, (∃ e ∈ d, e.touches j = true) → 4 + 8 * (j + 1) ≤ P) ↔
              4 + 8 * sumRet d ≤ P)) ∧
          (∀ P, (3 < P ∧ ∀ j, (∃ e ∈ d, e.touches j = true) → 4 + 8 * (j + 1) ≤ P) ↔
            4 + 8 * sumRet d ≤ P) ∧
          ((∀ j, (∃ e ∈ d, e.touches j = true) → 4 + 8 * (j + 1) ≤ 4096) ↔
            sumRet d ≤ 511)) ∧
        (∀ val : T → β → List Nat, WritesExactly B val → Addressable d →
          sumRet d = (s1.sim_data.outputs.flatMap (fun o => val o s1.backend)).length ∧
          ∀ j, (s2.ch Chan.out_channel).words j =
            if j < sumRet d
            then (s1.sim_data.outputs.flatMap (fun o => val o s1.backend)).getD j 0
            else (s1.ch Chan.out_channel).words j)) ∧
    (aquire Chan.in_channel fuel s = Res.ok () s1 → (s1.ch Chan.in_channel).b3 = 1 →
      ∃ d s2, recv_tokens B fuel () s = Res.ok (true, ()) s2 ∧
        s2.log = s1.log ++ d ++ [Event.consume Chan.in_channel] ∧
        d.length = s1.sim_data.inputs.length ∧
        (∀ e ∈ d, ∃ sig o n, e = Event.put_value sig o false n) ∧
        (Addressable d →
          (∀ j, (∃ e ∈ d, e.touches j = true) ↔ j < sumRet d) ∧
          (∀ P, 4 ≤ P →
            ((∀ j, (∃ e ∈ d, e.touches j = true) → 4 + 8 * (j + 1) ≤ P) ↔
              4 + 8 * sumRet d ≤ P)) ∧
          (∀ P, (3 < P ∧ ∀ j, (∃ e ∈ d, e.touches j = true) → 4 + 8 * (j + 1) ≤ P) ↔
            4 + 8 * sumRet d ≤ P) ∧
          ((∀ j, (∃ e ∈ d, e.touches j = true) → 4 + 8 * (j + 1) ≤ 4096) ↔
            sumRet d ≤ 511))) := by
  refine ⟨fun h hflag => ?_, fun h hflag => ?_⟩
  · obtain ⟨off1, sT, d, hrun, hlog, hlen, hk⟩ :=
      get_tokens_offsets B s1.sim_data.outputs 0 s1 (by decide)
    obtain ⟨hev, hmod⟩ := offsets_get s1.sim_data.outputs d hlen hk
    refine ⟨d, _, send_tokens_true B fuel () s s1 sT off1 h ((ready_iff _).2 hflag) hrun,
      by simp [hlog], hlen, hev, fun hadd => ?_, fun val hB hadd => ?_⟩
    · obtain ⟨-, hoff⟩ := offsets_exact d hmod hadd
      refine ⟨touched_iff d hoff, fun P hP => inside_iff d hoff P hP,
        fun P => inside_all_iff d hoff P, ?_⟩
      rw [inside_iff d hoff 4096 (by decide)]
      omega
    · obtain ⟨hsum, -⟩ := offsets_exact d hmod hadd
      have hW := get_tokens_sumRet B val hB s1.sim_data.outputs 0 s1 sT off1 d hrun hlog
      obtain ⟨off2, sT2, hrun2, -, hwords⟩ :=
        get_tokens_concat B val hB s1.sim_data.outputs 0 s1 (by rw [← hW]; omega)
      rw [hrun] at hrun2
      cases hrun2
      refine ⟨hW, fun j => ?_⟩
      simp only [Function.update_same, channel_t.release, channel_t.produce]
      rw [hwords j, hW]
      simp
  · obtain ⟨off1, sT, d, hrun, hlog, hlen, hk⟩ :=
      put_tokens_offsets B s1.sim_data.inputs 0 s1 (by decide)
    obtain ⟨hev, hmod⟩ := offsets_put s1.sim_data.inputs d hlen hk
    refine ⟨d, _, recv_tokens_true B fuel () s s1 sT off1 h ((valid_iff _).2 hflag) hrun,
      by simp [hlog], hlen, hev, fun hadd => ?_⟩
    obtain ⟨-, hoff⟩ := offsets_exact d hmod hadd
    refine ⟨touched_iff d hoff, fun P hP => inside_iff d hoff P hP,
      fun P => inside_all_iff d hoff P, ?_⟩
    rw [inside_iff d hoff 4096 (by decide)]
    omega

/-- C20 at output signals with the values `7`, `8 9` and `1 2 3`: the calls write the
payload words 0..5, which fit a region of 52 bytes and no smaller one, and word 6 is
left as it was. -/
theorem token_capacity_witness :
    (send_tokens wordsBackend 1 ()
        (sim_api_t.withOutputs (List Nat) Unit () [[7], [8, 9], [1, 2, 3]])).state.log
      = [Event.get_value [7] 0 1, Event.get_value [8, 9] 1 2, Event.get_value [1, 2, 3] 3 3,
          Event.produce Chan.out_channel] ∧
    ([0, 1, 2, 3, 4, 5, 6].map ((send_tokens wordsBackend 1 ()
        (sim_api_t.withOutputs (List Nat) Unit () [[7], [8, 9], [1, 2, 3]])).state.ch
          Chan.out_channel).words) = [7, 8, 9, 1, 2, 3, 0] ∧
    ∃ d s2, send_tokens wordsBackend 1 ()
        (sim_api_t.withOutputs (List Nat) Unit () [[7], [8, 9], [1, 2, 3]])
        = Res.ok (true, ()) s2 ∧
      d = [Event.get_value [7] 0 1, Event.get_value [8, 9] 1 2,
        Event.get_value [1, 2, 3] 3 3] ∧
      Addressable d ∧
      (∀ j, (∃ e ∈ d, e.touches j = true) ↔ j < sumRet d) ∧
      ((∀ j, (∃ e ∈ d, e.touches j = true) → 4 + 8 * (j + 1) ≤ 52) ↔
        4 + 8 * sumRet d ≤ 52) ∧
      sumRet d = 6 := by
  obtain ⟨d, s2, h1, h2, -, -, h5, h6⟩ := (token_capacity wordsBackend 1
    (sim_api_t.withOutputs (List Nat) Unit () [[7], [8, 9], [1, 2, 3]])
    { sim_api_t.withOutputs (List Nat) Unit () [[7], [8, 9], [1, 2, 3]] with
      ch := Function.update
          (sim_api_t.withOutputs (List Nat) Unit () [[7], [8, 9], [1, 2, 3]]).ch
          Chan.out_channel channel_t.zero.want }).1 rfl rfl
  have hlog : (send_tokens wordsBackend 1 ()
        (sim_api_t.withOutputs (List Nat) Unit () [[7], [8, 9], [1, 2, 3]])).state.log
      = [Event.get_value [7] 0 1, Event.get_value [8, 9] 1 2, Event.get_value [1, 2, 3] 3 3]
          ++ [Event.produce Chan.out_channel] := by decide!
  have hd : d = [Event.get_value [7] 0 1, Event.get_value [8, 9] 1 2,
      Event.get_value [1, 2, 3] 3 3] := by
    have h2a : s2.log = d ++ [Event.produce Chan.out_channel] := h2
    rw [h1] at hlog
    simp only [Res.state] at hlog
    rw [h2a] at hlog
    exact List.append_cancel_right hlog
  have hadd : Addressable d := by
    rw [hd]
    intro e he
    simp only [List.mem_cons, List.mem_singleton, List.not_mem_nil, or_false] at he
    rcases he with rfl | rfl | rfl <;> decide
  exact ⟨by decide!, by decide!, d, s2, h1, hd, hadd, (h5 hadd).1,
    (h5 hadd).2.1 52 (by decide), (h6 (fun sig _ => sig) (fun _ _ _ _ => rfl) hadd).1⟩

end SimApi
